import Mathlib

/-!
# games101-rs : bilinear texture sampling and the path-tracing shading core

A shallow embedding of `src/Assignment3/Texture.cpp` and
`src/Assignment7/Scene.cpp`.

Conventions of the embedding.

* The embedding has two layers.  In the first, `float` values are exact
  rationals (`ℚ`) and `int` values are unbounded integers (`ℤ`); it carries the
  properties of the control flow, of the random stream and of the recursion,
  and the properties stated over exact arithmetic.  The second layer, the
  namespace `Binary32`, repeats the texture sampler, the light sampler and the
  direct term over IEEE 754 binary32 values (round-to-nearest-even, infinities,
  NaN) and 32-bit `int`; it carries the properties that depend on the
  arithmetic of the code.
* C++ leaves the order in which the two operands of `shadeLoDir(..) +
  shadeLoIndir(..)` are evaluated unspecified; the order is a parameter of the
  embedding (`Prims.sumRightFirst`).
* The global random source `get_random_float()` is an explicit stream that is
  threaded through every operation which draws from it.
* The collaborators that the two files only call (pixel fetch, nearest-hit
  oracle, materials, objects, square roots) are fields or parameters.
-/

namespace Games101

/-! ## Vectors and colours -/

/-- Modelled from the spec: the three-component vector / colour type
(`Eigen::Vector3f` in Assignment3, `Vector3f` of `Vector.hpp` in Assignment7;
neither header is under `src/`).  Components are exact rationals. -/
@[ext]
structure Vector3f where
  x : ℚ
  y : ℚ
  z : ℚ
  deriving DecidableEq

namespace Vector3f

/-- Modelled from the spec: the default-constructed vector, the zero colour
("zero radiance (additive identity)"). -/
def zero : Vector3f := ⟨0, 0, 0⟩

/-- Modelled from the spec: component-wise sum `a + b`. -/
def add (a b : Vector3f) : Vector3f := ⟨a.x + b.x, a.y + b.y, a.z + b.z⟩

/-- Modelled from the spec: component-wise difference `a - b`. -/
def sub (a b : Vector3f) : Vector3f := ⟨a.x - b.x, a.y - b.y, a.z - b.z⟩

/-- Modelled from the spec: unary minus `-a`. -/
def neg (a : Vector3f) : Vector3f := ⟨-a.x, -a.y, -a.z⟩

/-- Modelled from the spec: scaling by a float on the left, `r * a`. -/
def scale (r : ℚ) (a : Vector3f) : Vector3f := ⟨r * a.x, r * a.y, r * a.z⟩

/-- Modelled from the spec: scaling by a float on the right, `a * r`. -/
def scaleRight (a : Vector3f) (r : ℚ) : Vector3f := ⟨a.x * r, a.y * r, a.z * r⟩

/-- Modelled from the spec: division by a float, `a / r`. -/
def sdiv (a : Vector3f) (r : ℚ) : Vector3f := ⟨a.x / r, a.y / r, a.z / r⟩

/-- Modelled from the spec: component-wise product of two colours, `a * b`. -/
def mul (a b : Vector3f) : Vector3f := ⟨a.x * b.x, a.y * b.y, a.z * b.z⟩

instance : Zero Vector3f := ⟨zero⟩
instance : Add Vector3f := ⟨add⟩
instance : Sub Vector3f := ⟨sub⟩
instance : Neg Vector3f := ⟨neg⟩
instance : Mul Vector3f := ⟨mul⟩
instance : HMul ℚ Vector3f Vector3f := ⟨scale⟩
instance : HMul Vector3f ℚ Vector3f := ⟨scaleRight⟩
instance : HDiv Vector3f ℚ Vector3f := ⟨sdiv⟩

end Vector3f

/-- Modelled from the spec: `dotProduct(a, b)` of `Vector.hpp`. -/
def dotProduct (a b : Vector3f) : ℚ := a.x * b.x + a.y * b.y + a.z * b.z

/-! ## Assignment3 : `Texture::getColorBilinear` -/

/-- A texture: its pixel dimensions and the pixel fetch `getColor`, which
`Texture.cpp` calls with integer arguments and does not define. -/
structure Texture where
  width : ℤ
  height : ℤ
  getColor : ℤ → ℤ → Vector3f

/-- Lines 24-27 of `Texture.cpp`: two horizontal blends with weight `s`,
then one vertical blend with weight `t`. -/
def bilinearBlend (s t : ℚ) (color1 color2 color3 color4 : Vector3f) : Vector3f :=
  let color12 := (1 - s) * color1 + s * color2
  let color34 := (1 - s) * color3 + s * color4
  (1 - t) * color12 + t * color34

/-- The method `Texture::getColorBilinear(u, v)`. -/
def Texture.getColorBilinear (tex : Texture) (u v : ℚ) : Vector3f :=
  let u_img : ℚ := u * tex.width
  let v_img : ℚ := (1 - v) * tex.height
  let u_min : ℤ := ⌊u_img⌋
  let v_min : ℤ := ⌊v_img⌋
  let u_max : ℤ := ⌈u_img⌉
  let v_max : ℤ := ⌈v_img⌉
  let s : ℚ := u_img - u_min
  let t : ℚ := v_img - v_min
  let color1 := tex.getColor u_min v_min
  let color2 := tex.getColor u_max v_min
  let color3 := tex.getColor u_min v_max
  let color4 := tex.getColor u_max v_max
  bilinearBlend s t color1 color2 color3 color4

/-! ## Assignment7 : the shading core of `Scene.cpp` -/

/-- The random source behind `get_random_float()`: the stream of values it
will return and the number of draws made so far. -/
structure Rng where
  draws : ℕ → ℚ
  pos : ℕ

/-- The function `get_random_float()`: the next draw, and the source advanced by one. -/
def get_random_float (rng : Rng) : ℚ × Rng :=
  (rng.draws rng.pos, { rng with pos := rng.pos + 1 })

/-- The `Material` capability set used by `Scene.cpp` (`Material.hpp` is not
under `src/`).  `sample` may draw from the random source. -/
structure Material where
  hasEmission : Bool
  getEmission : Vector3f
  eval : Vector3f → Vector3f → Vector3f → Vector3f
  sample : Vector3f → Vector3f → Rng → Vector3f × Rng
  pdf : Vector3f → Vector3f → Vector3f → ℚ

/-- The fields of `Intersection` that `Scene.cpp` reads. -/
structure Intersection where
  happened : Bool
  coords : Vector3f
  normal : Vector3f
  distance : ℚ
  emit : Vector3f
  m : Material

/-- A ray `Ray(origin, direction)`. -/
structure Ray where
  origin : Vector3f
  direction : Vector3f

/-- The `Object` capability set used by `Scene::sampleLight`.  `Sample(pos, pdf)`
writes through its two reference parameters and may draw from the random
source, so it maps the entry values of `pos`, `pdf` and the source to their
values on return. -/
structure Object where
  hasEmit : Bool
  getArea : ℚ
  Sample : Intersection → ℚ → Rng → Intersection × ℚ × Rng

/-- The scene: the object list, the nearest-hit oracle `bvh->Intersect` behind
`Scene::intersect`, and the configuration constant `RussianRoulette`. -/
structure Scene where
  objects : List Object
  intersect : Ray → Intersection
  RussianRoulette : ℚ

/-- What `Scene.cpp` leaves to its headers and to the compiler: the
square-root based `norm()` and `normalized()` of `Vector3f` and the
default-constructed `Intersection` (headers not under `src/`), the
indeterminate content of an uninitialised `float` local, and the order in which
the two operands of the sum of line 100 are evaluated, which C++ leaves
unspecified (`sumRightFirst = true`: `shadeLoIndir` runs before
`shadeLoDir`). -/
structure Prims where
  norm : Vector3f → ℚ
  normalized : Vector3f → Vector3f
  defaultIntersection : Intersection
  uninitFloat : ℚ
  sumRightFirst : Bool

/-- Lines 18-23 of `Scene.cpp`: the area of the emissive objects, summed in
scene-list order. -/
def emitAreaSum (objects : List Object) : ℚ :=
  objects.foldl
    (fun emit_area_sum o => if o.hasEmit then emit_area_sum + o.getArea else emit_area_sum) 0

/-- Lines 25-34 of `Scene.cpp`: the selection loop, entered at object index `k`
with running sum `emit_area_sum`.  It returns the index and the object at which
the loop breaks, or `none` when the loop runs to the end of the list. -/
def sampleLightWalk (p : ℚ) : List Object → ℕ → ℚ → Option (ℕ × Object)
  | [], _, _ => none
  | o :: rest, k, emit_area_sum =>
    if o.hasEmit then
      if p ≤ emit_area_sum + o.getArea then some (k, o)
      else sampleLightWalk p rest (k + 1) (emit_area_sum + o.getArea)
    else sampleLightWalk p rest (k + 1) emit_area_sum

/-- Lines 25-34 of `Scene.cpp` for a given drawn value `p`: the object at which
the loop breaks runs its `Sample` on the outputs; when the loop runs to the
end, nothing is written. -/
def sampleLightAt (objects : List Object) (p : ℚ) (pos : Intersection) (pdf : ℚ)
    (rng : Rng) : Intersection × ℚ × Rng :=
  match sampleLightWalk p objects 0 0 with
  | some (_, o) => o.Sample pos pdf rng
  | none => (pos, pdf, rng)

/-- The method `Scene::sampleLight(pos, pdf)`; `pos` and `pdf` are the entry values of
the two reference parameters. -/
def sampleLight (sc : Scene) (pos : Intersection) (pdf : ℚ) (rng : Rng) :
    Intersection × ℚ × Rng :=
  let emit_area_sum := emitAreaSum sc.objects
  let d := get_random_float rng
  let p := d.1 * emit_area_sum
  sampleLightAt sc.objects p pos pdf d.2

/-- The constant `epsilon` of line 58, taken as the decimal `0.0002` in the
layer of exact rationals.  The value of the literal `0.0002f` in the code is
`Binary32.epsilon = 13743895 * 2^-36`, which is slightly smaller. -/
def epsilon : ℚ := 2 / 10000

/-- Lines 65-76 of `Scene.cpp`: the body of `shadeLoDir` after the call of
`sampleLight`, for the light sample `(hitLight, lightPdf)` that call left in
the two locals. -/
def shadeLoDirFrom (env : Prims) (sc : Scene) (inter : Intersection) (wo : Vector3f)
    (hitLight : Intersection) (lightPdf : ℚ) : Vector3f :=
  let obj2Light := hitLight.coords - inter.coords
  let obj2LightDir := env.normalized obj2Light
  let t := sc.intersect ⟨inter.coords, obj2LightDir⟩
  if t.distance - env.norm obj2Light > -epsilon then
    let f_r := inter.m.eval obj2LightDir wo inter.normal
    let r2 := dotProduct obj2Light obj2Light
    let cosA := max 0 (dotProduct inter.normal obj2LightDir)
    let cosB := max 0 (dotProduct hitLight.normal (-obj2LightDir))
    hitLight.emit * f_r * cosA * cosB / r2 / lightPdf
  else
    0

/-- The method `Scene::shadeLoDir(inter, wo)`: the locals `hitLight` (default-constructed)
and `lightPdf` (uninitialised) are handed to `sampleLight`, then lines 65-76
run on what it left in them. -/
def shadeLoDir (env : Prims) (sc : Scene) (inter : Intersection) (wo : Vector3f)
    (rng : Rng) : Vector3f × Rng :=
  let ls := sampleLight sc env.defaultIntersection env.uninitFloat rng
  (shadeLoDirFrom env sc inter wo ls.1 ls.2.1, ls.2.2)

/-- The method `Scene::shadeLoIndir(inter, wo)`, with the callee `shade` of line 89 as
the parameter `shadeRec`; `none` is returned only when `shadeRec` returns it. -/
def shadeLoIndirWith (env : Prims) (sc : Scene)
    (shadeRec : Intersection → Vector3f → Rng → Option (Vector3f × Rng))
    (inter : Intersection) (wo : Vector3f) (rng : Rng) : Option (Vector3f × Rng) :=
  let d := get_random_float rng
  if d.1 < sc.RussianRoulette then
    let smp := inter.m.sample wo inter.normal d.2
    let dir2NextObj := env.normalized smp.1
    let pdf := inter.m.pdf wo dir2NextObj inter.normal
    if pdf > epsilon then
      let nextObj := sc.intersect ⟨inter.coords, dir2NextObj⟩
      if nextObj.happened && !nextObj.m.hasEmission then
        let f_r := inter.m.eval dir2NextObj wo inter.normal
        let cos := max 0 (dotProduct dir2NextObj inter.normal)
        match shadeRec nextObj (-dir2NextObj) smp.2 with
        | some (c, rng1) => some (c * f_r * cos / pdf / sc.RussianRoulette, rng1)
        | none => none
      else some (0, smp.2)
    else some (0, smp.2)
  else some (0, d.2)

/-- The method `Scene::shade(inter, r)`, with the callee `shadeLoIndir` of line 100 as a
parameter.  The two operands of the sum draw from the same random source; they
are evaluated in the order given by `env.sumRightFirst`. -/
def shadeWith (env : Prims) (sc : Scene)
    (indir : Intersection → Vector3f → Rng → Option (Vector3f × Rng))
    (inter : Intersection) (r : Vector3f) (rng : Rng) : Option (Vector3f × Rng) :=
  if inter.m.hasEmission then
    some (inter.m.getEmission, rng)
  else if env.sumRightFirst then
    match indir inter r rng with
    | some (c, rng1) =>
      let dir := shadeLoDir env sc inter r rng1
      some (dir.1 + c, dir.2)
    | none => none
  else
    let dir := shadeLoDir env sc inter r rng
    match indir inter r dir.2 with
    | some (c, rng1) => some (dir.1 + c, rng1)
    | none => none

/-- The method `Scene::shade(inter, r)` where at most `fuel` nested re-entries of `shade`
are followed; `none` when a deeper re-entry would be needed. -/
def shade (env : Prims) (sc : Scene) : ℕ → Intersection → Vector3f → Rng →
    Option (Vector3f × Rng)
  | 0 => shadeWith env sc (shadeLoIndirWith env sc (fun _ _ _ => none))
  | fuel + 1 => shadeWith env sc (shadeLoIndirWith env sc (shade env sc fuel))

/-- The method `Scene::shadeLoIndir(inter, wo)` where at most `fuel` nested calls of
`shade` are followed. -/
def shadeLoIndir (env : Prims) (sc : Scene) : ℕ → Intersection → Vector3f → Rng →
    Option (Vector3f × Rng)
  | 0 => shadeLoIndirWith env sc (fun _ _ _ => none)
  | fuel + 1 => shadeLoIndirWith env sc (shade env sc fuel)

/-- The method `Scene::castRay(ray, depth)`. -/
def castRay (env : Prims) (sc : Scene) (fuel : ℕ) (ray : Ray) (_depth : ℤ) (rng : Rng) :
    Option (Vector3f × Rng) :=
  let inter := sc.intersect ray
  if !inter.happened then some (0, rng)
  else shade env sc fuel inter (-ray.direction) rng

/-- Lines 81-89 of `Scene.cpp` up to the call of `shade`: the arguments
`(nextObj, -dir2NextObj)` and the state of the random source with which
`shadeLoIndir` re-enters `shade`, or `none` when line 89 is not reached. -/
def shadeLoIndirReentry (env : Prims) (sc : Scene) (inter : Intersection) (wo : Vector3f)
    (rng : Rng) : Option (Intersection × Vector3f × Rng) :=
  let d := get_random_float rng
  if d.1 < sc.RussianRoulette then
    let smp := inter.m.sample wo inter.normal d.2
    let dir2NextObj := env.normalized smp.1
    let pdf := inter.m.pdf wo dir2NextObj inter.normal
    if pdf > epsilon then
      let nextObj := sc.intersect ⟨inter.coords, dir2NextObj⟩
      if nextObj.happened && !nextObj.m.hasEmission then
        some (nextObj, -dir2NextObj, smp.2)
      else none
    else none
  else none

/-- The state of the random source on entry to the `shadeLoIndir` of line 100:
the state on entry to `shade` when the right operand is evaluated first,
and the state left by `shadeLoDir` otherwise. -/
def indirEntryRng (env : Prims) (sc : Scene) (inter : Intersection) (wo : Vector3f)
    (rng : Rng) : Rng :=
  if env.sumRightFirst then rng else (shadeLoDir env sc inter wo rng).2

/-- The roulette draw of line 81 made at nesting level `d` of an evaluation of
`shade(inter, wo)`: level 0 is the `shadeLoIndir` called by this `shade`,
level `d + 1` is level `d` of the `shade` it re-enters.  The value is `none`
when the evaluation makes no draw at that level. -/
def rouletteDrawAt (env : Prims) (sc : Scene) : ℕ → Intersection → Vector3f → Rng → Option ℚ
  | 0, inter, wo, rng =>
    if inter.m.hasEmission then none
    else some (get_random_float (indirEntryRng env sc inter wo rng)).1
  | d + 1, inter, wo, rng =>
    if inter.m.hasEmission then none
    else
      match shadeLoIndirReentry env sc inter wo (indirEntryRng env sc inter wo rng) with
      | some (nextObj, w, rng1) => rouletteDrawAt env sc d nextObj w rng1
      | none => none

/-! ## Vocabulary of the light-sampling properties

These definitions follow the wording of the specification, not the code; the
theorems below relate them to `sampleLightWalk` and `emitAreaSum`. -/

/-- The emissive objects (`hasEmit()` true), in scene-list order. -/
def emissiveObjects (objects : List Object) : List Object :=
  objects.filter (fun o => o.hasEmit)

/-- The sum of `getArea()` over the emissive objects among the first `n`
objects of the scene list. -/
def emitAreaOfFirst (objects : List Object) (n : ℕ) : ℚ :=
  ((emissiveObjects (objects.take n)).map (fun o => o.getArea)).sum

/-- The sum of `getArea()` over the emissive objects with scene-list index
`<= k`. -/
def areaThrough (objects : List Object) (k : ℕ) : ℚ := emitAreaOfFirst objects (k + 1)

/-- The number of emissive objects with scene-list index `<= i`: for an
emissive object at index `i`, its position (counted from 1) among the emissive
objects. -/
def emissiveRank (objects : List Object) (i : ℕ) : ℕ :=
  (emissiveObjects (objects.take (i + 1))).length

/-- The value `C_k`: the cumulative emissive area through the `k`-th emissive object,
with `C_0 = 0`. -/
def cumArea (objects : List Object) (k : ℕ) : ℚ :=
  (((emissiveObjects objects).take k).map (fun o => o.getArea)).sum

/-! ## Fixtures used to evaluate the definitions on concrete inputs -/

/-- A random source that always returns `1/2`. -/
def demoRng : Rng := ⟨fun _ => 1 / 2, 0⟩

/-- A non-emissive material with constant BRDF `(1, 1, 1)`, which samples the
normal and reports pdf `1`. -/
def demoDiffuse : Material :=
  ⟨false, ⟨0, 0, 0⟩, fun _ _ _ => ⟨1, 1, 1⟩, fun _ n rng => (n, rng), fun _ _ _ => 1⟩

/-- An emissive material with emission `(8, 8, 8)`. -/
def demoLightMaterial : Material :=
  ⟨true, ⟨8, 8, 8⟩, fun _ _ _ => ⟨0, 0, 0⟩, fun _ n rng => (n, rng), fun _ _ _ => 1⟩

/-- A hit on a diffuse floor at the origin, normal `+z`. -/
def demoInter : Intersection := ⟨true, ⟨0, 0, 0⟩, ⟨0, 0, 1⟩, 1, ⟨0, 0, 0⟩, demoDiffuse⟩

/-- A hit on the light, at height 1 above the origin, normal `-z`. -/
def demoLightInter : Intersection :=
  ⟨true, ⟨0, 0, 1⟩, ⟨0, 0, -1⟩, 1, ⟨8, 8, 8⟩, demoLightMaterial⟩

/-- A miss. -/
def demoMiss : Intersection := ⟨false, ⟨0, 0, 0⟩, ⟨0, 0, 0⟩, 1000, ⟨0, 0, 0⟩, demoDiffuse⟩

/-- Header primitives for axis-aligned test vectors: the norm is the sum of
the squared components (exact on unit axis vectors) and `normalized` is the
identity. -/
def demoPrims : Prims := ⟨fun a => dotProduct a a, fun a => a, demoMiss, 0, true⟩

/-- An emissive object of area `a` whose `Sample` writes `demoLightInter` and
pdf `1 / a`. -/
def demoLight (a : ℚ) : Object := ⟨true, a, fun _ _ rng => (demoLightInter, 1 / a, rng)⟩

/-- A non-emissive object of area `a`. -/
def demoWall (a : ℚ) : Object := ⟨false, a, fun pos pdf rng => (pos, pdf, rng)⟩

/-- A scene with one light of area 2 whose oracle reports a hit at distance
`dist` for every ray. -/
def demoScene (dist : ℚ) : Scene :=
  ⟨[demoWall 5, demoLight 2], fun _ => { demoLightInter with distance := dist }, 4 / 5⟩

/-- A closed box around the same light: the oracle reports the diffuse floor
hit `demoInter` for every ray. -/
def demoBoxScene : Scene := ⟨[demoWall 5, demoLight 2], fun _ => demoInter, 4 / 5⟩

/-- An open scene around the same light: the oracle reports `happened = false`
for every ray, with `dist` left in the `distance` field. -/
def demoOpenScene (dist : ℚ) : Scene :=
  ⟨[demoWall 5, demoLight 2], fun _ => { demoMiss with distance := dist }, 4 / 5⟩

/-- A scene without any emissive object. -/
def demoDarkScene : Scene := ⟨[demoWall 5, demoWall 3], fun _ => demoInter, 4 / 5⟩

/-- A random source whose first two draws are `1/2` and whose later draws are
`9/10`. -/
def demoRngStop : Rng := ⟨fun n => if n < 2 then 1 / 2 else 9 / 10, 0⟩

/-! ## The binary32 layer

The definitions above take `float` as exact rationals.  The definitions of
this section repeat the texture sampler, the light sampler and the direct term
over IEEE 754 binary32 values with round-to-nearest-even after every
operation, and over 32-bit `int`.  The sign of zero is not tracked (`+0` and
`-0` are one value, as for the C++ comparison operators). -/

namespace Binary32

/-- A binary32 value: a finite number, an infinity, or a NaN. -/
inductive F32 where
  | fin (q : ℚ)
  | pinf
  | ninf
  | nan
  deriving DecidableEq

/-- Rounding of a rational to the nearest integer, ties to the even one. -/
def roundHalfEven (x : ℚ) : ℤ :=
  if x - ⌊x⌋ < 1 / 2 then ⌊x⌋
  else if 1 / 2 < x - ⌊x⌋ then ⌊x⌋ + 1
  else if ⌊x⌋ % 2 = 0 then ⌊x⌋ else ⌊x⌋ + 1

/-- The exponent of the binade of a non-negative rational, not below the
smallest normal exponent `-126` (below it the numbers are subnormal). -/
def binade (a : ℚ) : ℤ := max (Int.log 2 a) (-126)

/-- Rounding of a non-negative rational to 24 significant bits (to a multiple
of `2^-149` in the subnormal range), ties to even. -/
def roundMag (a : ℚ) : ℚ := roundHalfEven (a / 2 ^ (binade a - 23)) * 2 ^ (binade a - 23)

/-- Rounding of a rational to binary32, round-to-nearest-even; a magnitude
that rounds to `2^128` or more overflows to an infinity. -/
def round32 (q : ℚ) : F32 :=
  if 2 ^ 128 ≤ roundMag |q| then (if q < 0 then F32.ninf else F32.pinf)
  else F32.fin (if q < 0 then -roundMag |q| else roundMag |q|)

namespace F32

/-- Unary minus. -/
def neg : F32 → F32
  | fin q => fin (-q)
  | pinf => ninf
  | ninf => pinf
  | nan => nan

/-- Binary32 addition. -/
def add : F32 → F32 → F32
  | fin a, fin b => round32 (a + b)
  | nan, _ => nan
  | _, nan => nan
  | pinf, ninf => nan
  | ninf, pinf => nan
  | pinf, _ => pinf
  | _, pinf => pinf
  | ninf, _ => ninf
  | _, ninf => ninf

/-- Binary32 subtraction. -/
def sub (a b : F32) : F32 := add a (neg b)

/-- Binary32 multiplication. -/
def mul : F32 → F32 → F32
  | fin a, fin b => round32 (a * b)
  | nan, _ => nan
  | _, nan => nan
  | fin a, pinf => if a = 0 then nan else if 0 < a then pinf else ninf
  | fin a, ninf => if a = 0 then nan else if 0 < a then ninf else pinf
  | pinf, fin b => if b = 0 then nan else if 0 < b then pinf else ninf
  | ninf, fin b => if b = 0 then nan else if 0 < b then ninf else pinf
  | pinf, pinf => pinf
  | pinf, ninf => ninf
  | ninf, pinf => ninf
  | ninf, ninf => pinf

/-- Binary32 division; a zero divisor counts as `+0`. -/
def div : F32 → F32 → F32
  | fin a, fin b =>
    if b = 0 then (if a = 0 then nan else if 0 < a then pinf else ninf)
    else round32 (a / b)
  | nan, _ => nan
  | _, nan => nan
  | fin _, pinf => fin 0
  | fin _, ninf => fin 0
  | pinf, fin b => if 0 ≤ b then pinf else ninf
  | ninf, fin b => if 0 ≤ b then ninf else pinf
  | pinf, pinf => nan
  | pinf, ninf => nan
  | ninf, pinf => nan
  | ninf, ninf => nan

/-- The comparison `a < b`; false when an operand is a NaN. -/
def lt : F32 → F32 → Bool
  | fin a, fin b => decide (a < b)
  | nan, _ => false
  | _, nan => false
  | ninf, ninf => false
  | ninf, _ => true
  | _, ninf => false
  | pinf, _ => false
  | fin _, pinf => true

/-- The comparison `a <= b`; false when an operand is a NaN. -/
def le : F32 → F32 → Bool
  | fin a, fin b => decide (a ≤ b)
  | nan, _ => false
  | _, nan => false
  | ninf, _ => true
  | _, pinf => true
  | pinf, _ => false
  | fin _, ninf => false

/-- The call `std::max(.0f, x)`, which returns `x` when `0 < x` and `0`
otherwise. -/
def max0 (x : F32) : F32 := if lt (fin 0) x then x else fin 0

/-- Conversion of an `int` to `float`. -/
def ofInt (n : ℤ) : F32 := round32 n

/-- The conversion `(int)floor(x)`.  Outside the range of `int`, where C++
leaves the conversion undefined, the value is `INT_MIN`, as the x86-64
conversion instruction gives. -/
def floorInt : F32 → ℤ
  | fin q => if -2 ^ 31 ≤ ⌊q⌋ ∧ ⌊q⌋ < 2 ^ 31 then ⌊q⌋ else -2 ^ 31
  | _ => -2 ^ 31

/-- The conversion `(int)ceil(x)`, with the same convention as `floorInt`. -/
def ceilInt : F32 → ℤ
  | fin q => if -2 ^ 31 ≤ ⌈q⌉ ∧ ⌈q⌉ < 2 ^ 31 then ⌈q⌉ else -2 ^ 31
  | _ => -2 ^ 31

/-- A finite number, not an infinity and not a NaN. -/
def isFinite : F32 → Bool
  | fin _ => true
  | _ => false

/-- A binary32 number: a finite value that rounding to binary32 leaves
unchanged. -/
def isNumber : F32 → Bool
  | fin q => decide (round32 q = fin q)
  | _ => false

end F32

/-- Modelled from the spec: the three-component vector / colour type over
binary32 (`Eigen::Vector3f`, `Vector3f` of `Vector.hpp`; neither header is
under `src/`). -/
@[ext]
structure Vector3f where
  x : F32
  y : F32
  z : F32
  deriving DecidableEq

namespace Vector3f

/-- Modelled from the spec: the default-constructed vector, the zero colour. -/
def zero : Vector3f := ⟨F32.fin 0, F32.fin 0, F32.fin 0⟩

/-- Modelled from the spec: component-wise sum `a + b`. -/
def add (a b : Vector3f) : Vector3f := ⟨F32.add a.x b.x, F32.add a.y b.y, F32.add a.z b.z⟩

/-- Modelled from the spec: component-wise difference `a - b`. -/
def sub (a b : Vector3f) : Vector3f := ⟨F32.sub a.x b.x, F32.sub a.y b.y, F32.sub a.z b.z⟩

/-- Modelled from the spec: unary minus `-a`. -/
def neg (a : Vector3f) : Vector3f := ⟨F32.neg a.x, F32.neg a.y, F32.neg a.z⟩

/-- Modelled from the spec: scaling by a float on the left, `r * a`. -/
def scale (r : F32) (a : Vector3f) : Vector3f := ⟨F32.mul r a.x, F32.mul r a.y, F32.mul r a.z⟩

/-- Modelled from the spec: scaling by a float on the right, `a * r`. -/
def scaleRight (a : Vector3f) (r : F32) : Vector3f :=
  ⟨F32.mul a.x r, F32.mul a.y r, F32.mul a.z r⟩

/-- Modelled from the spec: division by a float, `a / r`. -/
def sdiv (a : Vector3f) (r : F32) : Vector3f := ⟨F32.div a.x r, F32.div a.y r, F32.div a.z r⟩

/-- Modelled from the spec: component-wise product of two colours, `a * b`. -/
def mul (a b : Vector3f) : Vector3f := ⟨F32.mul a.x b.x, F32.mul a.y b.y, F32.mul a.z b.z⟩

/-- All three components are finite. -/
def isFinite (a : Vector3f) : Bool := a.x.isFinite && a.y.isFinite && a.z.isFinite

/-- All three components are binary32 numbers. -/
def isNumber (a : Vector3f) : Bool := a.x.isNumber && a.y.isNumber && a.z.isNumber

end Vector3f

/-- Modelled from the spec: `dotProduct(a, b)` of `Vector.hpp`, summed from
left to right. -/
def dotProduct (a b : Vector3f) : F32 :=
  F32.add (F32.add (F32.mul a.x b.x) (F32.mul a.y b.y)) (F32.mul a.z b.z)

/-- A texture: its `int` dimensions and the pixel fetch `getColor`, which
`Texture.cpp` calls with `int` arguments and does not define. -/
structure Texture where
  width : ℤ
  height : ℤ
  getColor : ℤ → ℤ → Vector3f

/-- Lines 24-27 of `Texture.cpp` in binary32. -/
def bilinearBlend (s t : F32) (color1 color2 color3 color4 : Vector3f) : Vector3f :=
  let color12 := Vector3f.add (Vector3f.scale (F32.sub (F32.ofInt 1) s) color1)
    (Vector3f.scale s color2)
  let color34 := Vector3f.add (Vector3f.scale (F32.sub (F32.ofInt 1) s) color3)
    (Vector3f.scale s color4)
  Vector3f.add (Vector3f.scale (F32.sub (F32.ofInt 1) t) color12) (Vector3f.scale t color34)

/-- The method `Texture::getColorBilinear(u, v)` in binary32 and 32-bit
`int`. -/
def Texture.getColorBilinear (tex : Texture) (u v : F32) : Vector3f :=
  let u_img := F32.mul u (F32.ofInt tex.width)
  let v_img := F32.mul (F32.sub (F32.ofInt 1) v) (F32.ofInt tex.height)
  let u_min := F32.floorInt u_img
  let v_min := F32.floorInt v_img
  let u_max := F32.ceilInt u_img
  let v_max := F32.ceilInt v_img
  let s := F32.sub u_img (F32.ofInt u_min)
  let t := F32.sub v_img (F32.ofInt v_min)
  let color1 := tex.getColor u_min v_min
  let color2 := tex.getColor u_max v_min
  let color3 := tex.getColor u_min v_max
  let color4 := tex.getColor u_max v_max
  bilinearBlend s t color1 color2 color3 color4

/-- The random source behind `get_random_float()`: the stream of binary32
values it will return and the number of draws made so far. -/
structure Rng where
  draws : ℕ → F32
  pos : ℕ

/-- The function `get_random_float()`: the next draw, and the source advanced
by one. -/
def get_random_float (rng : Rng) : F32 × Rng :=
  (rng.draws rng.pos, { rng with pos := rng.pos + 1 })

/-- The `Material` capability set used by `Scene.cpp`, over binary32. -/
structure Material where
  hasEmission : Bool
  getEmission : Vector3f
  eval : Vector3f → Vector3f → Vector3f → Vector3f
  sample : Vector3f → Vector3f → Rng → Vector3f × Rng
  pdf : Vector3f → Vector3f → Vector3f → F32

/-- The fields of `Intersection` that `Scene.cpp` reads, over binary32; the
header that declares them is not under `src/`, and `distance` is taken as a
`float` like the other numeric fields. -/
structure Intersection where
  happened : Bool
  coords : Vector3f
  normal : Vector3f
  distance : F32
  emit : Vector3f
  m : Material

/-- A ray `Ray(origin, direction)`. -/
structure Ray where
  origin : Vector3f
  direction : Vector3f

/-- The `Object` capability set used by `Scene::sampleLight`, over
binary32. -/
structure Object where
  hasEmit : Bool
  getArea : F32
  Sample : Intersection → F32 → Rng → Intersection × F32 × Rng

/-- The scene: the object list and the nearest-hit oracle. -/
structure Scene where
  objects : List Object
  intersect : Ray → Intersection

/-- What `shadeLoDir` takes from headers that are not under `src/`: `norm()`
and `normalized()` of `Vector3f`, the default-constructed `Intersection`, and
the indeterminate content of the uninitialised local `lightPdf`. -/
structure Prims where
  norm : Vector3f → F32
  normalized : Vector3f → Vector3f
  defaultIntersection : Intersection
  uninitFloat : F32

/-- Lines 18-23 of `Scene.cpp`: the area of the emissive objects, accumulated
in binary32 in scene-list order, starting from `acc`. -/
def emitAreaFrom (acc : F32) (objects : List Object) : F32 :=
  objects.foldl
    (fun emit_area_sum o => if o.hasEmit then F32.add emit_area_sum o.getArea else emit_area_sum)
    acc

/-- Lines 18-23 of `Scene.cpp`: the accumulation starts from `0`. -/
def emitAreaSum (objects : List Object) : F32 := emitAreaFrom (F32.fin 0) objects

/-- Lines 25-34 of `Scene.cpp`: the selection loop, entered at object index `k`
with running sum `emit_area_sum`; it returns the index and the object at which
the loop breaks, or `none` when the loop runs to the end of the list. -/
def sampleLightWalk (p : F32) : List Object → ℕ → F32 → Option (ℕ × Object)
  | [], _, _ => none
  | o :: rest, k, emit_area_sum =>
    if o.hasEmit then
      if F32.le p (F32.add emit_area_sum o.getArea) then some (k, o)
      else sampleLightWalk p rest (k + 1) (F32.add emit_area_sum o.getArea)
    else sampleLightWalk p rest (k + 1) emit_area_sum

/-- Lines 25-34 of `Scene.cpp` for a given drawn value `p`. -/
def sampleLightAt (objects : List Object) (p : F32) (pos : Intersection) (pdf : F32)
    (rng : Rng) : Intersection × F32 × Rng :=
  match sampleLightWalk p objects 0 (F32.fin 0) with
  | some (_, o) => o.Sample pos pdf rng
  | none => (pos, pdf, rng)

/-- The method `Scene::sampleLight(pos, pdf)` in binary32. -/
def sampleLight (sc : Scene) (pos : Intersection) (pdf : F32) (rng : Rng) :
    Intersection × F32 × Rng :=
  let emit_area_sum := emitAreaSum sc.objects
  let d := get_random_float rng
  let p := F32.mul d.1 emit_area_sum
  sampleLightAt sc.objects p pos pdf d.2

/-- The constant `epsilon = 0.0002f`: the decimal literal rounded to
binary32. -/
def epsilon : F32 := round32 (2 / 10000)

/-- Lines 65-76 of `Scene.cpp` in binary32, for the light sample
`(hitLight, lightPdf)` left by `sampleLight`. -/
def shadeLoDirFrom (env : Prims) (sc : Scene) (inter : Intersection) (wo : Vector3f)
    (hitLight : Intersection) (lightPdf : F32) : Vector3f :=
  let obj2Light := Vector3f.sub hitLight.coords inter.coords
  let obj2LightDir := env.normalized obj2Light
  let t := sc.intersect ⟨inter.coords, obj2LightDir⟩
  if F32.lt (F32.neg epsilon) (F32.sub t.distance (env.norm obj2Light)) then
    let f_r := inter.m.eval obj2LightDir wo inter.normal
    let r2 := dotProduct obj2Light obj2Light
    let cosA := F32.max0 (dotProduct inter.normal obj2LightDir)
    let cosB := F32.max0 (dotProduct hitLight.normal (Vector3f.neg obj2LightDir))
    Vector3f.sdiv
      (Vector3f.sdiv
        (Vector3f.scaleRight (Vector3f.scaleRight (Vector3f.mul hitLight.emit f_r) cosA) cosB)
        r2)
      lightPdf
  else
    Vector3f.zero

/-- The method `Scene::shadeLoDir(inter, wo)` in binary32. -/
def shadeLoDir (env : Prims) (sc : Scene) (inter : Intersection) (wo : Vector3f)
    (rng : Rng) : Vector3f × Rng :=
  let ls := sampleLight sc env.defaultIntersection env.uninitFloat rng
  (shadeLoDirFrom env sc inter wo ls.1 ls.2.1, ls.2.2)

/-- From the wording of the light-sampling properties: the running sum of
`getArea()` over the emissive objects with scene-list index `<= k`, accumulated
in binary32 in scene-list order. -/
def runningArea (objects : List Object) (k : ℕ) : F32 :=
  emitAreaFrom (F32.fin 0) (objects.take (k + 1))

/-- The rational value of a finite binary32 value, and `0` for an infinity or
a NaN. -/
def F32.toRat : F32 → ℚ
  | F32.fin q => q
  | _ => 0

/-- From the wording of the light-sampling properties, read over the real
numbers: the exact sum of `getArea()` over the emissive objects with scene-list
index `<= k`. -/
def exactAreaThrough (objects : List Object) (k : ℕ) : ℚ :=
  (((objects.take (k + 1)).filter (fun o => o.hasEmit)).map (fun o => o.getArea.toRat)).sum

/-- From the wording of the light-sampling properties: the last emissive
object in scene order, if there is one. -/
def lastEmissive (objects : List Object) : Option Object :=
  (objects.filter (fun o => o.hasEmit)).getLast?


/-! ### Fixtures of the binary32 layer -/

/-- The colour white, `(255, 255, 255)`. -/
def white : Vector3f := ⟨F32.fin 255, F32.fin 255, F32.fin 255⟩

/-- A 2 x 2 texture whose pixels are all white. -/
def whiteTexture : Texture := ⟨2, 2, fun _ _ => white⟩

/-- A texture of width `2^24 + 1` whose even columns are black and whose odd
columns are white. -/
def stripeTexture : Texture :=
  ⟨16777217, 2, fun x _ => if x % 2 = 0 then Vector3f.zero else white⟩


/-- A diffuse material with constant BRDF `(1, 1, 1)`, which samples the normal
and reports pdf `1`. -/
def diffuse : Material :=
  ⟨false, Vector3f.zero, fun _ _ _ => ⟨F32.fin 1, F32.fin 1, F32.fin 1⟩,
    fun _ n rng => (n, rng), fun _ _ _ => F32.fin 1⟩

/-- A miss: `happened` is false and the distance is infinite. -/
def miss : Intersection :=
  ⟨false, Vector3f.zero, Vector3f.zero, F32.pinf, Vector3f.zero, diffuse⟩

/-- An emissive object of area `a` whose `Sample` marks the intersection as
happened and writes the pdf `1 / a`. -/
def lightOfArea (a : ℚ) : Object :=
  ⟨true, F32.fin a,
    fun pos _ rng => ({ pos with happened := true }, F32.div (F32.fin 1) (F32.fin a), rng)⟩

/-- A non-emissive object of area `a`. -/
def wallOfArea (a : ℚ) : Object := ⟨false, F32.fin a, fun pos pdf rng => (pos, pdf, rng)⟩

/-- A random source that always returns the binary32 number `r`. -/
def constRng (r : ℚ) : Rng := ⟨fun _ => F32.fin r, 0⟩

/-- A scene made of the given objects, with an oracle that reports a miss for
every ray. -/
def sceneOf (objects : List Object) : Scene := ⟨objects, fun _ => miss⟩

/-- A wall of area 5 followed by lights of area 2 and 3. -/
def wallAndTwoLights : List Object := [wallOfArea 5, lightOfArea 2, lightOfArea 3]

/-- Lights of area `2^24`, 3 and 100: the running sum `2^24 + 3` is not a
binary32 number. -/
def threeLights : List Object := [lightOfArea 16777216, lightOfArea 3, lightOfArea 100]

/-- Lights of area `2^24`, 1 and 1: adding 1 to `2^24` in binary32 gives
`2^24` again. -/
def absorbedLights : List Object := [lightOfArea 16777216, lightOfArea 1, lightOfArea 1]

/-- A single light whose `getArea()` is `-1`. -/
def negativeLight : List Object := [lightOfArea (-1)]

/-- The unit vector up the z axis. -/
def up : Vector3f := ⟨F32.fin 0, F32.fin 0, F32.fin 1⟩

/-- The unit vector down the z axis. -/
def down : Vector3f := ⟨F32.fin 0, F32.fin 0, F32.fin (-1)⟩

/-- A hit on a diffuse floor at the origin, with the given normal. -/
def floorHit (normal : Vector3f) : Intersection :=
  ⟨true, Vector3f.zero, normal, F32.fin 1, Vector3f.zero, diffuse⟩

/-- An emissive material with emission `(8, 8, 8)`. -/
def lampMaterial : Material :=
  ⟨true, ⟨F32.fin 8, F32.fin 8, F32.fin 8⟩, fun _ _ _ => Vector3f.zero,
    fun _ n rng => (n, rng), fun _ _ _ => F32.fin 1⟩

/-- A point of a lamp of emission `(8, 8, 8)` at height `h` above the origin,
facing down. -/
def lampHit (h : ℚ) : Intersection :=
  ⟨true, ⟨F32.fin 0, F32.fin 0, F32.fin h⟩, down, F32.fin h,
    ⟨F32.fin 8, F32.fin 8, F32.fin 8⟩, lampMaterial⟩

/-- A lamp of area 2 at height `h` whose `Sample` writes the point `lampHit h`
and the pdf `pdf`. -/
def lamp (h : ℚ) (pdf : F32) : Object :=
  ⟨true, F32.fin 2, fun _ _ rng => (lampHit h, pdf, rng)⟩

/-- A scene with the lamp at height `h` whose oracle reports a hit at distance
`dist` for every ray. -/
def lampScene (h : ℚ) (pdf : F32) (dist : ℚ) : Scene :=
  ⟨[lamp h pdf], fun _ => { lampHit h with distance := F32.fin dist }⟩

/-- Header primitives for the fixture, in which every vector handed to them
points up the z axis: the norm is the z component and the normalised vector is
`(0, 0, 1)`. -/
def zAxisPrims : Prims :=
  ⟨fun a => a.z, fun _ => up, miss, F32.fin 0⟩

end Binary32

/-! ## Vector algebra -/

namespace Vector3f

@[simp]
theorem zero_x : (0 : Vector3f).x = 0 := rfl
@[simp]
theorem zero_y : (0 : Vector3f).y = 0 := rfl
@[simp]
theorem zero_z : (0 : Vector3f).z = 0 := rfl
@[simp]
theorem add_x (a b : Vector3f) : (a + b).x = a.x + b.x := rfl
@[simp]
theorem add_y (a b : Vector3f) : (a + b).y = a.y + b.y := rfl
@[simp]
theorem add_z (a b : Vector3f) : (a + b).z = a.z + b.z := rfl
@[simp]
theorem sub_x (a b : Vector3f) : (a - b).x = a.x - b.x := rfl
@[simp]
theorem sub_y (a b : Vector3f) : (a - b).y = a.y - b.y := rfl
@[simp]
theorem sub_z (a b : Vector3f) : (a - b).z = a.z - b.z := rfl
@[simp]
theorem neg_x (a : Vector3f) : (-a).x = -a.x := rfl
@[simp]
theorem neg_y (a : Vector3f) : (-a).y = -a.y := rfl
@[simp]
theorem neg_z (a : Vector3f) : (-a).z = -a.z := rfl
@[simp]
theorem mul_x (a b : Vector3f) : (a * b).x = a.x * b.x := rfl
@[simp]
theorem mul_y (a b : Vector3f) : (a * b).y = a.y * b.y := rfl
@[simp]
theorem mul_z (a b : Vector3f) : (a * b).z = a.z * b.z := rfl
@[simp]
theorem lscale_x (r : ℚ) (a : Vector3f) : (r * a).x = r * a.x := rfl
@[simp]
theorem lscale_y (r : ℚ) (a : Vector3f) : (r * a).y = r * a.y := rfl
@[simp]
theorem lscale_z (r : ℚ) (a : Vector3f) : (r * a).z = r * a.z := rfl
@[simp]
theorem rscale_x (a : Vector3f) (r : ℚ) : (a * r).x = a.x * r := rfl
@[simp]
theorem rscale_y (a : Vector3f) (r : ℚ) : (a * r).y = a.y * r := rfl
@[simp]
theorem rscale_z (a : Vector3f) (r : ℚ) : (a * r).z = a.z * r := rfl
@[simp]
theorem sdiv_x (a : Vector3f) (r : ℚ) : (a / r).x = a.x / r := rfl
@[simp]
theorem sdiv_y (a : Vector3f) (r : ℚ) : (a / r).y = a.y / r := rfl
@[simp]
theorem sdiv_z (a : Vector3f) (r : ℚ) : (a / r).z = a.z / r := rfl

end Vector3f

/-! ## The light sampler -/

/-- The summation loop adds the emissive areas to its starting value. -/
theorem foldl_emit_area (l : List Object) (acc : ℚ) :
    l.foldl (fun s o => if o.hasEmit then s + o.getArea else s) acc
      = acc + ((emissiveObjects l).map (fun o => o.getArea)).sum := by
  induction l generalizing acc with
  | nil => simp [emissiveObjects]
  | cons o rest ih =>
    rw [List.foldl_cons, ih]
    by_cases h : o.hasEmit = true
    · simp [emissiveObjects, List.filter_cons, h, add_assoc]
    · simp [emissiveObjects, List.filter_cons, h]

/-- The first loop of `sampleLight` computes the total emissive area. -/
theorem emitAreaSum_eq (l : List Object) :
    emitAreaSum l = ((emissiveObjects l).map (fun o => o.getArea)).sum := by
  unfold emitAreaSum
  rw [foldl_emit_area, zero_add]

/-- One more scene-list entry adds its area exactly when it is emissive. -/
theorem emitAreaOfFirst_succ (l : List Object) (n : ℕ) :
    emitAreaOfFirst l (n + 1) = emitAreaOfFirst l n +
      (match l[n]? with
       | some o => if o.hasEmit then o.getArea else 0
       | none => 0) := by
  unfold emitAreaOfFirst emissiveObjects
  rw [List.take_succ]
  cases h : l[n]? with
  | none => simp
  | some o =>
    by_cases he : o.hasEmit = true
    · simp [List.filter_cons, he]
    · simp [List.filter_cons, he]

/-- The area sum over the first objects of `o :: rest`. -/
theorem emitAreaOfFirst_cons (o : Object) (rest : List Object) (n : ℕ) :
    emitAreaOfFirst (o :: rest) (n + 1)
      = (if o.hasEmit then o.getArea else 0) + emitAreaOfFirst rest n := by
  unfold emitAreaOfFirst emissiveObjects
  by_cases he : o.hasEmit = true
  · simp [List.filter_cons, he]
  · simp [List.filter_cons, he]

/-- The selection loop entered at index `k0` with running sum `acc` breaks at
index `k0 + i` on object `o` exactly when `o` is the emissive object at
position `i` of the remaining list, the running sum through it reaches `p`,
and the running sum through every earlier emissive object stays below `p`. -/
theorem sampleLightWalk_eq_some_iff (p : ℚ) (l : List Object) (k0 : ℕ) (acc : ℚ)
    (k : ℕ) (o : Object) :
    sampleLightWalk p l k0 acc = some (k, o) ↔
      ∃ i, k = k0 + i ∧ l[i]? = some o ∧ o.hasEmit = true ∧ p ≤ acc + areaThrough l i ∧
        ∀ j < i, ∀ oj, l[j]? = some oj → oj.hasEmit = true → acc + areaThrough l j < p := by
  induction l generalizing k0 acc with
  | nil => simp [sampleLightWalk]
  | cons a rest ih =>
    unfold sampleLightWalk
    by_cases ha : a.hasEmit = true
    · by_cases hp : p ≤ acc + a.getArea
      · rw [if_pos ha, if_pos hp]
        constructor
        · intro h
          simp only [Option.some.injEq, Prod.mk.injEq] at h
          obtain ⟨rfl, rfl⟩ := h
          refine ⟨0, rfl, by simp, ha, ?_, ?_⟩
          · simpa [areaThrough, emitAreaOfFirst_cons, ha, emitAreaOfFirst, emissiveObjects] using hp
          · intro j hj
            exact absurd hj (Nat.not_lt_zero j)
        · rintro ⟨i, hk, hi, ho, hle, hlt⟩
          cases i with
          | zero =>
            simp only [List.getElem?_cons_zero, Option.some.injEq] at hi
            subst hi
            simp [hk]
          | succ i =>
            have h0 := hlt 0 (Nat.succ_pos i) a (by simp) ha
            simp [areaThrough, emitAreaOfFirst_cons, ha, emitAreaOfFirst, emissiveObjects] at h0
            exact absurd hp (not_le.mpr h0)
      · rw [if_pos ha, if_neg hp, ih]
        constructor
        · rintro ⟨i, hk, hi, ho, hle, hlt⟩
          refine ⟨i + 1, by omega, by simpa using hi, ho, ?_, ?_⟩
          · simpa [areaThrough, emitAreaOfFirst_cons, ha, add_assoc] using hle
          · intro j hj oj hoj hej
            cases j with
            | zero =>
              simpa [areaThrough, emitAreaOfFirst_cons, ha, emitAreaOfFirst, emissiveObjects]
                using not_le.mp hp
            | succ j =>
              have := hlt j (by omega) oj (by simpa using hoj) hej
              simpa [areaThrough, emitAreaOfFirst_cons, ha, add_assoc] using this
        · rintro ⟨i, hk, hi, ho, hle, hlt⟩
          cases i with
          | zero =>
            exfalso
            apply hp
            simpa [areaThrough, emitAreaOfFirst_cons, ha, emitAreaOfFirst, emissiveObjects] using hle
          | succ i =>
            refine ⟨i, by omega, by simpa using hi, ho, ?_, ?_⟩
            · simpa [areaThrough, emitAreaOfFirst_cons, ha, add_assoc] using hle
            · intro j hj oj hoj hej
              have := hlt (j + 1) (by omega) oj (by simpa using hoj) hej
              simpa [areaThrough, emitAreaOfFirst_cons, ha, add_assoc] using this
    · rw [if_neg ha, ih]
      constructor
      · rintro ⟨i, hk, hi, ho, hle, hlt⟩
        refine ⟨i + 1, by omega, by simpa using hi, ho, ?_, ?_⟩
        · simpa [areaThrough, emitAreaOfFirst_cons, ha] using hle
        · intro j hj oj hoj hej
          cases j with
          | zero =>
            simp only [List.getElem?_cons_zero, Option.some.injEq] at hoj
            subst hoj
            exact absurd hej ha
          | succ j =>
            have := hlt j (by omega) oj (by simpa using hoj) hej
            simpa [areaThrough, emitAreaOfFirst_cons, ha] using this
      · rintro ⟨i, hk, hi, ho, hle, hlt⟩
        cases i with
        | zero =>
          simp only [List.getElem?_cons_zero, Option.some.injEq] at hi
          subst hi
          exact absurd ho ha
        | succ i =>
          refine ⟨i, by omega, by simpa using hi, ho, ?_, ?_⟩
          · simpa [areaThrough, emitAreaOfFirst_cons, ha] using hle
          · intro j hj oj hoj hej
            have := hlt (j + 1) (by omega) oj (by simpa using hoj) hej
            simpa [areaThrough, emitAreaOfFirst_cons, ha] using this

/-- When no object of the list is emissive the summation loop leaves its
starting value unchanged. -/
theorem foldl_emit_area_of_no_emissive (l : List Object) (acc : ℚ)
    (h : ∀ o ∈ l, ¬ o.hasEmit = true) :
    l.foldl (fun s o => if o.hasEmit then s + o.getArea else s) acc = acc := by
  rw [foldl_emit_area]
  have : emissiveObjects l = [] := by
    unfold emissiveObjects
    rw [List.filter_eq_nil_iff]
    exact h
  simp [this]

/-- When the selection loop runs to the end of a list that has an emissive
object, the final running sum is still below `p`. -/
theorem sampleLightWalk_none_lt (p : ℚ) (l : List Object) (k0 : ℕ) (acc : ℚ)
    (hnone : sampleLightWalk p l k0 acc = none) (hem : ∃ o ∈ l, o.hasEmit = true) :
    l.foldl (fun s o => if o.hasEmit then s + o.getArea else s) acc < p := by
  induction l generalizing k0 acc with
  | nil => simp at hem
  | cons a rest ih =>
    unfold sampleLightWalk at hnone
    rw [List.foldl_cons]
    by_cases ha : a.hasEmit = true
    · rw [if_pos ha] at hnone
      by_cases hp : p ≤ acc + a.getArea
      · rw [if_pos hp] at hnone
        exact absurd hnone (by simp)
      · rw [if_neg hp] at hnone
        rw [if_pos ha]
        by_cases hrest : ∃ o ∈ rest, o.hasEmit = true
        · exact ih _ _ hnone hrest
        · rw [foldl_emit_area_of_no_emissive rest _ (fun o ho he => hrest ⟨o, ho, he⟩)]
          exact not_le.mp hp
    · rw [if_neg ha] at hnone
      rw [if_neg ha]
      obtain ⟨o, ho, he⟩ := hem
      rcases List.mem_cons.mp ho with rfl | hmem
      · exact absurd he ha
      · exact ih _ _ hnone ⟨o, hmem, he⟩

/-- The emissive objects split at any scene-list position. -/
theorem emissiveObjects_split (l : List Object) (n : ℕ) :
    emissiveObjects l = emissiveObjects (l.take n) ++ emissiveObjects (l.drop n) := by
  unfold emissiveObjects
  rw [← List.filter_append, List.take_append_drop]

/-- The emissive area among the first `n` objects is a cumulative area
`C_k`, with `k` the number of emissive objects among them. -/
theorem emitAreaOfFirst_eq_cumArea (l : List Object) (n : ℕ) :
    emitAreaOfFirst l n = cumArea l (emissiveObjects (l.take n)).length := by
  unfold emitAreaOfFirst cumArea
  conv_rhs => rw [emissiveObjects_split l n]
  rw [List.take_left]

/-- An emissive object at scene index `i` has rank one more than the number
of emissive objects before it. -/
theorem emissiveRank_of_emissive (l : List Object) (i : ℕ) (o : Object)
    (hi : l[i]? = some o) (ho : o.hasEmit = true) :
    emissiveRank l i = (emissiveObjects (l.take i)).length + 1 := by
  unfold emissiveRank emissiveObjects
  rw [List.take_succ, hi]
  simp [List.filter_cons, ho]

/-- An emissive object at scene index `i` is the entry of the emissive list
at the position given by the number of emissive objects before it. -/
theorem emissiveObjects_getElem_of_emissive (l : List Object) (i : ℕ) (o : Object)
    (hi : l[i]? = some o) (ho : o.hasEmit = true) :
    (emissiveObjects l)[(emissiveObjects (l.take i)).length]? = some o := by
  obtain ⟨hlt, hget⟩ := List.getElem?_eq_some.mp hi
  rw [emissiveObjects_split l i, List.getElem?_append_right (le_refl _), Nat.sub_self,
    List.drop_eq_getElem_cons hlt, hget]
  simp [emissiveObjects, List.filter_cons, ho]

/-- Emissive areas being positive, the area among the first objects is
non-negative. -/
theorem emitAreaOfFirst_nonneg (l : List Object) (n : ℕ)
    (hpos : ∀ a ∈ l, a.hasEmit = true → 0 < a.getArea) : 0 ≤ emitAreaOfFirst l n := by
  unfold emitAreaOfFirst
  apply List.sum_nonneg
  intro x hx
  obtain ⟨a, ha, rfl⟩ := List.mem_map.mp hx
  unfold emissiveObjects at ha
  rw [List.mem_filter] at ha
  exact le_of_lt (hpos a (List.mem_of_mem_take ha.1) ha.2)

/-- Emissive areas being positive, the area among the first objects is at most
the total emissive area. -/
theorem emitAreaOfFirst_le_total (l : List Object) (n : ℕ)
    (hpos : ∀ a ∈ l, a.hasEmit = true → 0 < a.getArea) :
    emitAreaOfFirst l n ≤ emitAreaSum l := by
  rw [emitAreaSum_eq, emissiveObjects_split l n, List.map_append, List.sum_append]
  unfold emitAreaOfFirst
  have : 0 ≤ ((emissiveObjects (l.drop n)).map (fun o => o.getArea)).sum := by
    apply List.sum_nonneg
    intro x hx
    obtain ⟨a, ha, rfl⟩ := List.mem_map.mp hx
    unfold emissiveObjects at ha
    rw [List.mem_filter] at ha
    exact le_of_lt (hpos a (List.mem_of_mem_drop ha.1) ha.2)
  linarith

/-- Emissive areas being positive, every earlier cumulative area stays below
`p` exactly when there is no earlier emissive object or the area before
index `i` is below `p`. -/
theorem earlier_below_iff (l : List Object) (p : ℚ)
    (hpos : ∀ a ∈ l, a.hasEmit = true → 0 < a.getArea) (i : ℕ) :
    (∀ j < i, ∀ oj, l[j]? = some oj → oj.hasEmit = true → areaThrough l j < p) ↔
      ((emissiveObjects (l.take i)).length = 0 ∨ emitAreaOfFirst l i < p) := by
  induction i with
  | zero => simp [emissiveObjects]
  | succ i ih =>
    have hsplit : (∀ j < i + 1, ∀ oj, l[j]? = some oj → oj.hasEmit = true → areaThrough l j < p) ↔
        ((∀ j < i, ∀ oj, l[j]? = some oj → oj.hasEmit = true → areaThrough l j < p) ∧
          ∀ oj, l[i]? = some oj → oj.hasEmit = true → areaThrough l i < p) := by
      constructor
      · intro h
        exact ⟨fun j hj => h j (Nat.lt_succ_of_lt hj), h i (Nat.lt_succ_self i)⟩
      · rintro ⟨h1, h2⟩ j hj
        rcases Nat.lt_succ_iff_lt_or_eq.mp hj with hlt | rfl
        · exact h1 j hlt
        · exact h2
    rw [hsplit, ih]
    cases hi : l[i]? with
    | none =>
      have e1 : emitAreaOfFirst l (i + 1) = emitAreaOfFirst l i := by
        rw [emitAreaOfFirst_succ, hi]; simp
      have e2 : emissiveObjects (l.take (i + 1)) = emissiveObjects (l.take i) := by
        rw [List.take_succ, hi]; simp
      rw [e1, e2]
      simp
    | some a =>
      by_cases ha : a.hasEmit = true
      · have e1 : emitAreaOfFirst l (i + 1) = emitAreaOfFirst l i + a.getArea := by
          rw [emitAreaOfFirst_succ, hi]; simp [ha]
        have e2 : (emissiveObjects (l.take (i + 1))).length ≠ 0 := by
          rw [List.take_succ, hi]
          simp [emissiveObjects, List.filter_cons, ha]
        have hmem : a ∈ l := List.getElem?_mem hi
        have hap := hpos a hmem ha
        have hnn := emitAreaOfFirst_nonneg l i hpos
        constructor
        · rintro ⟨-, h2⟩
          right
          have := h2 a rfl ha
          unfold areaThrough at this
          exact this
        · rintro (h | h)
          · exact absurd h e2
          · refine ⟨Or.inr (by linarith), ?_⟩
            intro oj hoj _
            unfold areaThrough
            exact h
      · have e1 : emitAreaOfFirst l (i + 1) = emitAreaOfFirst l i := by
          rw [emitAreaOfFirst_succ, hi]; simp [ha]
        have e2 : emissiveObjects (l.take (i + 1)) = emissiveObjects (l.take i) := by
          rw [List.take_succ, hi]
          simp [emissiveObjects, List.filter_cons, ha]
        rw [e1, e2]
        constructor
        · rintro ⟨h1, -⟩
          exact h1
        · intro h1
          refine ⟨h1, ?_⟩
          intro oj hoj hej
          simp only [Option.some.injEq] at hoj
          subst hoj
          exact absurd hej ha

/-- Over exact arithmetic light selection is proportional to area.  In a scene
whose emissive objects all have positive area, let `T` be the total emissive
area, `o` an emissive object at scene index `i`, `k` its position among the
emissive objects and `C_k` the cumulative emissive area through the `k`-th one
(`C_0 = 0`).  For every draw `r` in `[0, 1)`, the selection loop selects `o`
exactly when `C_(k-1) < r*T <= C_k` (for `k = 1`: `r*T <= C_1`); exactly one
object is selected, and it is emissive; and the draws selecting `o` form the
interval with end points `C_(k-1)/T` and `C_k/T` inside `[0, 1]`, whose length
is `area_k / T`.  The rounded binary32 sums of the code do not satisfy this;
the layer `Binary32` states what they do satisfy. -/
theorem sampleLight_area_proportional_exact (objects : List Object) (r : ℚ) (i : ℕ) (o : Object)
    (hpos : ∀ a ∈ objects, a.hasEmit = true → 0 < a.getArea)
    (hr : 0 ≤ r ∧ r < 1)
    (hi : objects[i]? = some o) (ho : o.hasEmit = true) :
    (emissiveObjects objects)[emissiveRank objects i - 1]? = some o ∧
    1 ≤ emissiveRank objects i ∧
    emitAreaSum objects = cumArea objects (emissiveObjects objects).length ∧
    cumArea objects 0 = 0 ∧
    cumArea objects (emissiveRank objects i) - cumArea objects (emissiveRank objects i - 1)
      = o.getArea ∧
    (sampleLightWalk (r * emitAreaSum objects) objects 0 0 = some (i, o) ↔
      (emissiveRank objects i = 1 ∨
        cumArea objects (emissiveRank objects i - 1) < r * emitAreaSum objects) ∧
      r * emitAreaSum objects ≤ cumArea objects (emissiveRank objects i)) ∧
    (∃! sel : ℕ × Object, sampleLightWalk (r * emitAreaSum objects) objects 0 0 = some sel ∧
      objects[sel.1]? = some sel.2 ∧ sel.2.hasEmit = true) ∧
    0 < emitAreaSum objects ∧
    (sampleLightWalk (r * emitAreaSum objects) objects 0 0 = some (i, o) ↔
      (emissiveRank objects i = 1 ∨
        cumArea objects (emissiveRank objects i - 1) / emitAreaSum objects < r) ∧
      r ≤ cumArea objects (emissiveRank objects i) / emitAreaSum objects) ∧
    0 ≤ cumArea objects (emissiveRank objects i - 1) / emitAreaSum objects ∧
    cumArea objects (emissiveRank objects i) / emitAreaSum objects ≤ 1 ∧
    cumArea objects (emissiveRank objects i) / emitAreaSum objects
      - cumArea objects (emissiveRank objects i - 1) / emitAreaSum objects
      = o.getArea / emitAreaSum objects := by
  have hrank := emissiveRank_of_emissive objects i o hi ho
  have hrank1 : emissiveRank objects i - 1 = (emissiveObjects (objects.take i)).length := by
    rw [hrank, Nat.add_sub_cancel]
  have hbefore : cumArea objects (emissiveRank objects i - 1) = emitAreaOfFirst objects i := by
    rw [hrank1, emitAreaOfFirst_eq_cumArea]
  have hthrough : cumArea objects (emissiveRank objects i) = emitAreaOfFirst objects (i + 1) := by
    rw [emitAreaOfFirst_eq_cumArea]
    rfl
  have hstep : emitAreaOfFirst objects (i + 1) = emitAreaOfFirst objects i + o.getArea := by
    rw [emitAreaOfFirst_succ, hi]
    simp [ho]
  have harea : 0 < o.getArea := hpos o (List.getElem?_mem hi) ho
  have hb0 : 0 ≤ emitAreaOfFirst objects i := emitAreaOfFirst_nonneg objects i hpos
  have hle : emitAreaOfFirst objects (i + 1) ≤ emitAreaSum objects :=
    emitAreaOfFirst_le_total objects (i + 1) hpos
  have hT : 0 < emitAreaSum objects := by linarith
  have hone : emissiveRank objects i = 1 ↔ (emissiveObjects (objects.take i)).length = 0 := by
    rw [hrank]
    omega
  have hwalk : sampleLightWalk (r * emitAreaSum objects) objects 0 0 = some (i, o) ↔
      (emissiveRank objects i = 1 ∨
        cumArea objects (emissiveRank objects i - 1) < r * emitAreaSum objects) ∧
      r * emitAreaSum objects ≤ cumArea objects (emissiveRank objects i) := by
    rw [sampleLightWalk_eq_some_iff, hbefore, hthrough, hone,
      ← earlier_below_iff objects (r * emitAreaSum objects) hpos i]
    constructor
    · rintro ⟨n, hn, -, -, h1, h2⟩
      rw [zero_add] at hn
      subst hn
      refine ⟨?_, by simpa [areaThrough] using h1⟩
      intro j hj oj hoj hej
      simpa using h2 j hj oj hoj hej
    · rintro ⟨h2, h1⟩
      refine ⟨i, by simp, hi, ho, by simpa [areaThrough] using h1, ?_⟩
      intro j hj oj hoj hej
      simpa using h2 j hj oj hoj hej
  have hsel : ∃ sel : ℕ × Object,
      sampleLightWalk (r * emitAreaSum objects) objects 0 0 = some sel ∧
      objects[sel.1]? = some sel.2 ∧ sel.2.hasEmit = true := by
    cases hw : sampleLightWalk (r * emitAreaSum objects) objects 0 0 with
    | none =>
      have hlt := sampleLightWalk_none_lt _ objects 0 0 hw ⟨o, List.getElem?_mem hi, ho⟩
      have hlt2 : emitAreaSum objects < r * emitAreaSum objects := hlt
      nlinarith [hr.2]
    | some sel =>
      obtain ⟨j, a⟩ := sel
      obtain ⟨n, hn, hj, ha, -, -⟩ := (sampleLightWalk_eq_some_iff _ objects 0 0 j a).mp hw
      rw [zero_add] at hn
      subst hn
      exact ⟨(j, a), rfl, hj, ha⟩
  refine ⟨?_, ?_, ?_, ?_, ?_, hwalk, ?_, hT, ?_, ?_, ?_, ?_⟩
  · rw [hrank1]
    exact emissiveObjects_getElem_of_emissive objects i o hi ho
  · rw [hrank]
    exact Nat.le_add_left 1 _
  · rw [emitAreaSum_eq]
    unfold cumArea
    rw [List.take_length]
  · simp [cumArea]
  · rw [hbefore, hthrough, hstep]
    ring
  · obtain ⟨sel, h1, h2, h3⟩ := hsel
    refine ⟨sel, ⟨h1, h2, h3⟩, ?_⟩
    rintro other ⟨g1, -, -⟩
    rw [h1] at g1
    exact (Option.some.inj g1).symm
  · rw [hwalk, div_lt_iff₀ hT, le_div_iff₀ hT]
  · rw [hbefore]
    exact div_nonneg hb0 (le_of_lt hT)
  · rw [hthrough, div_le_one hT]
    exact hle
  · rw [hbefore, hthrough, hstep]
    field_simp

/-! ## The shading engine -/

/-- C2: on an intersection whose material is emissive, `shade` returns exactly
the material's emission for every outgoing direction, for every scene, every
header primitive and every recursion budget; the random source is returned
untouched, and the result does not depend on the indirect term handed to the
combiner. -/
theorem C2_shade_emissive (env : Prims) (sc : Scene) (fuel : ℕ) (inter : Intersection)
    (wo : Vector3f) (rng : Rng) (h : inter.m.hasEmission = true) :
    shade env sc fuel inter wo rng = some (inter.m.getEmission, rng) ∧
    (∀ (env1 : Prims) (sc1 : Scene) (fuel1 : ℕ) (wo1 : Vector3f),
      shade env1 sc1 fuel1 inter wo1 rng = shade env sc fuel inter wo rng) ∧
    ∀ indir, shadeWith env sc indir inter wo rng = some (inter.m.getEmission, rng) := by
  have key : ∀ (e : Prims) (c : Scene) (n : ℕ) (w : Vector3f),
      shade e c n inter w rng = some (inter.m.getEmission, rng) := by
    intro e c n w
    cases n <;> simp [shade, shadeWith, h]
  refine ⟨key _ _ _ _, ?_, ?_⟩
  · intro env1 sc1 fuel1 wo1
    rw [key, key]
  · intro indir
    simp [shadeWith, h]

/-- C2 evaluated on the light fixture. -/
theorem C2_shade_emissive_witness :
    shade demoPrims (demoScene 1) 0 demoLightInter ⟨0, 0, 1⟩ demoRng
      = some (⟨8, 8, 8⟩, demoRng) :=
  (C2_shade_emissive demoPrims (demoScene 1) 0 demoLightInter ⟨0, 0, 1⟩ demoRng rfl).1

/-- C3: when the shadow ray is occluded, that is when the oracle's hit distance
minus the distance from the shading point to the light point is at most
`-epsilon` with `epsilon = 0.0002`, `shadeLoDir` returns exactly the zero
colour, for every light sample and in particular for the one `sampleLight`
produced; the material is not used: any other material gives zero too. -/
theorem C3_shadeLoDir_occluded (env : Prims) (sc : Scene) (inter : Intersection)
    (wo : Vector3f) (rng : Rng) (hitLight : Intersection) (lightPdf : ℚ)
    (hlight : (sampleLight sc env.defaultIntersection env.uninitFloat rng).1 = hitLight)
    (hpdf : (sampleLight sc env.defaultIntersection env.uninitFloat rng).2.1 = lightPdf)
    (hocc : (sc.intersect ⟨inter.coords, env.normalized (hitLight.coords - inter.coords)⟩).distance
      - env.norm (hitLight.coords - inter.coords) ≤ -epsilon) :
    epsilon = 0.0002 ∧
    (shadeLoDir env sc inter wo rng).1 = 0 ∧
    shadeLoDirFrom env sc inter wo hitLight lightPdf = 0 ∧
    ∀ (mat : Material) (wo1 : Vector3f),
      (shadeLoDir env sc { inter with m := mat } wo1 rng).1 = 0 := by
  have key : ∀ (i : Intersection) (w : Vector3f), i.coords = inter.coords →
      shadeLoDirFrom env sc i w hitLight lightPdf = 0 := by
    intro i w hi
    unfold shadeLoDirFrom
    simp only [hi]
    rw [if_neg (not_lt.mpr hocc)]
  have hfrom : ∀ (i : Intersection) (w : Vector3f), i.coords = inter.coords →
      (shadeLoDir env sc i w rng).1 = 0 := by
    intro i w hi
    unfold shadeLoDir
    simp only [hlight, hpdf]
    exact key i w hi
  refine ⟨by norm_num [epsilon], hfrom inter wo rfl, key inter wo rfl, ?_⟩
  intro mat wo1
  exact hfrom _ wo1 rfl

/-- The light sample drawn in the one-light fixture scene. -/
theorem demoScene_sampleLight (dist : ℚ) :
    sampleLight (demoScene dist) demoPrims.defaultIntersection demoPrims.uninitFloat demoRng
      = (demoLightInter, 1 / 2, ⟨fun _ => 1 / 2, 1⟩) := by
  norm_num [sampleLight, sampleLightAt, sampleLightWalk, emitAreaSum, get_random_float,
    demoScene, demoRng, demoWall, demoLight]

/-- C3 evaluated in the fixture scene whose oracle reports a blocker at
distance 0 while the light is at distance 1. -/
theorem C3_shadeLoDir_occluded_witness :
    (shadeLoDir demoPrims (demoScene 0) demoInter ⟨0, 0, 1⟩ demoRng).1 = 0 :=
  (C3_shadeLoDir_occluded demoPrims (demoScene 0) demoInter ⟨0, 0, 1⟩ demoRng
    demoLightInter (1 / 2) (by rw [demoScene_sampleLight]) (by rw [demoScene_sampleLight])
    (by norm_num [demoScene, demoPrims, demoInter, demoLightInter, dotProduct, epsilon])).2.1

/-- C4: with `RussianRoulette = 0` and a roulette draw in `[0, 1)`,
`shadeLoIndir` returns exactly the zero colour after that single draw, for
every intersection, direction, material, oracle and recursion budget; the
result is the same whatever the callee `shade` would do, so `shade` is not
re-entered, and it is the same for every other intersection and scene with
`RussianRoulette = 0`, so neither the material nor the oracle is consulted. -/
theorem C4_shadeLoIndir_roulette_zero (env : Prims) (sc : Scene)
    (shadeRec : Intersection → Vector3f → Rng → Option (Vector3f × Rng))
    (inter : Intersection) (wo : Vector3f) (rng : Rng)
    (hrr : sc.RussianRoulette = 0)
    (hdraw : 0 ≤ (get_random_float rng).1 ∧ (get_random_float rng).1 < 1) :
    shadeLoIndirWith env sc shadeRec inter wo rng = some (0, (get_random_float rng).2) ∧
    (∀ fuel, shadeLoIndir env sc fuel inter wo rng = some (0, (get_random_float rng).2)) ∧
    ∀ (env1 : Prims) (sc1 : Scene) (rec1 : Intersection → Vector3f → Rng → Option (Vector3f × Rng))
      (inter1 : Intersection) (wo1 : Vector3f), sc1.RussianRoulette = 0 →
      shadeLoIndirWith env1 sc1 rec1 inter1 wo1 rng
        = shadeLoIndirWith env sc shadeRec inter wo rng := by
  have key : ∀ (e : Prims) (c : Scene) (f : Intersection → Vector3f → Rng → Option (Vector3f × Rng))
      (i : Intersection) (w : Vector3f), c.RussianRoulette = 0 →
      shadeLoIndirWith e c f i w rng = some (0, (get_random_float rng).2) := by
    intro e c f i w hc
    unfold shadeLoIndirWith
    simp only [hc]
    rw [if_neg (not_lt.mpr hdraw.1)]
  refine ⟨key _ _ _ _ _ hrr, ?_, ?_⟩
  · intro fuel
    cases fuel <;> simp only [shadeLoIndir] <;> exact key _ _ _ _ _ hrr
  · intro env1 sc1 rec1 inter1 wo1 h1
    rw [key _ _ _ _ _ h1, key _ _ _ _ _ hrr]

/-- C4 evaluated in the fixture scene with the roulette set to 0 and the
draw `1/2`. -/
theorem C4_shadeLoIndir_roulette_zero_witness :
    shadeLoIndir demoPrims { demoScene 1 with RussianRoulette := 0 } 3 demoInter ⟨0, 0, 1⟩ demoRng
      = some (0, (get_random_float demoRng).2) :=
  (C4_shadeLoIndir_roulette_zero demoPrims { demoScene 1 with RussianRoulette := 0 }
    (fun _ _ _ => none) demoInter ⟨0, 0, 1⟩ demoRng rfl
    (by norm_num [get_random_float, demoRng])).2.1 3

/-- C9: `castRay` returns the zero colour (and leaves the random source alone)
when the oracle reports `happened = false`; otherwise it returns exactly
`shade` of the oracle's result for that ray with the negated ray direction as
outgoing direction. -/
theorem C9_castRay_miss_or_shade (env : Prims) (sc : Scene) (fuel : ℕ) (ray : Ray)
    (depth : ℤ) (rng : Rng) :
    castRay env sc fuel ray depth rng =
      (if (sc.intersect ray).happened = false then some (0, rng)
       else shade env sc fuel (sc.intersect ray)
        ⟨-ray.direction.x, -ray.direction.y, -ray.direction.z⟩ rng) := by
  have hneg : (-ray.direction) = ⟨-ray.direction.x, -ray.direction.y, -ray.direction.z⟩ := rfl
  rw [← hneg]
  simp only [castRay]
  cases h : (sc.intersect ray).happened <;> simp

/-- C11: `shadeLoIndir` returns exactly the zero colour, and its result is the
same whatever the callee `shade` is (so `shade` is not re-entered), in each of
these cases: the roulette draw is `>= RussianRoulette`; the pdf of the sampled
direction is `<= epsilon`; the bounce ray's intersection has `happened =
false`; the bounce ray hits a surface whose material is emissive. -/
theorem C11_shadeLoIndir_zero_cases (env : Prims) (sc : Scene)
    (shadeRec : Intersection → Vector3f → Rng → Option (Vector3f × Rng))
    (inter : Intersection) (wo : Vector3f) (rng : Rng)
    (h : sc.RussianRoulette ≤ (get_random_float rng).1 ∨
      inter.m.pdf wo (env.normalized (inter.m.sample wo inter.normal (get_random_float rng).2).1)
        inter.normal ≤ epsilon ∨
      (sc.intersect ⟨inter.coords,
        env.normalized (inter.m.sample wo inter.normal (get_random_float rng).2).1⟩).happened
          = false ∨
      (sc.intersect ⟨inter.coords,
        env.normalized (inter.m.sample wo inter.normal (get_random_float rng).2).1⟩).m.hasEmission
          = true) :
    shadeLoIndirWith env sc shadeRec inter wo rng =
      some (0, if (get_random_float rng).1 < sc.RussianRoulette
        then (inter.m.sample wo inter.normal (get_random_float rng).2).2
        else (get_random_float rng).2) ∧
    (∀ rec1, shadeLoIndirWith env sc rec1 inter wo rng
      = shadeLoIndirWith env sc shadeRec inter wo rng) ∧
    (∀ fuel, shadeLoIndir env sc fuel inter wo rng
      = shadeLoIndirWith env sc shadeRec inter wo rng) ∧
    epsilon = 0.0002 := by
  have key : ∀ f : Intersection → Vector3f → Rng → Option (Vector3f × Rng),
      shadeLoIndirWith env sc f inter wo rng =
        some (0, if (get_random_float rng).1 < sc.RussianRoulette
          then (inter.m.sample wo inter.normal (get_random_float rng).2).2
          else (get_random_float rng).2) := by
    intro f
    unfold shadeLoIndirWith
    simp only
    by_cases hd : (get_random_float rng).1 < sc.RussianRoulette
    · rw [if_pos hd, if_pos hd]
      rcases h with h | h | h | h
      · exact absurd hd (not_lt.mpr h)
      · rw [if_neg (not_lt.mpr h)]
      · by_cases hp : inter.m.pdf wo
            (env.normalized (inter.m.sample wo inter.normal (get_random_float rng).2).1)
            inter.normal > epsilon
        · rw [if_pos hp]
          simp [h]
        · rw [if_neg hp]
      · by_cases hp : inter.m.pdf wo
            (env.normalized (inter.m.sample wo inter.normal (get_random_float rng).2).1)
            inter.normal > epsilon
        · rw [if_pos hp]
          simp [h]
        · rw [if_neg hp]
    · rw [if_neg hd, if_neg hd]
  refine ⟨key _, ?_, ?_, by norm_num [epsilon]⟩
  · intro rec1
    rw [key, key]
  · intro fuel
    cases fuel <;> simp only [shadeLoIndir] <;> rw [key, key]

/-- C11 evaluated in the fixture scene, whose oracle reports a hit on the
emissive light for the bounce ray. -/
theorem C11_shadeLoIndir_zero_cases_witness :
    shadeLoIndir demoPrims (demoScene 1) 2 demoInter ⟨0, 0, 1⟩ demoRng
      = some (0, ⟨fun _ => 1 / 2, 1⟩) := by
  have h := C11_shadeLoIndir_zero_cases demoPrims (demoScene 1) (fun _ _ _ => none) demoInter
    ⟨0, 0, 1⟩ demoRng (Or.inr (Or.inr (Or.inr rfl)))
  rw [h.2.2.1 2, h.1]
  norm_num [get_random_float, demoRng, demoScene, demoInter, demoDiffuse]

/-- C12: when the roulette draw is `< RussianRoulette`, the sampled direction
`d = normalize(sample(wo, n))` has pdf `> epsilon`, and the bounce ray from
`inter.coords` along `d` hits a non-emissive surface `nextObj`,
`shadeLoIndir` returns `shade(nextObj, -d) * brdf * cosTerm / pdf /
RussianRoulette` with `brdf = eval(d, wo, n)`, `cosTerm = max(0, d . n)` and
`pdf` the material's pdf of `d`; it returns whenever that call of `shade`
does. -/
theorem C12_shadeLoIndir_bounce (env : Prims) (sc : Scene) (fuel : ℕ)
    (shadeRec : Intersection → Vector3f → Rng → Option (Vector3f × Rng))
    (inter : Intersection) (wo : Vector3f) (rng : Rng)
    (hdraw : (get_random_float rng).1 < sc.RussianRoulette)
    (hpdf : inter.m.pdf wo
      (env.normalized (inter.m.sample wo inter.normal (get_random_float rng).2).1)
      inter.normal > epsilon)
    (hhit : (sc.intersect ⟨inter.coords,
      env.normalized (inter.m.sample wo inter.normal (get_random_float rng).2).1⟩).happened
        = true)
    (hdark : (sc.intersect ⟨inter.coords,
      env.normalized (inter.m.sample wo inter.normal (get_random_float rng).2).1⟩).m.hasEmission
        = false) :
    shadeLoIndirWith env sc shadeRec inter wo rng =
      (shadeRec
        (sc.intersect ⟨inter.coords,
          env.normalized (inter.m.sample wo inter.normal (get_random_float rng).2).1⟩)
        (-env.normalized (inter.m.sample wo inter.normal (get_random_float rng).2).1)
        (inter.m.sample wo inter.normal (get_random_float rng).2).2).map
        (fun cr =>
          (cr.1
            * inter.m.eval
                (env.normalized (inter.m.sample wo inter.normal (get_random_float rng).2).1)
                wo inter.normal
            * max 0 (dotProduct
                (env.normalized (inter.m.sample wo inter.normal (get_random_float rng).2).1)
                inter.normal)
            / inter.m.pdf wo
                (env.normalized (inter.m.sample wo inter.normal (get_random_float rng).2).1)
                inter.normal
            / sc.RussianRoulette, cr.2)) ∧
    shadeLoIndir env sc (fuel + 1) inter wo rng =
      shadeLoIndirWith env sc (shade env sc fuel) inter wo rng := by
  refine ⟨?_, rfl⟩
  unfold shadeLoIndirWith
  simp only
  rw [if_pos hdraw, if_pos hpdf]
  simp only [hhit, hdark, Bool.not_false, Bool.and_self, if_true]
  cases shadeRec
      (sc.intersect ⟨inter.coords,
        env.normalized (inter.m.sample wo inter.normal (get_random_float rng).2).1⟩)
      (-env.normalized (inter.m.sample wo inter.normal (get_random_float rng).2).1)
      (inter.m.sample wo inter.normal (get_random_float rng).2).2 with
  | none => rfl
  | some cr => rfl

/-- The inner call of `shade` in the box fixture, right operand first: the
roulette draw `1/2` survives and `shade` is re-entered once; there the draw
`9/10` ends the path and the direct term is 16 per channel, which comes back
as 20; the outer direct term adds 16. -/
theorem demoBox_shade_inner (fuel : ℕ) (wo : Vector3f) :
    shade demoPrims demoBoxScene (fuel + 1) demoInter wo ⟨demoRngStop.draws, 1⟩
      = some (⟨36, 36, 36⟩, ⟨demoRngStop.draws, 5⟩) := by
  cases fuel <;>
  norm_num [shade, shadeWith, shadeLoIndirWith, shadeLoDir, shadeLoDirFrom, sampleLight,
    sampleLightAt, sampleLightWalk, emitAreaSum, get_random_float, demoBoxScene, demoRngStop,
    demoWall, demoLight, demoPrims, demoInter, demoLightInter, demoDiffuse, dotProduct, epsilon,
    Vector3f.ext_iff]

/-- C12 evaluated in the box fixture, right operand of line 100 first: the
roulette draw `1/2` survives, the bounce hits the diffuse floor, the inner
`shade` returns 36 per channel after four more draws, and the result is
`36 * 1 * 1 / 1 / (4/5) = 45` per channel. -/
theorem C12_shadeLoIndir_bounce_witness :
    shadeLoIndir demoPrims demoBoxScene 2 demoInter ⟨0, 0, 1⟩ demoRngStop
      = some (⟨45, 45, 45⟩, ⟨demoRngStop.draws, 5⟩) := by
  have h := C12_shadeLoIndir_bounce demoPrims demoBoxScene 1 (shade demoPrims demoBoxScene 1)
    demoInter ⟨0, 0, 1⟩ demoRngStop
    (by norm_num [get_random_float, demoRngStop, demoBoxScene])
    (by norm_num [demoInter, demoDiffuse, epsilon]) rfl rfl
  rw [h.2, h.1]
  have hargs : shade demoPrims demoBoxScene 1
      (demoBoxScene.intersect ⟨demoInter.coords,
        demoPrims.normalized
          (demoInter.m.sample ⟨0, 0, 1⟩ demoInter.normal (get_random_float demoRngStop).2).1⟩)
      (-demoPrims.normalized
        (demoInter.m.sample ⟨0, 0, 1⟩ demoInter.normal (get_random_float demoRngStop).2).1)
      (demoInter.m.sample ⟨0, 0, 1⟩ demoInter.normal (get_random_float demoRngStop).2).2
      = some (⟨36, 36, 36⟩, ⟨demoRngStop.draws, 5⟩) :=
    demoBox_shade_inner 0 _
  rw [hargs]
  norm_num [demoBoxScene, demoPrims, demoInter, demoDiffuse, get_random_float, demoRngStop,
    dotProduct, Vector3f.ext_iff]

/-- C13: on an intersection whose material is not emissive, `shade(inter, wo)`
is `shadeLoDir(inter, wo) + shadeLoIndir(inter, wo)`, both terms taken on the
same intersection and the same `wo`.  The two terms draw from one random
source in the order the compiler chose for line 100: with the right operand
first the direct term draws where the indirect term left the source, with the
left operand first it is the other way round. -/
theorem C13_shade_sum (env : Prims) (sc : Scene) (fuel : ℕ) (inter : Intersection)
    (wo : Vector3f) (rng : Rng) (h : inter.m.hasEmission = false) :
    shade env sc fuel inter wo rng =
      (if env.sumRightFirst then
        (shadeLoIndir env sc fuel inter wo rng).map
          (fun cr => ((shadeLoDir env sc inter wo cr.2).1 + cr.1,
            (shadeLoDir env sc inter wo cr.2).2))
      else
        (shadeLoIndir env sc fuel inter wo (shadeLoDir env sc inter wo rng).2).map
          (fun cr => ((shadeLoDir env sc inter wo rng).1 + cr.1, cr.2))) := by
  have key : ∀ f, shadeWith env sc f inter wo rng =
      (if env.sumRightFirst then
        (f inter wo rng).map
          (fun cr => ((shadeLoDir env sc inter wo cr.2).1 + cr.1,
            (shadeLoDir env sc inter wo cr.2).2))
      else
        (f inter wo (shadeLoDir env sc inter wo rng).2).map
          (fun cr => ((shadeLoDir env sc inter wo rng).1 + cr.1, cr.2))) := by
    intro f
    unfold shadeWith
    rw [if_neg (by simp [h])]
    by_cases ho : env.sumRightFirst = true
    · rw [if_pos ho, if_pos ho]
      cases f inter wo rng with
      | none => rfl
      | some cr => rfl
    · rw [if_neg ho, if_neg ho]
      simp only
      cases f inter wo (shadeLoDir env sc inter wo rng).2 with
      | none => rfl
      | some cr => rfl
  cases fuel with
  | zero => exact key _
  | succ n => exact key _

/-- C13 evaluated on the diffuse floor of the box fixture, right operand
first: the indirect term is 20 per channel after three draws, the direct term
16 per channel after one more. -/
theorem C13_shade_sum_witness :
    shade demoPrims demoBoxScene 1 demoInter ⟨0, 0, -1⟩ ⟨demoRngStop.draws, 1⟩
      = some (⟨16, 16, 16⟩ + ⟨20, 20, 20⟩, ⟨demoRngStop.draws, 5⟩) := by
  rw [C13_shade_sum demoPrims demoBoxScene 1 demoInter ⟨0, 0, -1⟩ ⟨demoRngStop.draws, 1⟩ rfl]
  norm_num [shade, shadeWith, shadeLoIndir, shadeLoIndirWith, shadeLoDir, shadeLoDirFrom,
    sampleLight, sampleLightAt, sampleLightWalk, emitAreaSum, get_random_float, demoBoxScene,
    demoRngStop, demoWall, demoLight, demoPrims, demoInter, demoLightInter, demoDiffuse,
    dotProduct, epsilon, Vector3f.ext_iff]

/-- The light sample drawn in the open fixture scene. -/
theorem demoOpenScene_sampleLight (dist : ℚ) :
    sampleLight (demoOpenScene dist) demoPrims.defaultIntersection demoPrims.uninitFloat demoRng
      = (demoLightInter, 1 / 2, ⟨fun _ => 1 / 2, 1⟩) := by
  norm_num [sampleLight, sampleLightAt, sampleLightWalk, emitAreaSum, get_random_float,
    demoOpenScene, demoRng, demoWall, demoLight]

/-- C14 fails as stated for `shadeLoDir`: in the open fixture scene every
shadow ray has `happened = false`; with `distance = 0` left in that result the
direct term is zero, with `distance = 1000` it is 16 per channel, although the
two oracle results differ only in the `distance` field. -/
theorem C14_shadeLoDir_reads_distance_of_miss :
    (∀ ray, ((demoOpenScene 0).intersect ray).happened = false ∧
      ((demoOpenScene 1000).intersect ray).happened = false ∧
      (demoOpenScene 1000).intersect ray
        = { (demoOpenScene 0).intersect ray with distance := 1000 }) ∧
    (demoOpenScene 0).objects = (demoOpenScene 1000).objects ∧
    (demoOpenScene 0).RussianRoulette = (demoOpenScene 1000).RussianRoulette ∧
    (shadeLoDir demoPrims (demoOpenScene 0) demoInter ⟨0, 0, 1⟩ demoRng).1 = 0 ∧
    (shadeLoDir demoPrims (demoOpenScene 1000) demoInter ⟨0, 0, 1⟩ demoRng).1 = ⟨16, 16, 16⟩ ∧
    (shadeLoDir demoPrims (demoOpenScene 0) demoInter ⟨0, 0, 1⟩ demoRng).1
      ≠ (shadeLoDir demoPrims (demoOpenScene 1000) demoInter ⟨0, 0, 1⟩ demoRng).1 := by
  have h0 : (shadeLoDir demoPrims (demoOpenScene 0) demoInter ⟨0, 0, 1⟩ demoRng).1 = 0 := by
    unfold shadeLoDir
    simp only [demoOpenScene_sampleLight]
    norm_num [shadeLoDirFrom, demoOpenScene, demoPrims, demoInter, demoLightInter, demoMiss,
      dotProduct, epsilon]
  have h1 : (shadeLoDir demoPrims (demoOpenScene 1000) demoInter ⟨0, 0, 1⟩ demoRng).1
      = ⟨16, 16, 16⟩ := by
    unfold shadeLoDir
    simp only [demoOpenScene_sampleLight]
    norm_num [shadeLoDirFrom, demoOpenScene, demoPrims, demoInter, demoLightInter, demoMiss,
      demoDiffuse, dotProduct, epsilon, Vector3f.ext_iff]
  refine ⟨fun ray => ⟨rfl, rfl, rfl⟩, rfl, rfl, h0, h1, ?_⟩
  rw [h0, h1]
  intro h
  have hx := congrArg Vector3f.x h
  norm_num at hx

/-- C14, as the code behaves.  `castRay` and `shadeLoIndir` read no other field
of an oracle result whose `happened` flag is false: two runs in which the
primary (bounce) ray gets results with `happened = false` return the same
colour, whatever the other fields, the rest of the oracle and the callee are.
`shadeLoDir` never tests `happened`: of the shadow-ray result it reads the
`distance` field and nothing else, in every case, so two runs over the same
object list return the same colour as soon as the two shadow-ray results carry
the same `distance`. -/
theorem C14_fields_read_of_oracle_result (env : Prims) (sc1 sc2 : Scene)
    (inter : Intersection) (wo : Vector3f) (rng : Rng)
    (hobj : sc1.objects = sc2.objects) (hrr : sc1.RussianRoulette = sc2.RussianRoulette) :
    (∀ (fuel : ℕ) (ray : Ray) (depth : ℤ),
      (sc1.intersect ray).happened = false → (sc2.intersect ray).happened = false →
      castRay env sc1 fuel ray depth rng = castRay env sc2 fuel ray depth rng) ∧
    (∀ rec1 rec2,
      (sc1.intersect ⟨inter.coords,
        env.normalized (inter.m.sample wo inter.normal (get_random_float rng).2).1⟩).happened
          = false →
      (sc2.intersect ⟨inter.coords,
        env.normalized (inter.m.sample wo inter.normal (get_random_float rng).2).1⟩).happened
          = false →
      shadeLoIndirWith env sc1 rec1 inter wo rng = shadeLoIndirWith env sc2 rec2 inter wo rng) ∧
    ((sc1.intersect ⟨inter.coords, env.normalized
        ((sampleLight sc1 env.defaultIntersection env.uninitFloat rng).1.coords
          - inter.coords)⟩).distance
      = (sc2.intersect ⟨inter.coords, env.normalized
        ((sampleLight sc1 env.defaultIntersection env.uninitFloat rng).1.coords
          - inter.coords)⟩).distance →
      shadeLoDir env sc1 inter wo rng = shadeLoDir env sc2 inter wo rng) := by
  have hsl : sampleLight sc2 env.defaultIntersection env.uninitFloat rng
      = sampleLight sc1 env.defaultIntersection env.uninitFloat rng := by
    unfold sampleLight
    rw [hobj]
  refine ⟨?_, ?_, ?_⟩
  · intro fuel ray depth h1 h2
    simp [castRay, h1, h2]
  · intro rec1 rec2 h1 h2
    unfold shadeLoIndirWith
    simp only [h1, h2, hrr, Bool.false_and, Bool.false_eq_true, if_false]
  · intro hd
    unfold shadeLoDir
    simp only [hsl]
    unfold shadeLoDirFrom
    simp only [hd]

/-- C14 evaluated on two open fixture scenes whose `happened = false` results
differ in the `distance` field: `castRay` returns the zero colour in both. -/
theorem C14_fields_read_of_oracle_result_witness :
    castRay demoPrims (demoOpenScene 0) 1 ⟨⟨0, 0, 0⟩, ⟨0, 0, 1⟩⟩ 0 demoRng
      = castRay demoPrims (demoOpenScene 1000) 1 ⟨⟨0, 0, 0⟩, ⟨0, 0, 1⟩⟩ 0 demoRng :=
  (C14_fields_read_of_oracle_result demoPrims (demoOpenScene 0) (demoOpenScene 1000) demoInter
    ⟨0, 0, 1⟩ demoRng rfl rfl).1 1 ⟨⟨0, 0, 0⟩, ⟨0, 0, 1⟩⟩ 0 rfl rfl

/-! ## Recursion and the roulette -/

/-- When line 89 is not reached, `shadeLoIndir` returns the zero colour
whatever its callee is. -/
theorem shadeLoIndirWith_of_no_reentry (env : Prims) (sc : Scene) (inter : Intersection)
    (wo : Vector3f) (rng : Rng) (h : shadeLoIndirReentry env sc inter wo rng = none) :
    ∃ rng1, ∀ f, shadeLoIndirWith env sc f inter wo rng = some (0, rng1) := by
  unfold shadeLoIndirReentry at h
  simp only at h
  by_cases hd : (get_random_float rng).1 < sc.RussianRoulette
  · rw [if_pos hd] at h
    by_cases hp : inter.m.pdf wo
        (env.normalized (inter.m.sample wo inter.normal (get_random_float rng).2).1)
        inter.normal > epsilon
    · rw [if_pos hp] at h
      by_cases hn : ((sc.intersect ⟨inter.coords,
          env.normalized (inter.m.sample wo inter.normal (get_random_float rng).2).1⟩).happened &&
        !(sc.intersect ⟨inter.coords,
          env.normalized (inter.m.sample wo inter.normal
            (get_random_float rng).2).1⟩).m.hasEmission) = true
      · rw [if_pos hn] at h
        exact absurd h (by simp)
      · refine ⟨(inter.m.sample wo inter.normal (get_random_float rng).2).2, fun f => ?_⟩
        unfold shadeLoIndirWith
        simp only
        rw [if_pos hd, if_pos hp, if_neg hn]
    · refine ⟨(inter.m.sample wo inter.normal (get_random_float rng).2).2, fun f => ?_⟩
      unfold shadeLoIndirWith
      simp only
      rw [if_pos hd, if_neg hp]
  · refine ⟨(get_random_float rng).2, fun f => ?_⟩
    unfold shadeLoIndirWith
    simp only
    rw [if_neg hd]

/-- When line 89 is reached, the roulette draw was below `RussianRoulette` and
`shadeLoIndir` returns the scaled result of its callee on the re-entry
arguments. -/
theorem shadeLoIndirWith_of_reentry (env : Prims) (sc : Scene) (inter : Intersection)
    (wo : Vector3f) (rng : Rng) (nextObj : Intersection) (w : Vector3f) (rng1 : Rng)
    (h : shadeLoIndirReentry env sc inter wo rng = some (nextObj, w, rng1)) :
    (get_random_float rng).1 < sc.RussianRoulette ∧
    ∃ g : Vector3f → Vector3f, ∀ f, shadeLoIndirWith env sc f inter wo rng =
      (f nextObj w rng1).map (fun cr => (g cr.1, cr.2)) := by
  unfold shadeLoIndirReentry at h
  simp only at h
  by_cases hd : (get_random_float rng).1 < sc.RussianRoulette
  · rw [if_pos hd] at h
    by_cases hp : inter.m.pdf wo
        (env.normalized (inter.m.sample wo inter.normal (get_random_float rng).2).1)
        inter.normal > epsilon
    · rw [if_pos hp] at h
      by_cases hn : ((sc.intersect ⟨inter.coords,
          env.normalized (inter.m.sample wo inter.normal (get_random_float rng).2).1⟩).happened &&
        !(sc.intersect ⟨inter.coords,
          env.normalized (inter.m.sample wo inter.normal
            (get_random_float rng).2).1⟩).m.hasEmission) = true
      · rw [if_pos hn] at h
        simp only [Option.some.injEq, Prod.mk.injEq] at h
        obtain ⟨h1, h2, h3⟩ := h
        refine ⟨hd, fun c => c
          * inter.m.eval
              (env.normalized (inter.m.sample wo inter.normal (get_random_float rng).2).1)
              wo inter.normal
          * max 0 (dotProduct
              (env.normalized (inter.m.sample wo inter.normal (get_random_float rng).2).1)
              inter.normal)
          / inter.m.pdf wo
              (env.normalized (inter.m.sample wo inter.normal (get_random_float rng).2).1)
              inter.normal
          / sc.RussianRoulette, fun f => ?_⟩
        unfold shadeLoIndirWith
        simp only
        rw [if_pos hd, if_pos hp, if_pos hn, h1, h2, h3]
        cases f nextObj w rng1 with
        | none => rfl
        | some cr => rfl
      · rw [if_neg hn] at h
        exact absurd h (by simp)
    · rw [if_neg hp] at h
      exact absurd h (by simp)
  · rw [if_neg hd] at h
    exact absurd h (by simp)

/-- On a non-emissive intersection `shade` returns exactly when its indirect
term does, entered on the random source in the state fixed by the evaluation
order. -/
theorem shadeWith_of_dark (env : Prims) (sc : Scene) (inter : Intersection) (wo : Vector3f)
    (rng : Rng) (h : ¬ inter.m.hasEmission = true) :
    ∃ g : Vector3f × Rng → Vector3f × Rng, ∀ f,
      shadeWith env sc f inter wo rng
        = (f inter wo (indirEntryRng env sc inter wo rng)).map g := by
  by_cases ho : env.sumRightFirst = true
  · refine ⟨fun cr => ((shadeLoDir env sc inter wo cr.2).1 + cr.1,
      (shadeLoDir env sc inter wo cr.2).2), fun f => ?_⟩
    unfold shadeWith indirEntryRng
    rw [if_neg h, if_pos ho, if_pos ho]
    cases f inter wo rng with
    | none => rfl
    | some cr => rfl
  · refine ⟨fun cr => ((shadeLoDir env sc inter wo rng).1 + cr.1, cr.2), fun f => ?_⟩
    unfold shadeWith indirEntryRng
    rw [if_neg h, if_neg ho, if_neg ho]
    simp only
    cases f inter wo (shadeLoDir env sc inter wo rng).2 with
    | none => rfl
    | some cr => rfl

/-- A losing roulette draw at nesting level `d` makes `shade` return within
`d` nested re-entries, with the same result for every larger budget. -/
theorem shade_returns_of_losing_draw (env : Prims) (sc : Scene) (d : ℕ) :
    ∀ (inter : Intersection) (wo : Vector3f) (rng : Rng) (q : ℚ),
      rouletteDrawAt env sc d inter wo rng = some q → sc.RussianRoulette ≤ q →
      ∃ res, ∀ k, shade env sc (d + k) inter wo rng = some res := by
  induction d with
  | zero =>
    intro inter wo rng q hq hle
    unfold rouletteDrawAt at hq
    by_cases he : inter.m.hasEmission = true
    · rw [if_pos he] at hq
      exact absurd hq (by simp)
    · rw [if_neg he] at hq
      simp only [Option.some.injEq] at hq
      have hno : shadeLoIndirReentry env sc inter wo (indirEntryRng env sc inter wo rng)
          = none := by
        unfold shadeLoIndirReentry
        simp only
        rw [hq, if_neg (not_lt.mpr hle)]
      obtain ⟨rng1, hall⟩ := shadeLoIndirWith_of_no_reentry env sc inter wo _ hno
      obtain ⟨g, hg⟩ := shadeWith_of_dark env sc inter wo rng he
      refine ⟨g (0, rng1), fun k => ?_⟩
      rw [zero_add]
      cases k <;> simp only [shade, hg, hall, Option.map_some']
  | succ d ih =>
    intro inter wo rng q hq hle
    unfold rouletteDrawAt at hq
    by_cases he : inter.m.hasEmission = true
    · rw [if_pos he] at hq
      exact absurd hq (by simp)
    · rw [if_neg he] at hq
      cases hre : shadeLoIndirReentry env sc inter wo (indirEntryRng env sc inter wo rng) with
      | none =>
        rw [hre] at hq
        exact absurd hq (by simp)
      | some args =>
        obtain ⟨nextObj, w, rng1⟩ := args
        rw [hre] at hq
        obtain ⟨res, hres⟩ := ih nextObj w rng1 q hq hle
        obtain ⟨-, g1, hg1⟩ := shadeLoIndirWith_of_reentry env sc inter wo _ nextObj w rng1 hre
        obtain ⟨g, hg⟩ := shadeWith_of_dark env sc inter wo rng he
        refine ⟨g (g1 res.1, res.2), fun k => ?_⟩
        have hk : d + 1 + k = (d + k) + 1 := by omega
        rw [hk]
        simp only [shade, hg, hg1, hres, Option.map_some']

/-- In the box fixture with every draw equal to `1/2`, a call of `shade` on the
floor re-enters `shade` on the floor. -/
theorem demoBox_shade_step
    (f : Intersection → Vector3f → Rng → Option (Vector3f × Rng)) (n : ℕ) (wo : Vector3f)
    (hf : ∀ (m : ℕ) (w : Vector3f), f demoInter w ⟨fun _ => 1 / 2, m⟩ = none) :
    shadeWith demoPrims demoBoxScene (shadeLoIndirWith demoPrims demoBoxScene f) demoInter wo
      ⟨fun _ => 1 / 2, n⟩ = none := by
  have hre : shadeLoIndirReentry demoPrims demoBoxScene demoInter wo ⟨fun _ => 1 / 2, n⟩
      = some (demoInter, -demoInter.normal, ⟨fun _ => 1 / 2, n + 1⟩) := by
    norm_num [shadeLoIndirReentry, get_random_float, demoBoxScene, demoPrims, demoInter,
      demoDiffuse, epsilon]
  obtain ⟨-, g1, hg1⟩ := shadeLoIndirWith_of_reentry demoPrims demoBoxScene demoInter wo _ _ _ _ hre
  obtain ⟨g, hg⟩ := shadeWith_of_dark demoPrims demoBoxScene demoInter wo ⟨fun _ => 1 / 2, n⟩
    (by simp [demoInter, demoDiffuse])
  rw [hg]
  have hentry : indirEntryRng demoPrims demoBoxScene demoInter wo ⟨fun _ => 1 / 2, n⟩
      = ⟨fun _ => 1 / 2, n⟩ := rfl
  rw [hentry, hg1, hf]
  rfl

/-- In the box fixture with every draw equal to `1/2` no recursion budget is
enough: the roulette never loses and the path never leaves the box. -/
theorem demoBox_shade_never_returns (d : ℕ) :
    ∀ (n : ℕ) (wo : Vector3f),
      shade demoPrims demoBoxScene d demoInter wo ⟨fun _ => 1 / 2, n⟩ = none := by
  induction d with
  | zero =>
    intro n wo
    exact demoBox_shade_step (fun _ _ _ => none) n wo (fun _ _ => rfl)
  | succ d ih =>
    intro n wo
    exact demoBox_shade_step (shade demoPrims demoBoxScene d) n wo ih

/-- C15: recursion is gated by the roulette and by no depth counter.  A call of
`shadeLoIndir` whose result depends on its callee `shade` made a roulette draw
strictly below `RussianRoulette`, and so did every call that reaches line 89;
a call that does not reach line 89 returns whatever the callee is.  If the
roulette draw made at nesting level `d` is `>= RussianRoulette`, `shade`
returns within `d` nested re-entries (and returns the same for every larger
budget).  Nothing else bounds the depth: in the box fixture with a stream of
winning draws, `shade` does not return within any number of re-entries. -/
theorem C15_recursion_gated_by_roulette (env : Prims) (sc : Scene) :
    (∀ (inter : Intersection) (wo : Vector3f) (rng : Rng) rec1 rec2,
      shadeLoIndirWith env sc rec1 inter wo rng ≠ shadeLoIndirWith env sc rec2 inter wo rng →
      (get_random_float rng).1 < sc.RussianRoulette) ∧
    (∀ (inter : Intersection) (wo : Vector3f) (rng : Rng) (args : Intersection × Vector3f × Rng),
      shadeLoIndirReentry env sc inter wo rng = some args →
      (get_random_float rng).1 < sc.RussianRoulette ∧
      ∀ f, (shadeLoIndirWith env sc f inter wo rng).isSome
        = (f args.1 args.2.1 args.2.2).isSome) ∧
    (∀ (inter : Intersection) (wo : Vector3f) (rng : Rng),
      shadeLoIndirReentry env sc inter wo rng = none →
      ∀ rec1 rec2, shadeLoIndirWith env sc rec1 inter wo rng
        = shadeLoIndirWith env sc rec2 inter wo rng) ∧
    (∀ (d : ℕ) (inter : Intersection) (wo : Vector3f) (rng : Rng) (q : ℚ),
      rouletteDrawAt env sc d inter wo rng = some q → sc.RussianRoulette ≤ q →
      ∃ res, shade env sc d inter wo rng = some res ∧
        ∀ k, shade env sc (d + k) inter wo rng = some res) ∧
    (∀ (d : ℕ) (wo : Vector3f),
      shade demoPrims demoBoxScene d demoInter wo demoRng = none) := by
  refine ⟨?_, ?_, ?_, ?_, ?_⟩
  · intro inter wo rng rec1 rec2 hne
    by_contra hd
    apply hne
    cases hre : shadeLoIndirReentry env sc inter wo rng with
    | none =>
      obtain ⟨rng1, hall⟩ := shadeLoIndirWith_of_no_reentry env sc inter wo rng hre
      rw [hall, hall]
    | some args =>
      obtain ⟨nextObj, w, rng1⟩ := args
      exact absurd (shadeLoIndirWith_of_reentry env sc inter wo rng nextObj w rng1 hre).1 hd
  · intro inter wo rng args hre
    obtain ⟨nextObj, w, rng1⟩ := args
    obtain ⟨hd, g, hg⟩ := shadeLoIndirWith_of_reentry env sc inter wo rng nextObj w rng1 hre
    refine ⟨hd, fun f => ?_⟩
    rw [hg]
    cases f nextObj w rng1 <;> rfl
  · intro inter wo rng hre rec1 rec2
    obtain ⟨rng1, hall⟩ := shadeLoIndirWith_of_no_reentry env sc inter wo rng hre
    rw [hall, hall]
  · intro d inter wo rng q hq hle
    obtain ⟨res, hres⟩ := shade_returns_of_losing_draw env sc d inter wo rng q hq hle
    exact ⟨res, by simpa using hres 0, hres⟩
  · intro d wo
    exact demoBox_shade_never_returns d 0 wo

/-- C15 evaluated in the box fixture with the stream `1/2, 1/2, 9/10, ...`,
right operand of line 100 first: entered at the second draw, `shade` wins its
own roulette with `1/2`, re-enters `shade` once, and there the roulette draw at
nesting level 1 is `9/10 >= 4/5`; `shade` returns with one re-entry. -/
theorem C15_recursion_gated_by_roulette_witness :
    ∃ res, shade demoPrims demoBoxScene 1 demoInter ⟨0, 0, -1⟩ ⟨demoRngStop.draws, 1⟩ = some res ∧
      ∀ k, shade demoPrims demoBoxScene (1 + k) demoInter ⟨0, 0, -1⟩ ⟨demoRngStop.draws, 1⟩
        = some res :=
  (C15_recursion_gated_by_roulette demoPrims demoBoxScene).2.2.2.1 1 demoInter ⟨0, 0, -1⟩
    ⟨demoRngStop.draws, 1⟩ (9 / 10)
    (by
      norm_num [rouletteDrawAt, indirEntryRng, shadeLoIndirReentry, get_random_float,
        demoBoxScene, demoRngStop, demoPrims, demoInter, demoDiffuse, epsilon])
    (by norm_num [demoBoxScene])

/-! ## Convexity of the bilinear blend -/

/-- A convex combination of two numbers that are at least `m` is at least
`m`. -/
theorem lerp_ge (s a b m : ℚ) (hs0 : 0 ≤ s) (hs1 : s ≤ 1) (ha : m ≤ a) (hb : m ≤ b) :
    m ≤ (1 - s) * a + s * b := by
  nlinarith [mul_nonneg hs0 (sub_nonneg.mpr hb), mul_nonneg (sub_nonneg.mpr hs1) (sub_nonneg.mpr ha)]

/-- A convex combination of two numbers that are at most `m` is at most
`m`. -/
theorem lerp_le (s a b m : ℚ) (hs0 : 0 ≤ s) (hs1 : s ≤ 1) (ha : a ≤ m) (hb : b ≤ m) :
    (1 - s) * a + s * b ≤ m := by
  nlinarith [mul_nonneg hs0 (sub_nonneg.mpr hb), mul_nonneg (sub_nonneg.mpr hs1) (sub_nonneg.mpr ha)]

/-- A bilinear blend with weights in `[0, 1]` of four numbers lies between
their minimum and their maximum. -/
theorem blend_between (s t a b c d : ℚ) (hs0 : 0 ≤ s) (hs1 : s ≤ 1) (ht0 : 0 ≤ t)
    (ht1 : t ≤ 1) :
    min (min a b) (min c d) ≤ (1 - t) * ((1 - s) * a + s * b) + t * ((1 - s) * c + s * d) ∧
    (1 - t) * ((1 - s) * a + s * b) + t * ((1 - s) * c + s * d) ≤ max (max a b) (max c d) := by
  constructor
  · apply lerp_ge t _ _ _ ht0 ht1
    · exact lerp_ge s a b _ hs0 hs1
        (le_trans (min_le_left _ _) (min_le_left _ _))
        (le_trans (min_le_left _ _) (min_le_right _ _))
    · exact lerp_ge s c d _ hs0 hs1
        (le_trans (min_le_right _ _) (min_le_left _ _))
        (le_trans (min_le_right _ _) (min_le_right _ _))
  · apply lerp_le t _ _ _ ht0 ht1
    · exact lerp_le s a b _ hs0 hs1
        (le_trans (le_max_left _ _) (le_max_left _ _))
        (le_trans (le_max_right _ _) (le_max_left _ _))
    · exact lerp_le s c d _ hs0 hs1
        (le_trans (le_max_left _ _) (le_max_right _ _))
        (le_trans (le_max_right _ _) (le_max_right _ _))

/-- C18: `getColorBilinear` is a convex combination of its four corner
fetches.  The fractional parts satisfy `0 <= s < 1` and `0 <= t < 1`; the
weights `(1-s)(1-t)`, `s(1-t)`, `(1-s)t`, `st` are non-negative and sum to 1;
the result is the sum of the four corner colours with these weights; and
every channel of the result lies between the minimum and the maximum of that
channel over the four corner colours. -/
theorem C18_getColorBilinear_convex (tex : Texture) (u v : ℚ) :
    0 ≤ u * tex.width - (⌊u * tex.width⌋ : ℤ) ∧
    u * tex.width - (⌊u * tex.width⌋ : ℤ) < 1 ∧
    0 ≤ (1 - v) * tex.height - (⌊(1 - v) * tex.height⌋ : ℤ) ∧
    (1 - v) * tex.height - (⌊(1 - v) * tex.height⌋ : ℤ) < 1 ∧
    (∀ s t : ℚ, 0 ≤ s → s < 1 → 0 ≤ t → t < 1 →
      0 ≤ (1 - s) * (1 - t) ∧ 0 ≤ s * (1 - t) ∧ 0 ≤ (1 - s) * t ∧ 0 ≤ s * t ∧
      (1 - s) * (1 - t) + s * (1 - t) + (1 - s) * t + s * t = 1) ∧
    tex.getColorBilinear u v =
      (((1 - (u * tex.width - (⌊u * tex.width⌋ : ℤ)))
          * (1 - ((1 - v) * tex.height - (⌊(1 - v) * tex.height⌋ : ℤ))) : ℚ))
          * tex.getColor ⌊u * tex.width⌋ ⌊(1 - v) * tex.height⌋
        + (((u * tex.width - (⌊u * tex.width⌋ : ℤ))
          * (1 - ((1 - v) * tex.height - (⌊(1 - v) * tex.height⌋ : ℤ))) : ℚ))
          * tex.getColor ⌈u * tex.width⌉ ⌊(1 - v) * tex.height⌋
        + (((1 - (u * tex.width - (⌊u * tex.width⌋ : ℤ)))
          * ((1 - v) * tex.height - (⌊(1 - v) * tex.height⌋ : ℤ)) : ℚ))
          * tex.getColor ⌊u * tex.width⌋ ⌈(1 - v) * tex.height⌉
        + (((u * tex.width - (⌊u * tex.width⌋ : ℤ))
          * ((1 - v) * tex.height - (⌊(1 - v) * tex.height⌋ : ℤ)) : ℚ))
          * tex.getColor ⌈u * tex.width⌉ ⌈(1 - v) * tex.height⌉ ∧
    (min (min (tex.getColor ⌊u * tex.width⌋ ⌊(1 - v) * tex.height⌋).x
          (tex.getColor ⌈u * tex.width⌉ ⌊(1 - v) * tex.height⌋).x)
        (min (tex.getColor ⌊u * tex.width⌋ ⌈(1 - v) * tex.height⌉).x
          (tex.getColor ⌈u * tex.width⌉ ⌈(1 - v) * tex.height⌉).x)
        ≤ (tex.getColorBilinear u v).x ∧
      (tex.getColorBilinear u v).x ≤
        max (max (tex.getColor ⌊u * tex.width⌋ ⌊(1 - v) * tex.height⌋).x
          (tex.getColor ⌈u * tex.width⌉ ⌊(1 - v) * tex.height⌋).x)
        (max (tex.getColor ⌊u * tex.width⌋ ⌈(1 - v) * tex.height⌉).x
          (tex.getColor ⌈u * tex.width⌉ ⌈(1 - v) * tex.height⌉).x)) ∧
    (min (min (tex.getColor ⌊u * tex.width⌋ ⌊(1 - v) * tex.height⌋).y
          (tex.getColor ⌈u * tex.width⌉ ⌊(1 - v) * tex.height⌋).y)
        (min (tex.getColor ⌊u * tex.width⌋ ⌈(1 - v) * tex.height⌉).y
          (tex.getColor ⌈u * tex.width⌉ ⌈(1 - v) * tex.height⌉).y)
        ≤ (tex.getColorBilinear u v).y ∧
      (tex.getColorBilinear u v).y ≤
        max (max (tex.getColor ⌊u * tex.width⌋ ⌊(1 - v) * tex.height⌋).y
          (tex.getColor ⌈u * tex.width⌉ ⌊(1 - v) * tex.height⌋).y)
        (max (tex.getColor ⌊u * tex.width⌋ ⌈(1 - v) * tex.height⌉).y
          (tex.getColor ⌈u * tex.width⌉ ⌈(1 - v) * tex.height⌉).y)) ∧
    (min (min (tex.getColor ⌊u * tex.width⌋ ⌊(1 - v) * tex.height⌋).z
          (tex.getColor ⌈u * tex.width⌉ ⌊(1 - v) * tex.height⌋).z)
        (min (tex.getColor ⌊u * tex.width⌋ ⌈(1 - v) * tex.height⌉).z
          (tex.getColor ⌈u * tex.width⌉ ⌈(1 - v) * tex.height⌉).z)
        ≤ (tex.getColorBilinear u v).z ∧
      (tex.getColorBilinear u v).z ≤
        max (max (tex.getColor ⌊u * tex.width⌋ ⌊(1 - v) * tex.height⌋).z
          (tex.getColor ⌈u * tex.width⌉ ⌊(1 - v) * tex.height⌋).z)
        (max (tex.getColor ⌊u * tex.width⌋ ⌈(1 - v) * tex.height⌉).z
          (tex.getColor ⌈u * tex.width⌉ ⌈(1 - v) * tex.height⌉).z)) := by
  have hs0 : 0 ≤ u * tex.width - (⌊u * tex.width⌋ : ℤ) := Int.fract_nonneg _
  have hs1 : u * tex.width - (⌊u * tex.width⌋ : ℤ) < 1 := Int.fract_lt_one _
  have ht0 : 0 ≤ (1 - v) * tex.height - (⌊(1 - v) * tex.height⌋ : ℤ) := Int.fract_nonneg _
  have ht1 : (1 - v) * tex.height - (⌊(1 - v) * tex.height⌋ : ℤ) < 1 := Int.fract_lt_one _
  refine ⟨hs0, hs1, ht0, ht1, ?_, ?_, ?_, ?_, ?_⟩
  · intro s t h1 h2 h3 h4
    refine ⟨mul_nonneg (by linarith) (by linarith), mul_nonneg h1 (by linarith),
      mul_nonneg (by linarith) h3, mul_nonneg h1 h3, by ring⟩
  · ext <;> simp [Texture.getColorBilinear, bilinearBlend] <;> ring
  · simpa [Texture.getColorBilinear, bilinearBlend] using
      blend_between _ _ _ _ _ _ hs0 (le_of_lt hs1) ht0 (le_of_lt ht1)
  · simpa [Texture.getColorBilinear, bilinearBlend] using
      blend_between _ _ _ _ _ _ hs0 (le_of_lt hs1) ht0 (le_of_lt ht1)
  · simpa [Texture.getColorBilinear, bilinearBlend] using
      blend_between _ _ _ _ _ _ hs0 (le_of_lt hs1) ht0 (le_of_lt ht1)

/-! ## Dark scenes and the depth argument -/

/-- C19: when no object of the scene is emissive, the area sum and the drawn
value `p` are both 0, the selection loop selects nothing for any `p`, no
object's `Sample` runs, and `sampleLight` leaves `pos` and `pdf` exactly as
they were on entry, having made its one draw; `shadeLoDir` then works on the
default-constructed `hitLight` and the uninitialised `lightPdf`. -/
theorem C19_sampleLight_no_emissive (env : Prims) (sc : Scene) (pos : Intersection)
    (pdf : ℚ) (rng : Rng) (inter : Intersection) (wo : Vector3f)
    (hno : ∀ o ∈ sc.objects, o.hasEmit = false) :
    emitAreaSum sc.objects = 0 ∧
    (get_random_float rng).1 * emitAreaSum sc.objects = 0 ∧
    (∀ p, sampleLightWalk p sc.objects 0 0 = none) ∧
    sampleLight sc pos pdf rng = (pos, pdf, (get_random_float rng).2) ∧
    (∀ sc1 : Scene, (∀ o ∈ sc1.objects, o.hasEmit = false) →
      sampleLight sc1 pos pdf rng = sampleLight sc pos pdf rng) ∧
    shadeLoDir env sc inter wo rng =
      (shadeLoDirFrom env sc inter wo env.defaultIntersection env.uninitFloat,
        (get_random_float rng).2) := by
  have hsum : ∀ l : List Object, (∀ o ∈ l, o.hasEmit = false) → emitAreaSum l = 0 := by
    intro l hl
    unfold emitAreaSum
    exact foldl_emit_area_of_no_emissive l 0 (fun o ho => by simp [hl o ho])
  have hwalk : ∀ (l : List Object), (∀ o ∈ l, o.hasEmit = false) →
      ∀ (p : ℚ) (k : ℕ) (acc : ℚ), sampleLightWalk p l k acc = none := by
    intro l
    induction l with
    | nil => intro _ p k acc; rfl
    | cons a rest ih =>
      intro hl p k acc
      unfold sampleLightWalk
      rw [if_neg (by simp [hl a (List.mem_cons_self a rest)])]
      exact ih (fun o ho => hl o (List.mem_cons_of_mem a ho)) p (k + 1) acc
  have hsl : ∀ c : Scene, (∀ o ∈ c.objects, o.hasEmit = false) →
      sampleLight c pos pdf rng = (pos, pdf, (get_random_float rng).2) := by
    intro c hc
    unfold sampleLight sampleLightAt
    simp only [hwalk c.objects hc]
  refine ⟨hsum _ hno, by rw [hsum _ hno, mul_zero], fun p => hwalk _ hno p 0 0, hsl sc hno, ?_, ?_⟩
  · intro sc1 h1
    rw [hsl sc1 h1, hsl sc hno]
  · have hd : sampleLight sc env.defaultIntersection env.uninitFloat rng
        = (env.defaultIntersection, env.uninitFloat, (get_random_float rng).2) := by
      unfold sampleLight sampleLightAt
      simp only [hwalk sc.objects hno]
    unfold shadeLoDir
    simp only [hd]

/-- C19 evaluated on the fixture scene made of two walls. -/
theorem C19_sampleLight_no_emissive_witness :
    sampleLight demoDarkScene demoLightInter 7 demoRng
      = (demoLightInter, 7, (get_random_float demoRng).2) :=
  (C19_sampleLight_no_emissive demoPrims demoDarkScene demoLightInter 7 demoRng demoInter
    ⟨0, 0, 1⟩ (by
      intro o ho
      simp only [demoDarkScene, List.mem_cons, List.mem_singleton, List.not_mem_nil,
        or_false] at ho
      rcases ho with rfl | rfl <;> rfl)).2.2.2.1

/-- C20: `castRay` ignores its depth argument: for every ray, scene, random
stream and recursion budget, two depth values give the same result, which is
zero on a miss and otherwise `shade` of the hit, a call that takes no
depth. -/
theorem C20_castRay_ignores_depth (env : Prims) (sc : Scene) (fuel : ℕ) (ray : Ray)
    (d1 d2 : ℤ) (rng : Rng) :
    castRay env sc fuel ray d1 rng = castRay env sc fuel ray d2 rng ∧
    castRay env sc fuel ray d1 rng =
      (if (sc.intersect ray).happened = false then some (0, rng)
       else shade env sc fuel (sc.intersect ray) (-ray.direction) rng) := by
  refine ⟨rfl, ?_⟩
  simp only [castRay]
  cases h : (sc.intersect ray).happened <;> simp

namespace Binary32

/-! ## Binary32 rounding -/

/-- The binade of a number between `2^e` and `2^(e+1)` is `e`. -/
theorem binade_eq (a : ℚ) (e : ℤ) (he : -126 ≤ e) (h1 : (2 : ℚ) ^ e ≤ a)
    (h2 : a < (2 : ℚ) ^ (e + 1)) : binade a = e := by
  have ha : 0 < a := lt_of_lt_of_le (by positivity) h1
  have x := (Int.zpow_le_iff_le_log (b := 2) (by norm_num) ha).mp (by exact_mod_cast h1)
  have y := (Int.lt_zpow_iff_log_lt (b := 2) (by norm_num) ha).mp (by exact_mod_cast h2)
  unfold binade
  have : Int.log 2 a = e := by omega
  rw [this]
  exact max_eq_left he

/-- The binade of a positive number below `2^-126` is `-126`. -/
theorem binade_subnormal (a : ℚ) (ha : 0 < a) (h2 : a < (2 : ℚ) ^ (-126 : ℤ)) :
    binade a = -126 := by
  have y : Int.log 2 a < -126 :=
    (Int.lt_zpow_iff_log_lt (b := 2) (by norm_num) ha).mp (by exact_mod_cast h2)
  unfold binade
  exact max_eq_right (le_of_lt y)

/-- An integer rounds to itself. -/
theorem roundHalfEven_intCast (n : ℤ) : roundHalfEven (n : ℚ) = n := by
  simp [roundHalfEven]

/-- Zero rounds to zero. -/
theorem roundMag_zero : roundMag 0 = 0 := by
  simp [roundMag, roundHalfEven]

/-- Zero rounds to zero. -/
theorem round32_zero : round32 0 = F32.fin 0 := by
  simp [round32, roundMag_zero]

/-- Evaluation of the rounding of a positive number whose binade is known. -/
theorem round32_of_binade (q : ℚ) (e : ℤ) (he : -126 ≤ e) (h1 : (2 : ℚ) ^ e ≤ q)
    (h2 : q < (2 : ℚ) ^ (e + 1)) :
    round32 q =
      if (2 : ℚ) ^ 128 ≤ roundHalfEven (q / 2 ^ (e - 23)) * 2 ^ (e - 23) then F32.pinf
      else F32.fin (roundHalfEven (q / 2 ^ (e - 23)) * 2 ^ (e - 23)) := by
  have hq : 0 < q := lt_of_lt_of_le (by positivity) h1
  unfold round32 roundMag
  rw [abs_of_pos hq, binade_eq q e he h1 h2, if_neg (not_lt.mpr (le_of_lt hq)),
    if_neg (not_lt.mpr (le_of_lt hq))]

/-- The magnitude rounding does not see the sign. -/
theorem round32_neg (q : ℚ) : round32 (-q) = F32.neg (round32 q) := by
  rcases lt_trichotomy q 0 with h | h | h
  · have h1 : ¬ (-q < 0) := by linarith
    unfold round32
    rw [abs_neg, if_pos h, if_pos h, if_neg h1, if_neg h1]
    split <;> simp [F32.neg]
  · subst h
    simp [round32_zero, F32.neg]
  · have h1 : -q < 0 := by linarith
    have h2 : ¬ q < 0 := by linarith
    unfold round32
    rw [abs_neg, if_pos h1, if_pos h1, if_neg h2, if_neg h2]
    split <;> simp [F32.neg]


/-- A power of two splits at any exponent. -/
theorem two_zpow_split (b k : ℤ) : (2 : ℚ) ^ b = 2 ^ k * 2 ^ (b - k) := by
  rw [← zpow_add₀ (two_ne_zero)]
  congr 1
  ring

/-- The rounded integer is the floor or the floor plus one. -/
theorem roundHalfEven_bounds (x : ℚ) : ⌊x⌋ ≤ roundHalfEven x ∧ roundHalfEven x ≤ ⌊x⌋ + 1 := by
  unfold roundHalfEven
  split
  · exact ⟨le_refl _, by omega⟩
  · split
    · exact ⟨by omega, le_refl _⟩
    · split
      · exact ⟨le_refl _, by omega⟩
      · exact ⟨by omega, le_refl _⟩

/-- A number with at most 24 significant bits above the subnormal spacing is
left unchanged by the rounding of magnitudes. -/
theorem roundMag_fixed (m b : ℤ) (hb : -126 ≤ b) (hm0 : 0 ≤ m) (hm : m ≤ 2 ^ 24)
    (hnorm : b = -126 ∨ 2 ^ 23 ≤ m) :
    roundMag (m * 2 ^ (b - 23)) = m * 2 ^ (b - 23) := by
  have hu : (0 : ℚ) < 2 ^ (b - 23) := by positivity
  rcases eq_or_lt_of_le hm0 with h0 | hpos
  · rw [← h0]
    simp [roundMag_zero]
  rcases eq_or_lt_of_le hm with h24 | hlt
  · -- the value is the power `2^(b+1)`
    have hval : ((m : ℚ)) * 2 ^ (b - 23) = 2 ^ (b + 1) := by
      rw [h24, two_zpow_split (b + 1) 24]
      have : b + 1 - 24 = b - 23 := by ring
      rw [this]
      norm_num
    have hbin : binade ((m : ℚ) * 2 ^ (b - 23)) = b + 1 := by
      rw [hval]
      refine binade_eq _ (b + 1) (by omega) (le_refl _) ?_
      exact zpow_lt_zpow_right₀ (by norm_num) (by omega)
    unfold roundMag
    rw [hbin, hval]
    have hq : (2 : ℚ) ^ (b + 1) / 2 ^ (b + 1 - 23) = ((2 ^ 23 : ℤ) : ℚ) := by
      rw [two_zpow_split (b + 1) 23]
      field_simp
      norm_num
    rw [hq, roundHalfEven_intCast, two_zpow_split (b + 1) 23]
    norm_num
  by_cases h23 : (2 : ℤ) ^ 23 ≤ m
  · -- a normal number of binade `b`
    have hbin : binade ((m : ℚ) * 2 ^ (b - 23)) = b := by
      refine binade_eq _ b hb ?_ ?_
      · rw [two_zpow_split b 23]
        exact mul_le_mul_of_nonneg_right (by exact_mod_cast h23) (le_of_lt hu)
      · rw [two_zpow_split (b + 1) 24]
        have : b + 1 - 24 = b - 23 := by ring
        rw [this]
        exact mul_lt_mul_of_pos_right (by exact_mod_cast hlt) hu
    unfold roundMag
    rw [hbin, mul_div_assoc, div_self (ne_of_gt hu), mul_one, roundHalfEven_intCast]
  · -- a subnormal number
    have hb' : b = -126 := by
      rcases hnorm with h | h
      · exact h
      · exact absurd h h23
    subst hb'
    have hbin : binade ((m : ℚ) * 2 ^ ((-126 : ℤ) - 23)) = -126 := by
      refine binade_subnormal _ (mul_pos (by exact_mod_cast hpos) hu) ?_
      rw [two_zpow_split (-126) 23]
      exact mul_lt_mul_of_pos_right (by exact_mod_cast (not_le.mp h23)) hu
    unfold roundMag
    rw [hbin, mul_div_assoc, div_self (ne_of_gt hu), mul_one, roundHalfEven_intCast]

/-- The rounding of a non-negative magnitude has at most 24 significant bits
above the subnormal spacing. -/
theorem roundMag_repr (a : ℚ) (ha : 0 ≤ a) :
    ∃ m b : ℤ, -126 ≤ b ∧ 0 ≤ m ∧ m ≤ 2 ^ 24 ∧ (b = -126 ∨ 2 ^ 23 ≤ m) ∧
      roundMag a = m * 2 ^ (b - 23) := by
  rcases eq_or_lt_of_le ha with h0 | hpos
  · refine ⟨0, -126, le_refl _, le_refl _, by norm_num, Or.inl rfl, ?_⟩
    rw [← h0]
    simp [roundMag_zero]
  have hu : (0 : ℚ) < 2 ^ (binade a - 23) := by positivity
  have hx0 : 0 ≤ a / 2 ^ (binade a - 23) := le_of_lt (div_pos hpos hu)
  have hfl0 : 0 ≤ ⌊a / 2 ^ (binade a - 23)⌋ := Int.floor_nonneg.mpr hx0
  have hbnd := roundHalfEven_bounds (a / 2 ^ (binade a - 23))
  have hlog1 : (2 : ℚ) ^ Int.log 2 a ≤ a := by
    exact_mod_cast Int.zpow_log_le_self (b := 2) (by norm_num) hpos
  have hlog2 : a < (2 : ℚ) ^ (Int.log 2 a + 1) := by
    exact_mod_cast Int.lt_zpow_succ_log_self (b := 2) (by norm_num) a
  have hup : a / 2 ^ (binade a - 23) < 2 ^ 24 := by
    rw [div_lt_iff₀ hu]
    have hle : Int.log 2 a + 1 ≤ binade a + 1 := by
      have := le_max_left (Int.log 2 a) (-126)
      unfold binade
      omega
    calc a < (2 : ℚ) ^ (Int.log 2 a + 1) := hlog2
      _ ≤ 2 ^ (binade a + 1) := zpow_le_zpow_right₀ (by norm_num) hle
      _ = 2 ^ 24 * 2 ^ (binade a - 23) := by
          rw [two_zpow_split (binade a + 1) 24]
          have : binade a + 1 - 24 = binade a - 23 := by ring
          rw [this]
          norm_num
  have hflup : ⌊a / 2 ^ (binade a - 23)⌋ < 2 ^ 24 := by
    have := Int.floor_le (a / 2 ^ (binade a - 23))
    have h3 : ((⌊a / 2 ^ (binade a - 23)⌋ : ℤ) : ℚ) < ((2 ^ 24 : ℤ) : ℚ) := by
      push_cast
      linarith
    exact_mod_cast h3
  refine ⟨roundHalfEven (a / 2 ^ (binade a - 23)), binade a, le_max_right _ _, by omega,
    by omega, ?_, rfl⟩
  by_cases hb : binade a = -126
  · exact Or.inl hb
  · right
    have hlog : binade a = Int.log 2 a := by
      unfold binade at hb ⊢
      rcases max_cases (Int.log 2 a) (-126) with ⟨h, _⟩ | ⟨h, _⟩
      · exact h
      · exact absurd h hb
    have hlow : (2 : ℚ) ^ 23 ≤ a / 2 ^ (binade a - 23) := by
      rw [le_div_iff₀ hu]
      calc (2 : ℚ) ^ 23 * 2 ^ (binade a - 23) = 2 ^ binade a := by
            rw [two_zpow_split (binade a) 23]
            norm_num
        _ = 2 ^ Int.log 2 a := by rw [hlog]
        _ ≤ a := hlog1
    have hfl : (2 : ℤ) ^ 23 ≤ ⌊a / 2 ^ (binade a - 23)⌋ := by
      rw [Int.le_floor]
      push_cast
      exact hlow
    omega

/-- The rounding of magnitudes is idempotent. -/
theorem roundMag_idem (a : ℚ) (ha : 0 ≤ a) : roundMag (roundMag a) = roundMag a := by
  obtain ⟨m, b, hb, hm0, hm, hnorm, heq⟩ := roundMag_repr a ha
  rw [heq]
  exact roundMag_fixed m b hb hm0 hm hnorm

/-- The rounding of a non-negative magnitude is non-negative. -/
theorem roundMag_nonneg (a : ℚ) (ha : 0 ≤ a) : 0 ≤ roundMag a := by
  obtain ⟨m, b, -, hm0, -, -, heq⟩ := roundMag_repr a ha
  rw [heq]
  exact mul_nonneg (by exact_mod_cast hm0) (by positivity)

/-- Every finite result of `round32` is a binary32 number: it rounds to
itself. -/
theorem round32_idem (q r : ℚ) (h : round32 q = F32.fin r) : round32 r = F32.fin r := by
  have hnn := roundMag_nonneg |q| (abs_nonneg q)
  have hid := roundMag_idem |q| (abs_nonneg q)
  unfold round32 at h
  by_cases hov : (2 : ℚ) ^ 128 ≤ roundMag |q|
  · rw [if_pos hov] at h
    split at h <;> exact absurd h (by simp)
  · rw [if_neg hov] at h
    have hr : r = if q < 0 then -roundMag |q| else roundMag |q| := (F32.fin.inj h).symm
    have habs : |r| = roundMag |q| := by
      rw [hr]
      split
      · rw [abs_neg, abs_of_nonneg hnn]
      · rw [abs_of_nonneg hnn]
    unfold round32
    rw [habs, hid, if_neg hov]
    congr 1
    by_cases hr0 : r < 0
    · rw [if_pos hr0]
      have hq : q < 0 := by
        by_contra hq
        rw [if_neg hq] at hr
        linarith
      rw [if_pos hq] at hr
      exact hr.symm
    · rw [if_neg hr0]
      by_cases hq : q < 0
      · rw [if_pos hq] at hr
        have : roundMag |q| = 0 := by linarith
        rw [hr, this]
        simp
      · rw [if_neg hq] at hr
        exact hr.symm


/-- Evaluation of the rounding of a positive number: `e` is its binade and `r`
the multiple of `2^(e-23)` nearest to it. -/
theorem round32_pos (x r : ℚ) (e : ℤ) (he : -126 ≤ e) (h1 : (2 : ℚ) ^ e ≤ x)
    (h2 : x < (2 : ℚ) ^ (e + 1))
    (hr : (roundHalfEven (x / 2 ^ (e - 23)) : ℚ) * 2 ^ (e - 23) = r)
    (hfin : r < 2 ^ 128) : round32 x = F32.fin r := by
  rw [round32_of_binade x e he h1 h2, hr, if_neg (not_le.mpr hfin)]

/-- Evaluation of the rounding of a negative number. -/
theorem round32_negative (x r : ℚ) (e : ℤ) (he : -126 ≤ e) (h1 : (2 : ℚ) ^ e ≤ -x)
    (h2 : -x < (2 : ℚ) ^ (e + 1))
    (hr : (roundHalfEven (-x / 2 ^ (e - 23)) : ℚ) * 2 ^ (e - 23) = r)
    (hfin : r < 2 ^ 128) : round32 x = F32.fin (-r) := by
  have h := round32_pos (-x) r e he h1 h2 hr hfin
  have h3 := round32_neg (-x)
  rw [neg_neg, h] at h3
  rw [h3]
  rfl

/-- One is a binary32 number. -/
theorem round32_one : round32 1 = F32.fin 1 :=
  round32_pos 1 1 0 (by norm_num) (by norm_num) (by norm_num) (by norm_num [roundHalfEven])
    (by norm_num)

/-- The conversion of the `int` 0. -/
theorem ofInt_zero : F32.ofInt 0 = F32.fin 0 := by
  simp [F32.ofInt, round32_zero]

/-- The conversion of the `int` 1. -/
theorem ofInt_one : F32.ofInt 1 = F32.fin 1 := by
  simp [F32.ofInt, round32_one]

/-- A value is a binary32 number exactly when it is a finite value that
rounding leaves unchanged. -/
theorem isNumber_iff (x : F32) :
    x.isNumber = true ↔ ∃ q, x = F32.fin q ∧ round32 q = F32.fin q := by
  cases x with
  | fin q => simp [F32.isNumber]
  | pinf => simp [F32.isNumber]
  | ninf => simp [F32.isNumber]
  | nan => simp [F32.isNumber]

/-- A finite product is a binary32 number. -/
theorem mul_eq_fin (a b : F32) (r : ℚ) (h : F32.mul a b = F32.fin r) :
    round32 r = F32.fin r := by
  cases a <;> cases b <;> simp only [F32.mul] at h
  · exact round32_idem _ _ h
  all_goals
    first
    | exact absurd h (by simp)
    | (split at h <;> first
        | exact absurd h (by simp)
        | (split at h <;> exact absurd h (by simp)))

/-- Multiplying a binary32 number by one leaves it unchanged. -/
theorem one_mul_number (c : F32) (hc : c.isNumber = true) : F32.mul (F32.fin 1) c = c := by
  obtain ⟨q, rfl, hq⟩ := (isNumber_iff c).mp hc
  simp [F32.mul, hq]

/-- Multiplying a finite value by zero gives zero. -/
theorem zero_mul_finite (c : F32) (hc : c.isFinite = true) :
    F32.mul (F32.fin 0) c = F32.fin 0 := by
  cases c with
  | fin q => simp [F32.mul, round32_zero]
  | pinf => simp [F32.isFinite] at hc
  | ninf => simp [F32.isFinite] at hc
  | nan => simp [F32.isFinite] at hc

/-- Multiplying a finite value by zero gives zero. -/
theorem mul_zero_finite (c : F32) (hc : c.isFinite = true) :
    F32.mul c (F32.fin 0) = F32.fin 0 := by
  cases c with
  | fin q => simp [F32.mul, round32_zero]
  | pinf => simp [F32.isFinite] at hc
  | ninf => simp [F32.isFinite] at hc
  | nan => simp [F32.isFinite] at hc

/-- Adding zero to a binary32 number leaves it unchanged. -/
theorem add_zero_number (c : F32) (hc : c.isNumber = true) : F32.add c (F32.fin 0) = c := by
  obtain ⟨q, rfl, hq⟩ := (isNumber_iff c).mp hc
  simp [F32.add, hq]

/-- A binary32 number is finite. -/
theorem isFinite_of_isNumber (c : F32) (hc : c.isNumber = true) : c.isFinite = true := by
  obtain ⟨q, rfl, -⟩ := (isNumber_iff c).mp hc
  rfl

/-- A finite value minus itself is zero. -/
theorem sub_self_fin (q : ℚ) : F32.sub (F32.fin q) (F32.fin q) = F32.fin 0 := by
  simp [F32.sub, F32.neg, F32.add, round32_zero]

/-- One minus zero is one. -/
theorem one_sub_zero : F32.sub (F32.ofInt 1) (F32.fin 0) = F32.fin 1 := by
  simp [ofInt_one, F32.sub, F32.neg, F32.add, round32_one]

/-- The weights `s = 0`, `t = 0` give the first corner, for corner colours that
are binary32 numbers. -/
theorem blend_one_zero (c d : Vector3f) (hc : c.isNumber = true) (hd : d.isNumber = true) :
    Vector3f.add (Vector3f.scale (F32.fin 1) c) (Vector3f.scale (F32.fin 0) d) = c := by
  simp only [Vector3f.isNumber, Bool.and_eq_true] at hc hd
  obtain ⟨⟨hcx, hcy⟩, hcz⟩ := hc
  obtain ⟨⟨hdx, hdy⟩, hdz⟩ := hd
  ext <;>
  simp [Vector3f.add, Vector3f.scale, one_mul_number, zero_mul_finite, add_zero_number,
    isFinite_of_isNumber, *]

/-- The sum of two finite values is the rounded exact sum. -/
theorem add_fin (a b : ℚ) : F32.add (F32.fin a) (F32.fin b) = round32 (a + b) := by
  simp only [F32.add]

/-- The difference of two finite values is the rounded exact difference. -/
theorem sub_fin (a b : ℚ) : F32.sub (F32.fin a) (F32.fin b) = round32 (a - b) := by
  simp only [F32.sub, F32.neg, F32.add, sub_eq_add_neg]

/-- The product of two finite values is the rounded exact product. -/
theorem mul_fin (a b : ℚ) : F32.mul (F32.fin a) (F32.fin b) = round32 (a * b) := by
  simp only [F32.mul]

/-- The quotient of two finite values with a non-zero divisor is the rounded
exact quotient. -/
theorem div_fin (a b : ℚ) (hb : b ≠ 0) : F32.div (F32.fin a) (F32.fin b) = round32 (a / b) := by
  simp only [F32.div]
  rw [if_neg hb]

/-- The negation of a finite value. -/
theorem neg_fin (a : ℚ) : F32.neg (F32.fin a) = F32.fin (-a) := by
  simp only [F32.neg]

/-- The comparison `<=` of two finite values. -/
theorem le_fin (a b : ℚ) : F32.le (F32.fin a) (F32.fin b) = decide (a ≤ b) := by
  simp only [F32.le]

/-- The comparison `<` of two finite values. -/
theorem lt_fin (a b : ℚ) : F32.lt (F32.fin a) (F32.fin b) = decide (a < b) := by
  simp only [F32.lt]


/-! ## Roundings of particular numbers -/

/-- Two is a binary32 number. -/
theorem round32_two : round32 (2) = F32.fin (2) :=
  round32_pos _ _ (1) (by norm_num) (by norm_num) (by norm_num) (by norm_num [roundHalfEven])
    (by norm_num)

/-- One half is a binary32 number. -/
theorem round32_half : round32 (1 / 2) = F32.fin (1 / 2) :=
  round32_pos _ _ (-1) (by norm_num) (by norm_num) (by norm_num) (by norm_num [roundHalfEven])
    (by norm_num)

/-- The number 255 is a binary32 number. -/
theorem round32_255 : round32 (255) = F32.fin (255) :=
  round32_pos _ _ (7) (by norm_num) (by norm_num) (by norm_num) (by norm_num [roundHalfEven])
    (by norm_num)

/-- The number `2^24` is a binary32 number. -/
theorem round32_2p24 : round32 (16777216) = F32.fin (16777216) :=
  round32_pos _ _ (24) (by norm_num) (by norm_num) (by norm_num) (by norm_num [roundHalfEven])
    (by norm_num)

/-- The integer `2^24 + 1` is a tie and rounds to the even neighbour `2^24`. -/
theorem round32_2p24_add_1 : round32 (16777217) = F32.fin (16777216) :=
  round32_pos _ _ (24) (by norm_num) (by norm_num) (by norm_num) (by norm_num [roundHalfEven])
    (by norm_num)

/-- The number `2^31` is a binary32 number. -/
theorem round32_2p31 : round32 (2147483648) = F32.fin (2147483648) :=
  round32_pos _ _ (31) (by norm_num) (by norm_num) (by norm_num) (by norm_num [roundHalfEven])
    (by norm_num)

/-- The number `2^32` is a binary32 number. -/
theorem round32_2p32 : round32 (4294967296) = F32.fin (4294967296) :=
  round32_pos _ _ (32) (by norm_num) (by norm_num) (by norm_num) (by norm_num [roundHalfEven])
    (by norm_num)

/-- The number `-2^31` is a binary32 number. -/
theorem round32_neg_2p31 : round32 (-2147483648) = F32.fin (-2147483648) := by
  have h := round32_negative (-2147483648) (2147483648) (31)
    (by norm_num) (by norm_num) (by norm_num)
    (by norm_num [roundHalfEven]) (by norm_num)
  simpa using h

/-- The difference `1 - 2^32` rounds to `-2^32`. -/
theorem round32_1_sub_2p32 : round32 (-4294967295) = F32.fin (-4294967296) := by
  have h := round32_negative (-4294967295) (4294967296) (31)
    (by norm_num) (by norm_num) (by norm_num)
    (by norm_num [roundHalfEven]) (by norm_num)
  simpa using h

/-- The number `255 * 2^32` is a binary32 number. -/
theorem round32_255_2p32 : round32 (1095216660480) = F32.fin (1095216660480) :=
  round32_pos _ _ (39) (by norm_num) (by norm_num) (by norm_num) (by norm_num [roundHalfEven])
    (by norm_num)

/-- The number `-255 * 2^32` is a binary32 number. -/
theorem round32_neg_255_2p32 : round32 (-1095216660480) = F32.fin (-1095216660480) := by
  have h := round32_negative (-1095216660480) (1095216660480) (39)
    (by norm_num) (by norm_num) (by norm_num)
    (by norm_num [roundHalfEven]) (by norm_num)
  simpa using h


/-- The float `0.1f`, that is `13421773 / 2^27`, is a binary32 number. -/
theorem round32_tenth : round32 (13421773 / 134217728) = F32.fin (13421773 / 134217728) :=
  round32_pos _ _ (-4) (by norm_num) (by norm_num) (by norm_num) (by norm_num [roundHalfEven])
    (by norm_num)

/-- In binary32, `1 - 0.1f` is `15099494 / 2^24`. -/
theorem round32_1_sub_tenth : round32 (120795955 / 134217728) = F32.fin (7549747 / 8388608) :=
  round32_pos _ _ (-1) (by norm_num) (by norm_num) (by norm_num) (by norm_num [roundHalfEven])
    (by norm_num)

/-- In binary32, `1 - (1 - 0.1f)` is `1677722 / 2^24`, which is not `0.1f`. -/
theorem round32_1_sub_1_sub_tenth : round32 (838861 / 8388608) = F32.fin (838861 / 8388608) :=
  round32_pos _ _ (-4) (by norm_num) (by norm_num) (by norm_num) (by norm_num [roundHalfEven])
    (by norm_num)

/-- In binary32, `0.1f * 255` is `25.5`. -/
theorem round32_tenth_mul_255 : round32 (3422552115 / 134217728) = F32.fin (51 / 2) :=
  round32_pos _ _ (4) (by norm_num) (by norm_num) (by norm_num) (by norm_num [roundHalfEven])
    (by norm_num)

/-- In binary32, `(1 - (1 - 0.1f)) * 255` is `13369347 / 2^19`, about `25.500006`. -/
theorem round32_mirror_mul_255 : round32 (213909555 / 8388608) = F32.fin (13369347 / 524288) :=
  round32_pos _ _ (4) (by norm_num) (by norm_num) (by norm_num) (by norm_num [roundHalfEven])
    (by norm_num)

/-- The number `25.5` is a binary32 number. -/
theorem round32_51_2 : round32 (51 / 2) = F32.fin (51 / 2) :=
  round32_pos _ _ (4) (by norm_num) (by norm_num) (by norm_num) (by norm_num [roundHalfEven])
    (by norm_num)

/-- The number `13369347 / 2^19` is a binary32 number. -/
theorem round32_mirror : round32 (13369347 / 524288) = F32.fin (13369347 / 524288) :=
  round32_pos _ _ (4) (by norm_num) (by norm_num) (by norm_num) (by norm_num [roundHalfEven])
    (by norm_num)

/-- The number `3/4` is a binary32 number. -/
theorem round32_3_4 : round32 (3 / 4) = F32.fin (3 / 4) :=
  round32_pos _ _ (-1) (by norm_num) (by norm_num) (by norm_num) (by norm_num [roundHalfEven])
    (by norm_num)

/-- The number `3/2` is a binary32 number. -/
theorem round32_3_2 : round32 (3 / 2) = F32.fin (3 / 2) :=
  round32_pos _ _ (0) (by norm_num) (by norm_num) (by norm_num) (by norm_num [roundHalfEven])
    (by norm_num)

/-- The number `127.5` is a binary32 number. -/
theorem round32_255_2 : round32 (255 / 2) = F32.fin (255 / 2) :=
  round32_pos _ _ (6) (by norm_num) (by norm_num) (by norm_num) (by norm_num [roundHalfEven])
    (by norm_num)


/-! ## Roundings met by the light sampler -/

/-- Five is a binary32 number. -/
theorem round32_five : round32 (5) = F32.fin (5) :=
  round32_pos _ _ (2) (by norm_num) (by norm_num) (by norm_num) (by norm_num [roundHalfEven])
    (by norm_num)

/-- The number 5/2 is a binary32 number. -/
theorem round32_5_2 : round32 (5 / 2) = F32.fin (5 / 2) :=
  round32_pos _ _ (1) (by norm_num) (by norm_num) (by norm_num) (by norm_num [roundHalfEven])
    (by norm_num)

/-- The integer `2^24 + 3` lies between the binary32 neighbours `2^24 + 2` and
`2^24 + 4` and rounds to `2^24 + 4`. -/
theorem round32_2p24_add_3 : round32 (16777219) = F32.fin (16777220) :=
  round32_pos _ _ (24) (by norm_num) (by norm_num) (by norm_num) (by norm_num [roundHalfEven])
    (by norm_num)

/-- The sum `16777220 + 100` is a binary32 number. -/
theorem round32_16777320 : round32 (16777320) = F32.fin (16777320) :=
  round32_pos _ _ (24) (by norm_num) (by norm_num) (by norm_num) (by norm_num [roundHalfEven])
    (by norm_num)

/-- The product of the draw `1 - 100 * 2^-24` and the total `16777320` rounds to `16777220`. -/
theorem round32_draw_mul_16777320 : round32 (8796095119035 / 524288) = F32.fin (16777220) :=
  round32_pos _ _ (24) (by norm_num) (by norm_num) (by norm_num) (by norm_num [roundHalfEven])
    (by norm_num)

/-- The integer `2^24 - 1` is a binary32 number. -/
theorem round32_2p24_sub_1 : round32 (16777215) = F32.fin (16777215) :=
  round32_pos _ _ (23) (by norm_num) (by norm_num) (by norm_num) (by norm_num [roundHalfEven])
    (by norm_num)

/-- The number -1 is a binary32 number. -/
theorem round32_neg_one : round32 (-1) = F32.fin (-1) := by
  have h := round32_negative (-1) (1) (0) (by norm_num) (by norm_num) (by norm_num)
    (by norm_num [roundHalfEven]) (by norm_num)
  simpa using h

/-- The number -1/2 is a binary32 number. -/
theorem round32_neg_half : round32 (-1 / 2) = F32.fin (-1 / 2) := by
  have h := round32_negative (-1 / 2) (1 / 2) (-1) (by norm_num) (by norm_num) (by norm_num)
    (by norm_num [roundHalfEven]) (by norm_num)
  rw [h]
  norm_num


/-! ## Roundings met by the direct term -/

/-- Eight is a binary32 number. -/
theorem round32_eight : round32 (8) = F32.fin (8) :=
  round32_pos _ _ (3) (by norm_num) (by norm_num) (by norm_num) (by norm_num [roundHalfEven])
    (by norm_num)

/-- Sixteen is a binary32 number. -/
theorem round32_sixteen : round32 (16) = F32.fin (16) :=
  round32_pos _ _ (4) (by norm_num) (by norm_num) (by norm_num) (by norm_num [roundHalfEven])
    (by norm_num)

/-- The decimal 0.0002 is not a binary32 number: it rounds to `13743895 * 2^-36`. -/
theorem round32_1_5000 : round32 (1 / 5000) = F32.fin (13743895 / 68719476736) :=
  round32_pos _ _ (-13) (by norm_num) (by norm_num) (by norm_num) (by norm_num [roundHalfEven])
    (by norm_num)

/-- The number `13743895 * 2^-36` is a binary32 number. -/
theorem round32_eps : round32 (13743895 / 68719476736) = F32.fin (13743895 / 68719476736) :=
  round32_pos _ _ (-13) (by norm_num) (by norm_num) (by norm_num) (by norm_num [roundHalfEven])
    (by norm_num)

/-- The number `-13743895 * 2^-36` is a binary32 number. -/
theorem round32_neg_eps : round32 (-13743895 / 68719476736)
    = F32.fin (-13743895 / 68719476736) := by
  have h := round32_negative (-13743895 / 68719476736) (13743895 / 68719476736) (-13)
    (by norm_num) (by norm_num) (by norm_num)
    (by norm_num [roundHalfEven]) (by norm_num)
  rw [h]
  norm_num

/-- The square of `13743895 * 2^-36`, rounded. -/
theorem round32_eps_sq : round32 (188894649771025 / 4722366482869645213696)
    = F32.fin (5629499 / 140737488355328) :=
  round32_pos _ _ (-25) (by norm_num) (by norm_num) (by norm_num) (by norm_num [roundHalfEven])
    (by norm_num)

/-- The rounded square of `13743895 * 2^-36` is a binary32 number. -/
theorem round32_eps_sq_idem : round32 (5629499 / 140737488355328)
    = F32.fin (5629499 / 140737488355328) :=
  round32_pos _ _ (-25) (by norm_num) (by norm_num) (by norm_num) (by norm_num [roundHalfEven])
    (by norm_num)

/-- The quotient of 8 and the rounded square of `13743895 * 2^-36`, rounded. -/
theorem round32_8_div_eps_sq : round32 (1125899906842624 / 5629499) = F32.fin (200000016) :=
  round32_pos _ _ (27) (by norm_num) (by norm_num) (by norm_num) (by norm_num [roundHalfEven])
    (by norm_num)

/-- Twice the previous quotient is a binary32 number. -/
theorem round32_8_div_eps_sq_twice : round32 (400000032) = F32.fin (400000032) :=
  round32_pos _ _ (28) (by norm_num) (by norm_num) (by norm_num) (by norm_num [roundHalfEven])
    (by norm_num)


/-! ## The texture sampler in binary32 -/

/-- Binary32 addition is commutative. -/
theorem f32_add_comm (a b : F32) : F32.add a b = F32.add b a := by
  cases a <;> cases b <;> simp [F32.add, add_comm]

/-- Component-wise addition of colours is commutative. -/
theorem vec_add_comm (a b : Vector3f) : Vector3f.add a b = Vector3f.add b a := by
  ext <;> simp [Vector3f.add, f32_add_comm]

/-- The `(int)floor` of an integer within the `int` range. -/
theorem floorInt_intCast (x : ℤ) (hx : -2 ^ 31 ≤ x ∧ x < 2 ^ 31) :
    F32.floorInt (F32.fin x) = x := by
  simp only [F32.floorInt, Int.floor_intCast]
  rw [if_pos hx]

/-- The `(int)ceil` of an integer within the `int` range. -/
theorem ceilInt_intCast (x : ℤ) (hx : -2 ^ 31 ≤ x ∧ x < 2 ^ 31) :
    F32.ceilInt (F32.fin x) = x := by
  simp only [F32.ceilInt, Int.ceil_intCast]
  rw [if_pos hx]

/-- With both weights zero the blend of four equal binary32 colours is that
colour. -/
theorem bilinearBlend_zero_zero_same (c : Vector3f) (hc : c.isNumber = true) :
    bilinearBlend (F32.fin 0) (F32.fin 0) c c c c = c := by
  unfold bilinearBlend
  simp only [one_sub_zero, blend_one_zero c c hc hc]

/-- When the binary32 products `u * width` and `(1 - v) * height` are integers
`x`, `y` within the range of `int` and the pixel `(x, y)` is a colour of
binary32 numbers, `getColorBilinear` returns that pixel. -/
theorem getColorBilinear_of_integer_products (tex : Texture) (u v : F32) (x y : ℤ)
    (hx : F32.mul u (F32.ofInt tex.width) = F32.fin x)
    (hy : F32.mul (F32.sub (F32.ofInt 1) v) (F32.ofInt tex.height) = F32.fin y)
    (hxr : -2 ^ 31 ≤ x ∧ x < 2 ^ 31) (hyr : -2 ^ 31 ≤ y ∧ y < 2 ^ 31)
    (hc : (tex.getColor x y).isNumber = true) :
    tex.getColorBilinear u v = tex.getColor x y := by
  have hxf : F32.ofInt x = F32.fin x := mul_eq_fin _ _ _ hx
  have hyf : F32.ofInt y = F32.fin y := mul_eq_fin _ _ _ hy
  simp only [Texture.getColorBilinear, hx, hy, floorInt_intCast x hxr,
    floorInt_intCast y hyr, ceilInt_intCast x hxr, ceilInt_intCast y hyr, hxf, hyf,
    sub_self_fin]
  exact bilinearBlend_zero_zero_same _ hc

/-- C1, as the code behaves: when the binary32 products `u * width` and
`(1 - v) * height` are integers `x`, `y` within the range of `int`, and the
pixel `getColor(x, y)` is a colour of binary32 numbers, `getColorBilinear`
returns exactly `getColor(x, y)`; both weights `s`, `t` are zero and the
result is the same on every texture of the same size with the same pixel at
`(x, y)`. -/
theorem C1_getColorBilinear_on_grid (tex : Texture) (u v : F32) (x y : ℤ)
    (hx : F32.mul u (F32.ofInt tex.width) = F32.fin x)
    (hy : F32.mul (F32.sub (F32.ofInt 1) v) (F32.ofInt tex.height) = F32.fin y)
    (hxr : -2 ^ 31 ≤ x ∧ x < 2 ^ 31) (hyr : -2 ^ 31 ≤ y ∧ y < 2 ^ 31)
    (hc : (tex.getColor x y).isNumber = true) :
    tex.getColorBilinear u v = tex.getColor x y ∧
    F32.sub (F32.mul u (F32.ofInt tex.width))
      (F32.ofInt (F32.floorInt (F32.mul u (F32.ofInt tex.width)))) = F32.fin 0 ∧
    F32.sub (F32.mul (F32.sub (F32.ofInt 1) v) (F32.ofInt tex.height))
      (F32.ofInt (F32.floorInt (F32.mul (F32.sub (F32.ofInt 1) v) (F32.ofInt tex.height))))
      = F32.fin 0 ∧
    ∀ other : Texture, other.width = tex.width → other.height = tex.height →
      other.getColor x y = tex.getColor x y →
      other.getColorBilinear u v = tex.getColorBilinear u v := by
  have hxf : F32.ofInt x = F32.fin x := mul_eq_fin _ _ _ hx
  have hyf : F32.ofInt y = F32.fin y := mul_eq_fin _ _ _ hy
  refine ⟨getColorBilinear_of_integer_products tex u v x y hx hy hxr hyr hc, ?_, ?_, ?_⟩
  · rw [hx, floorInt_intCast x hxr, hxf, sub_self_fin]
  · rw [hy, floorInt_intCast y hyr, hyf, sub_self_fin]
  · intro other hw hh hcol
    rw [getColorBilinear_of_integer_products other u v x y (by rw [hw]; exact hx)
        (by rw [hh]; exact hy) hxr hyr (by rw [hcol]; exact hc),
      getColorBilinear_of_integer_products tex u v x y hx hy hxr hyr hc, hcol]

/-- The colour white consists of binary32 numbers. -/
theorem white_isNumber : white.isNumber = true := by
  simp [white, Vector3f.isNumber, F32.isNumber, round32_255]

/-- The colour black consists of binary32 numbers. -/
theorem zero_isNumber : Vector3f.zero.isNumber = true := by
  simp [Vector3f.zero, Vector3f.isNumber, F32.isNumber, round32_zero]

/-- The conversion of the `int` 2. -/
theorem ofInt_two : F32.ofInt 2 = F32.fin 2 := by
  simp [F32.ofInt, round32_two]

/-- In binary32, `1 - 1/2 = 1/2`. -/
theorem one_sub_half : F32.sub (F32.ofInt 1) (F32.fin (1 / 2)) = F32.fin (1 / 2) := by
  rw [ofInt_one]
  simp only [F32.sub, F32.neg, F32.add]
  rw [show (1 : ℚ) + -(1 / 2) = 1 / 2 by norm_num, round32_half]

/-- In binary32, `1/2 * 2 = 1`. -/
theorem half_mul_two : F32.mul (F32.fin (1 / 2)) (F32.ofInt 2) = F32.fin ((1 : ℤ) : ℚ) := by
  rw [ofInt_two]
  simp only [F32.mul]
  rw [show (1 / 2 : ℚ) * 2 = 1 by norm_num, round32_one]
  norm_num

/-- C1 evaluated at the centre of the white 2 x 2 fixture: `u = v = 1/2` gives
the products `1` and `1`. -/
theorem C1_getColorBilinear_on_grid_witness :
    whiteTexture.getColorBilinear (F32.fin (1 / 2)) (F32.fin (1 / 2)) = white :=
  (C1_getColorBilinear_on_grid whiteTexture (F32.fin (1 / 2)) (F32.fin (1 / 2)) 1 1
    half_mul_two (by rw [one_sub_half]; exact half_mul_two) (by norm_num) (by norm_num)
    white_isNumber).1

/-- The stripe fixture at `u = 1`: the width `2^24 + 1` converts to the float
`2^24`, the product is `2^24`, and the pixel fetched is the black pixel of
column `2^24`. -/
theorem stripeTexture_at_one :
    stripeTexture.getColorBilinear (F32.fin 1) (F32.fin (1 / 2)) = Vector3f.zero := by
  have hx : F32.mul (F32.fin 1) (F32.ofInt stripeTexture.width)
      = F32.fin ((16777216 : ℤ) : ℚ) := by
    simp only [stripeTexture, F32.ofInt]
    rw [show ((16777217 : ℤ) : ℚ) = 16777217 by norm_num, round32_2p24_add_1]
    simp only [F32.mul]
    rw [show (1 : ℚ) * 16777216 = 16777216 by norm_num, round32_2p24]
    norm_num
  have h := getColorBilinear_of_integer_products stripeTexture (F32.fin 1) (F32.fin (1 / 2))
    16777216 1 hx (by rw [one_sub_half]; exact half_mul_two) (by norm_num) (by norm_num)
    (by norm_num [stripeTexture, zero_isNumber])
  rw [h]
  norm_num [stripeTexture]

/-- The white fixture at `u = 2^30`: the product `2^31` is outside the range of
`int`, both conversions give `INT_MIN`, the weight `s` is `2^32`, and the two
terms `(1 - s) * c` and `s * c` cancel: the result is black. -/
theorem whiteTexture_at_2p30 :
    whiteTexture.getColorBilinear (F32.fin (2 ^ 30)) (F32.fin (1 / 2)) = Vector3f.zero := by
  have hu : F32.mul (F32.fin (2 ^ 30)) (F32.ofInt 2) = F32.fin (2 ^ 31) := by
    simp only [ofInt_two, F32.mul]
    rw [show (2 : ℚ) ^ 30 * 2 = 2147483648 by norm_num, round32_2p31]
    norm_num
  have hv : F32.mul (F32.sub (F32.ofInt 1) (F32.fin (1 / 2))) (F32.ofInt 2)
      = F32.fin ((1 : ℤ) : ℚ) := by
    rw [one_sub_half]
    exact half_mul_two
  have hfl : F32.floorInt (F32.fin (2 ^ 31)) = -2 ^ 31 := by
    simp only [F32.floorInt]
    rw [show (2 : ℚ) ^ 31 = ((2 ^ 31 : ℤ) : ℚ) by norm_num, Int.floor_intCast]
    norm_num
  have hmin : F32.ofInt (-2 ^ 31) = F32.fin (-2147483648) := by
    simp only [F32.ofInt]
    rw [show (((-2 ^ 31 : ℤ)) : ℚ) = -2147483648 by norm_num, round32_neg_2p31]
  have hs : F32.sub (F32.fin (2 ^ 31)) (F32.fin (-2147483648)) = F32.fin 4294967296 := by
    simp only [F32.sub, F32.neg, F32.add]
    rw [show (2 : ℚ) ^ 31 + - -2147483648 = 4294967296 by norm_num, round32_2p32]
  have h1s : F32.sub (F32.ofInt 1) (F32.fin 4294967296) = F32.fin (-4294967296) := by
    rw [ofInt_one]
    simp only [F32.sub, F32.neg, F32.add]
    rw [show (1 : ℚ) + -4294967296 = -4294967295 by norm_num, round32_1_sub_2p32]
  have hm1 : F32.mul (F32.fin (-4294967296)) (F32.fin 255) = F32.fin (-1095216660480) := by
    simp only [F32.mul]
    rw [show (-4294967296 : ℚ) * 255 = -1095216660480 by norm_num, round32_neg_255_2p32]
  have hm2 : F32.mul (F32.fin 4294967296) (F32.fin 255) = F32.fin 1095216660480 := by
    simp only [F32.mul]
    rw [show (4294967296 : ℚ) * 255 = 1095216660480 by norm_num, round32_255_2p32]
  have hadd : F32.add (F32.fin (-1095216660480)) (F32.fin 1095216660480) = F32.fin 0 := by
    simp only [F32.add]
    rw [show (-1095216660480 : ℚ) + 1095216660480 = 0 by norm_num, round32_zero]
  have hrow : Vector3f.add (Vector3f.scale (F32.fin (-4294967296)) white)
      (Vector3f.scale (F32.fin 4294967296) white) = Vector3f.zero := by
    ext <;> simp only [Vector3f.add, Vector3f.scale, white, hm1, hm2, hadd, Vector3f.zero]
  have ht : F32.sub (F32.fin ((1 : ℤ) : ℚ)) (F32.ofInt 1) = F32.fin 0 := by
    rw [ofInt_one]
    norm_num [sub_self_fin]
  simp only [Texture.getColorBilinear, whiteTexture, bilinearBlend]
  rw [hu, hv, hfl, floorInt_intCast 1 (by norm_num), hmin, hs, ht, h1s, hrow, one_sub_zero]
  exact blend_one_zero _ _ zero_isNumber zero_isNumber

/-- C1 fails as stated.  On the stripe fixture of width `2^24 + 1` at `u = 1`,
`v = 1/2`, the exact products `u * width = 2^24 + 1` and `(1 - v) * height = 1`
are integers, yet the code returns the black pixel of column `2^24`, not the
white pixel `getColor(2^24 + 1, 1)`.  On the white fixture at `u = 2^30` the
exact products `2^31` and `1` are integers, yet the code returns black. -/
theorem C1_exact_products_do_not_decide :
    ((1 : ℚ) * stripeTexture.width = ((16777217 : ℤ) : ℚ) ∧
      (1 - 1 / 2 : ℚ) * stripeTexture.height = ((1 : ℤ) : ℚ) ∧
      stripeTexture.getColorBilinear (F32.fin 1) (F32.fin (1 / 2)) = Vector3f.zero ∧
      stripeTexture.getColor 16777217 1 = white ∧
      stripeTexture.getColorBilinear (F32.fin 1) (F32.fin (1 / 2))
        ≠ stripeTexture.getColor 16777217 1) ∧
    ((2 ^ 30 : ℚ) * whiteTexture.width = ((2 ^ 31 : ℤ) : ℚ) ∧
      (1 - 1 / 2 : ℚ) * whiteTexture.height = ((1 : ℤ) : ℚ) ∧
      whiteTexture.getColorBilinear (F32.fin (2 ^ 30)) (F32.fin (1 / 2)) = Vector3f.zero ∧
      whiteTexture.getColor (2 ^ 31) 1 = white ∧
      whiteTexture.getColorBilinear (F32.fin (2 ^ 30)) (F32.fin (1 / 2))
        ≠ whiteTexture.getColor (2 ^ 31) 1) := by
  have hne : Vector3f.zero ≠ white := by
    intro h
    have hx := congrArg Vector3f.x h
    simp [Vector3f.zero, white] at hx
  refine ⟨⟨by norm_num [stripeTexture], by norm_num [stripeTexture], stripeTexture_at_one,
    by simp [stripeTexture], ?_⟩, ⟨by norm_num [whiteTexture], by norm_num [whiteTexture],
    whiteTexture_at_2p30, rfl, ?_⟩⟩
  · rw [stripeTexture_at_one]
    simpa [stripeTexture] using hne
  · rw [whiteTexture_at_2p30]
    exact hne


/-- A finite sum is a binary32 number. -/
theorem add_isNumber (a b : F32) (h : (F32.add a b).isFinite = true) :
    (F32.add a b).isNumber = true := by
  cases hab : F32.add a b with
  | fin r =>
    have hr : round32 r = F32.fin r := by
      cases a <;> cases b <;> simp only [F32.add] at hab <;>
        first | exact round32_idem _ _ hab | exact absurd hab (by simp)
    simp [F32.isNumber, hr]
  | pinf => rw [hab] at h; simp [F32.isFinite] at h
  | ninf => rw [hab] at h; simp [F32.isFinite] at h
  | nan => rw [hab] at h; simp [F32.isFinite] at h

/-- A finite sum of two colours is a colour of binary32 numbers. -/
theorem vec_add_isNumber (a b : Vector3f) (h : (Vector3f.add a b).isFinite = true) :
    (Vector3f.add a b).isNumber = true := by
  simp only [Vector3f.isFinite, Vector3f.add, Bool.and_eq_true] at h
  simp only [Vector3f.isNumber, Vector3f.add, Bool.and_eq_true]
  exact ⟨⟨add_isNumber _ _ h.1.1, add_isNumber _ _ h.1.2⟩, add_isNumber _ _ h.2⟩

/-- C16, as the code behaves.  When the binary32 product `u * width` is an
integer `x` within the range of `int`, floor and ceil of `u_img` are both `x`
and, the two pixels of column `x` being colours of binary32 numbers,
`getColorBilinear` is the vertical blend
`(1-t)*getColor(x, floor v_img) + t*getColor(x, ceil v_img)` evaluated in
binary32.  When the binary32 product `(1 - v) * height` is an integer `y`
within the range of `int`, floor and ceil of `v_img` are both `y` and, the
horizontal blend `(1-s)*getColor(floor u_img, y) + s*getColor(ceil u_img, y)`
being finite, `getColorBilinear` is that blend. -/
theorem C16_getColorBilinear_degenerate (tex : Texture) (u v : F32) :
    (∀ x : ℤ, F32.mul u (F32.ofInt tex.width) = F32.fin x → (-2 ^ 31 ≤ x ∧ x < 2 ^ 31) →
      (tex.getColor x
        (F32.floorInt (F32.mul (F32.sub (F32.ofInt 1) v) (F32.ofInt tex.height)))).isNumber
        = true →
      (tex.getColor x
        (F32.ceilInt (F32.mul (F32.sub (F32.ofInt 1) v) (F32.ofInt tex.height)))).isNumber
        = true →
      F32.floorInt (F32.mul u (F32.ofInt tex.width)) = x ∧
      F32.ceilInt (F32.mul u (F32.ofInt tex.width)) = x ∧
      tex.getColorBilinear u v =
        Vector3f.add
          (Vector3f.scale
            (F32.sub (F32.ofInt 1)
              (F32.sub (F32.mul (F32.sub (F32.ofInt 1) v) (F32.ofInt tex.height))
                (F32.ofInt
                  (F32.floorInt (F32.mul (F32.sub (F32.ofInt 1) v) (F32.ofInt tex.height))))))
            (tex.getColor x
              (F32.floorInt (F32.mul (F32.sub (F32.ofInt 1) v) (F32.ofInt tex.height)))))
          (Vector3f.scale
            (F32.sub (F32.mul (F32.sub (F32.ofInt 1) v) (F32.ofInt tex.height))
              (F32.ofInt
                (F32.floorInt (F32.mul (F32.sub (F32.ofInt 1) v) (F32.ofInt tex.height)))))
            (tex.getColor x
              (F32.ceilInt (F32.mul (F32.sub (F32.ofInt 1) v) (F32.ofInt tex.height)))))) ∧
    (∀ y : ℤ, F32.mul (F32.sub (F32.ofInt 1) v) (F32.ofInt tex.height) = F32.fin y →
      (-2 ^ 31 ≤ y ∧ y < 2 ^ 31) →
      (Vector3f.add
        (Vector3f.scale
          (F32.sub (F32.ofInt 1)
            (F32.sub (F32.mul u (F32.ofInt tex.width))
              (F32.ofInt (F32.floorInt (F32.mul u (F32.ofInt tex.width))))))
          (tex.getColor (F32.floorInt (F32.mul u (F32.ofInt tex.width))) y))
        (Vector3f.scale
          (F32.sub (F32.mul u (F32.ofInt tex.width))
            (F32.ofInt (F32.floorInt (F32.mul u (F32.ofInt tex.width)))))
          (tex.getColor (F32.ceilInt (F32.mul u (F32.ofInt tex.width))) y))).isFinite = true →
      F32.floorInt (F32.mul (F32.sub (F32.ofInt 1) v) (F32.ofInt tex.height)) = y ∧
      F32.ceilInt (F32.mul (F32.sub (F32.ofInt 1) v) (F32.ofInt tex.height)) = y ∧
      tex.getColorBilinear u v =
        Vector3f.add
          (Vector3f.scale
            (F32.sub (F32.ofInt 1)
              (F32.sub (F32.mul u (F32.ofInt tex.width))
                (F32.ofInt (F32.floorInt (F32.mul u (F32.ofInt tex.width))))))
            (tex.getColor (F32.floorInt (F32.mul u (F32.ofInt tex.width))) y))
          (Vector3f.scale
            (F32.sub (F32.mul u (F32.ofInt tex.width))
              (F32.ofInt (F32.floorInt (F32.mul u (F32.ofInt tex.width)))))
            (tex.getColor (F32.ceilInt (F32.mul u (F32.ofInt tex.width))) y))) := by
  constructor
  · intro x hx hxr hc1 hc3
    have hxf : F32.ofInt x = F32.fin x := mul_eq_fin _ _ _ hx
    refine ⟨by rw [hx, floorInt_intCast x hxr], by rw [hx, ceilInt_intCast x hxr], ?_⟩
    simp only [Texture.getColorBilinear, bilinearBlend, hx, floorInt_intCast x hxr,
      ceilInt_intCast x hxr, hxf, sub_self_fin, one_sub_zero]
    rw [blend_one_zero _ _ hc1 hc1, blend_one_zero _ _ hc3 hc3]
  · intro y hy hyr hfin
    have hyf : F32.ofInt y = F32.fin y := mul_eq_fin _ _ _ hy
    refine ⟨by rw [hy, floorInt_intCast y hyr], by rw [hy, ceilInt_intCast y hyr], ?_⟩
    have hnum := vec_add_isNumber _ _ hfin
    simp only [Texture.getColorBilinear, bilinearBlend, hy, floorInt_intCast y hyr,
      ceilInt_intCast y hyr, hyf, sub_self_fin, one_sub_zero]
    exact blend_one_zero _ _ hnum hnum

/-- C16 evaluated on the white 2 x 2 fixture at `u = 1/2`, `v = 1/4`: `u_img = 1`
is an integer, `v_img = 3/2`, `t = 1/2`, and the vertical blend is
`1/2 * 255 + 1/2 * 255 = 255` per channel. -/
theorem C16_getColorBilinear_degenerate_witness :
    whiteTexture.getColorBilinear (F32.fin (1 / 2)) (F32.fin (1 / 4)) = white := by
  have h := ((C16_getColorBilinear_degenerate whiteTexture (F32.fin (1 / 2))
    (F32.fin (1 / 4))).1 1 half_mul_two (by norm_num) white_isNumber white_isNumber).2.2
  rw [h]
  have h34 : F32.sub (F32.ofInt 1) (F32.fin (1 / 4)) = F32.fin (3 / 4) := by
    rw [ofInt_one]
    simp only [F32.sub, F32.neg, F32.add]
    rw [show (1 : ℚ) + -(1 / 4) = 3 / 4 by norm_num, round32_3_4]
  have hv : F32.mul (F32.fin (3 / 4)) (F32.ofInt 2) = F32.fin (3 / 2) := by
    rw [ofInt_two]
    simp only [F32.mul]
    rw [show (3 / 4 : ℚ) * 2 = 3 / 2 by norm_num, round32_3_2]
  have hfl : F32.floorInt (F32.fin (3 / 2)) = 1 := by
    norm_num [F32.floorInt]
  have ht : F32.sub (F32.fin (3 / 2)) (F32.ofInt 1) = F32.fin (1 / 2) := by
    rw [ofInt_one]
    simp only [F32.sub, F32.neg, F32.add]
    rw [show (3 / 2 : ℚ) + -1 = 1 / 2 by norm_num, round32_half]
  have hm : F32.mul (F32.fin (1 / 2)) (F32.fin 255) = F32.fin (255 / 2) := by
    simp only [F32.mul]
    rw [show (1 / 2 : ℚ) * 255 = 255 / 2 by norm_num, round32_255_2]
  have ha : F32.add (F32.fin (255 / 2)) (F32.fin (255 / 2)) = F32.fin 255 := by
    simp only [F32.add]
    rw [show (255 / 2 : ℚ) + 255 / 2 = 255 by norm_num, round32_255]
  simp only [whiteTexture]
  rw [h34, hv, hfl, ht, one_sub_half]
  ext <;> simp only [Vector3f.add, Vector3f.scale, white, hm, ha]

/-- C16 fails as stated.  On the stripe fixture of width `2^24 + 1` at `u = 1`,
`v = 1/2` the exact product `u * width = 2^24 + 1` is an integer and the
vertical blend of column `2^24 + 1` is white, yet the code returns the black
pixel of column `2^24`.  On the white fixture at `u = 2^30` the exact product
`2^31` is an integer and the vertical blend of any column is white, yet the
code returns black. -/
theorem C16_exact_integer_does_not_decide :
    ((1 : ℚ) * stripeTexture.width = ((16777217 : ℤ) : ℚ) ∧
      stripeTexture.getColorBilinear (F32.fin 1) (F32.fin (1 / 2)) = Vector3f.zero ∧
      Vector3f.add
        (Vector3f.scale (F32.sub (F32.ofInt 1) (F32.fin 0)) (stripeTexture.getColor 16777217 1))
        (Vector3f.scale (F32.fin 0) (stripeTexture.getColor 16777217 1)) = white ∧
      stripeTexture.getColorBilinear (F32.fin 1) (F32.fin (1 / 2)) ≠ white) ∧
    ((2 ^ 30 : ℚ) * whiteTexture.width = ((2 ^ 31 : ℤ) : ℚ) ∧
      whiteTexture.getColorBilinear (F32.fin (2 ^ 30)) (F32.fin (1 / 2)) = Vector3f.zero ∧
      Vector3f.add
        (Vector3f.scale (F32.sub (F32.ofInt 1) (F32.fin 0)) (whiteTexture.getColor (2 ^ 31) 1))
        (Vector3f.scale (F32.fin 0) (whiteTexture.getColor (2 ^ 31) 1)) = white ∧
      whiteTexture.getColorBilinear (F32.fin (2 ^ 30)) (F32.fin (1 / 2)) ≠ white) := by
  have hne : Vector3f.zero ≠ white := by
    intro h
    have hx := congrArg Vector3f.x h
    simp [Vector3f.zero, white] at hx
  have hblend : Vector3f.add (Vector3f.scale (F32.sub (F32.ofInt 1) (F32.fin 0)) white)
      (Vector3f.scale (F32.fin 0) white) = white := by
    rw [one_sub_zero]
    exact blend_one_zero _ _ white_isNumber white_isNumber
  refine ⟨⟨by norm_num [stripeTexture], stripeTexture_at_one, ?_, ?_⟩,
    ⟨by norm_num [whiteTexture], whiteTexture_at_2p30, hblend, ?_⟩⟩
  · have : stripeTexture.getColor 16777217 1 = white := by norm_num [stripeTexture]
    rw [this]
    exact hblend
  · rw [stripeTexture_at_one]
    exact hne
  · rw [whiteTexture_at_2p30]
    exact hne


/-! ## Symmetry of the blend -/

/-- In binary32 the mirrored horizontal blend is the original one whenever
`1 - (1 - s)` evaluates to `s`. -/
theorem blend_mirror_of_stable (s : F32) (a b : Vector3f)
    (hs : F32.sub (F32.ofInt 1) (F32.sub (F32.ofInt 1) s) = s) :
    Vector3f.add (Vector3f.scale (F32.sub (F32.ofInt 1) s) a) (Vector3f.scale s b) =
      Vector3f.add (Vector3f.scale (F32.sub (F32.ofInt 1) (F32.sub (F32.ofInt 1) s)) b)
        (Vector3f.scale (F32.sub (F32.ofInt 1) s) a) := by
  rw [hs]
  exact vec_add_comm _ _

/-- The float `0.1f`. -/
theorem tenth_weights :
    F32.sub (F32.ofInt 1) (F32.fin (13421773 / 134217728)) = F32.fin (7549747 / 8388608) ∧
    F32.sub (F32.ofInt 1) (F32.fin (7549747 / 8388608)) = F32.fin (838861 / 8388608) := by
  constructor
  · rw [ofInt_one]
    simp only [F32.sub, F32.neg, F32.add]
    rw [show (1 : ℚ) + -(13421773 / 134217728) = 120795955 / 134217728 by norm_num,
      round32_1_sub_tenth]
  · rw [ofInt_one]
    simp only [F32.sub, F32.neg, F32.add]
    rw [show (1 : ℚ) + -(7549747 / 8388608) = 838861 / 8388608 by norm_num,
      round32_1_sub_1_sub_tenth]

/-- The horizontal blend of black and white with weight `0.1f` is `25.5` per
channel. -/
theorem blend_tenth :
    Vector3f.add (Vector3f.scale (F32.fin (7549747 / 8388608)) Vector3f.zero)
      (Vector3f.scale (F32.fin (13421773 / 134217728)) white)
      = ⟨F32.fin (51 / 2), F32.fin (51 / 2), F32.fin (51 / 2)⟩ := by
  have h0 : F32.mul (F32.fin (7549747 / 8388608)) (F32.fin 0) = F32.fin 0 :=
    mul_zero_finite _ rfl
  have h1 : F32.mul (F32.fin (13421773 / 134217728)) (F32.fin 255) = F32.fin (51 / 2) := by
    simp only [F32.mul]
    rw [show (13421773 / 134217728 : ℚ) * 255 = 3422552115 / 134217728 by norm_num,
      round32_tenth_mul_255]
  have h2 : F32.add (F32.fin 0) (F32.fin (51 / 2)) = F32.fin (51 / 2) := by
    simp only [F32.add]
    rw [show (0 : ℚ) + 51 / 2 = 51 / 2 by norm_num, round32_51_2]
  ext <;> simp only [Vector3f.add, Vector3f.scale, Vector3f.zero, white, h0, h1, h2]

/-- The mirrored blend, white and black swapped and the weight `0.1f` replaced
by `1 - 0.1f`, is `13369347 / 2^19` per channel, about `25.500006`. -/
theorem blend_tenth_mirrored :
    Vector3f.add (Vector3f.scale (F32.fin (838861 / 8388608)) white)
      (Vector3f.scale (F32.fin (7549747 / 8388608)) Vector3f.zero)
      = ⟨F32.fin (13369347 / 524288), F32.fin (13369347 / 524288),
          F32.fin (13369347 / 524288)⟩ := by
  have h0 : F32.mul (F32.fin (7549747 / 8388608)) (F32.fin 0) = F32.fin 0 :=
    mul_zero_finite _ rfl
  have h1 : F32.mul (F32.fin (838861 / 8388608)) (F32.fin 255)
      = F32.fin (13369347 / 524288) := by
    simp only [F32.mul]
    rw [show (838861 / 8388608 : ℚ) * 255 = 213909555 / 8388608 by norm_num,
      round32_mirror_mul_255]
  have h2 : F32.add (F32.fin (13369347 / 524288)) (F32.fin 0)
      = F32.fin (13369347 / 524288) := by
    simp only [F32.add]
    rw [show (13369347 / 524288 : ℚ) + 0 = 13369347 / 524288 by norm_num, round32_mirror]
  ext <;> simp only [Vector3f.add, Vector3f.scale, Vector3f.zero, white, h0, h1, h2]

/-- C8 fails as stated in the code's binary32 arithmetic: for `s = 0.1f`,
`a` black and `b` white, `1 - (1 - s)` is `1677722 / 2^24`, not `s`, and the
horizontal blend `(1-s)*a + s*b` is `25.5` per channel while the blend of the
swapped pair with the mirrored weight, `(1-(1-s))*b + (1-s)*a`, is
`13369347 / 2^19`, about `25.500006`. -/
theorem C8_mirrored_blend_differs_in_binary32 :
    F32.sub (F32.ofInt 1) (F32.sub (F32.ofInt 1) (F32.fin (13421773 / 134217728)))
      ≠ F32.fin (13421773 / 134217728) ∧
    Vector3f.add
      (Vector3f.scale (F32.sub (F32.ofInt 1) (F32.fin (13421773 / 134217728))) Vector3f.zero)
      (Vector3f.scale (F32.fin (13421773 / 134217728)) white)
      = ⟨F32.fin (51 / 2), F32.fin (51 / 2), F32.fin (51 / 2)⟩ ∧
    Vector3f.add
      (Vector3f.scale
        (F32.sub (F32.ofInt 1) (F32.sub (F32.ofInt 1) (F32.fin (13421773 / 134217728)))) white)
      (Vector3f.scale (F32.sub (F32.ofInt 1) (F32.fin (13421773 / 134217728))) Vector3f.zero)
      = ⟨F32.fin (13369347 / 524288), F32.fin (13369347 / 524288),
          F32.fin (13369347 / 524288)⟩ ∧
    Vector3f.add
      (Vector3f.scale (F32.sub (F32.ofInt 1) (F32.fin (13421773 / 134217728))) Vector3f.zero)
      (Vector3f.scale (F32.fin (13421773 / 134217728)) white)
      ≠ Vector3f.add
        (Vector3f.scale
          (F32.sub (F32.ofInt 1) (F32.sub (F32.ofInt 1) (F32.fin (13421773 / 134217728))))
          white)
        (Vector3f.scale (F32.sub (F32.ofInt 1) (F32.fin (13421773 / 134217728)))
          Vector3f.zero) := by
  obtain ⟨h1, h2⟩ := tenth_weights
  refine ⟨?_, ?_, ?_, ?_⟩
  · rw [h1, h2]
    intro h
    have := F32.fin.inj h
    norm_num at this
  · rw [h1]
    exact blend_tenth
  · rw [h1, h2]
    exact blend_tenth_mirrored
  · rw [h1, h2, blend_tenth, blend_tenth_mirrored]
    intro h
    have hx := congrArg Vector3f.x h
    have := F32.fin.inj hx
    norm_num at this

/-- C8, as the code behaves.  Over exact arithmetic the horizontal blend
`(1-s)*a + s*b` equals the blend of the swapped pair with the mirrored weight,
and the bilinear blend is unchanged when the left and right corners are
swapped with `s` replaced by `1-s`, and when the two rows are swapped with `t`
replaced by `1-t`.  In the code's binary32 arithmetic the same equalities hold
exactly whenever `1 - (1 - s)` (respectively `1 - (1 - t)`) evaluates to `s`
(respectively `t`). -/
theorem C8_bilinear_blend_symmetric (s t : ℚ) (a b c1 c2 c3 c4 : Games101.Vector3f)
    (sf tf : F32) (af bf d1 d2 d3 d4 : Vector3f) :
    ((1 - s) * a + s * b = (1 - (1 - s)) * b + (1 - s) * a ∧
      Games101.bilinearBlend s t c1 c2 c3 c4 = Games101.bilinearBlend (1 - s) t c2 c1 c4 c3 ∧
      Games101.bilinearBlend s t c1 c2 c3 c4
        = Games101.bilinearBlend s (1 - t) c3 c4 c1 c2) ∧
    (F32.sub (F32.ofInt 1) (F32.sub (F32.ofInt 1) sf) = sf →
      Vector3f.add (Vector3f.scale (F32.sub (F32.ofInt 1) sf) af) (Vector3f.scale sf bf) =
        Vector3f.add (Vector3f.scale (F32.sub (F32.ofInt 1) (F32.sub (F32.ofInt 1) sf)) bf)
          (Vector3f.scale (F32.sub (F32.ofInt 1) sf) af) ∧
      bilinearBlend sf tf d1 d2 d3 d4
        = bilinearBlend (F32.sub (F32.ofInt 1) sf) tf d2 d1 d4 d3) ∧
    (F32.sub (F32.ofInt 1) (F32.sub (F32.ofInt 1) tf) = tf →
      bilinearBlend sf tf d1 d2 d3 d4
        = bilinearBlend sf (F32.sub (F32.ofInt 1) tf) d3 d4 d1 d2) := by
  refine ⟨⟨?_, ?_, ?_⟩, ?_, ?_⟩
  · ext <;> simp <;> ring
  · ext <;> simp [Games101.bilinearBlend] <;> ring
  · ext <;> simp [Games101.bilinearBlend] <;> ring
  · intro hs
    refine ⟨blend_mirror_of_stable sf af bf hs, ?_⟩
    unfold bilinearBlend
    simp only [hs]
    rw [vec_add_comm (Vector3f.scale sf d2), vec_add_comm (Vector3f.scale sf d4)]
  · intro ht
    unfold bilinearBlend
    simp only [ht]
    rw [vec_add_comm (Vector3f.scale tf _)]

/-- C8 evaluated at `s = t = 1/2`, where `1 - (1 - 1/2)` is `1/2` in binary32:
the bilinear blend of black, white, black, white equals the blend with the
columns swapped, and the blend of black, black, white, white equals the blend
with the rows swapped. -/
theorem C8_bilinear_blend_symmetric_witness :
    bilinearBlend (F32.fin (1 / 2)) (F32.fin (1 / 2)) Vector3f.zero white Vector3f.zero white
      = bilinearBlend (F32.sub (F32.ofInt 1) (F32.fin (1 / 2))) (F32.fin (1 / 2))
          white Vector3f.zero white Vector3f.zero ∧
    bilinearBlend (F32.fin (1 / 2)) (F32.fin (1 / 2)) Vector3f.zero Vector3f.zero white white
      = bilinearBlend (F32.fin (1 / 2)) (F32.sub (F32.ofInt 1) (F32.fin (1 / 2)))
          white white Vector3f.zero Vector3f.zero :=
  ⟨((C8_bilinear_blend_symmetric (1 / 2) (1 / 2) 0 0 0 0 0 0 (F32.fin (1 / 2))
      (F32.fin (1 / 2)) Vector3f.zero white Vector3f.zero white Vector3f.zero white).2.1
      (by rw [one_sub_half, one_sub_half])).2,
    (C8_bilinear_blend_symmetric (1 / 2) (1 / 2) 0 0 0 0 0 0 (F32.fin (1 / 2))
      (F32.fin (1 / 2)) Vector3f.zero white Vector3f.zero Vector3f.zero white white).2.2
      (by rw [one_sub_half, one_sub_half])⟩


/-! ## The light sampler in binary32 -/

/-- When no object of the list is emissive the accumulation leaves its
starting value unchanged. -/
theorem emitAreaFrom_of_no_emissive (l : List Object) (acc : F32)
    (h : ∀ o ∈ l, ¬ o.hasEmit = true) : emitAreaFrom acc l = acc := by
  induction l generalizing acc with
  | nil => rfl
  | cons a rest ih =>
    unfold emitAreaFrom
    rw [List.foldl_cons, if_neg (h a (List.mem_cons_self a rest))]
    exact ih acc (fun o ho => h o (List.mem_cons_of_mem a ho))

/-- The accumulation over `o :: rest` continues from the sum updated by `o`. -/
theorem emitAreaFrom_cons (acc : F32) (o : Object) (rest : List Object) :
    emitAreaFrom acc (o :: rest)
      = emitAreaFrom (if o.hasEmit then F32.add acc o.getArea else acc) rest := rfl

/-- The selection loop entered at index `k0` with running sum `acc` breaks at
index `k0 + i` on object `o` exactly when `o` is the emissive object at
position `i` of the remaining list, the binary32 running sum through it
reaches `p`, and the running sum through every earlier emissive object does
not. -/
theorem walk_eq_some_iff (p : F32) (l : List Object) (k0 : ℕ) (acc : F32)
    (k : ℕ) (o : Object) :
    sampleLightWalk p l k0 acc = some (k, o) ↔
      ∃ i, k = k0 + i ∧ l[i]? = some o ∧ o.hasEmit = true ∧
        F32.le p (emitAreaFrom acc (l.take (i + 1))) = true ∧
        ∀ j < i, ∀ oj, l[j]? = some oj → oj.hasEmit = true →
          F32.le p (emitAreaFrom acc (l.take (j + 1))) = false := by
  induction l generalizing k0 acc with
  | nil => simp [sampleLightWalk]
  | cons a rest ih =>
    unfold sampleLightWalk
    by_cases ha : a.hasEmit = true
    · by_cases hp : F32.le p (F32.add acc a.getArea) = true
      · rw [if_pos ha, if_pos hp]
        constructor
        · intro h
          simp only [Option.some.injEq, Prod.mk.injEq] at h
          obtain ⟨rfl, rfl⟩ := h
          refine ⟨0, rfl, by simp, ha, ?_, ?_⟩
          · simpa [emitAreaFrom, ha] using hp
          · intro j hj
            exact absurd hj (Nat.not_lt_zero j)
        · rintro ⟨i, hk, hi, ho, hle, hlt⟩
          cases i with
          | zero =>
            simp only [List.getElem?_cons_zero, Option.some.injEq] at hi
            subst hi
            simp [hk]
          | succ i =>
            have h0 := hlt 0 (Nat.succ_pos i) a (by simp) ha
            simp [emitAreaFrom, ha] at h0
            rw [h0] at hp
            exact absurd hp (by simp)
      · rw [if_pos ha, if_neg hp, ih]
        have hp' : F32.le p (F32.add acc a.getArea) = false := by
          simpa using hp
        constructor
        · rintro ⟨i, hk, hi, ho, hle, hlt⟩
          refine ⟨i + 1, by omega, by simpa using hi, ho, ?_, ?_⟩
          · simpa [emitAreaFrom_cons, ha] using hle
          · intro j hj oj hoj hej
            cases j with
            | zero => simpa [emitAreaFrom, ha] using hp'
            | succ j =>
              have := hlt j (by omega) oj (by simpa using hoj) hej
              simpa [emitAreaFrom_cons, ha] using this
        · rintro ⟨i, hk, hi, ho, hle, hlt⟩
          cases i with
          | zero =>
            exfalso
            apply hp
            simpa [emitAreaFrom, ha] using hle
          | succ i =>
            refine ⟨i, by omega, by simpa using hi, ho, ?_, ?_⟩
            · simpa [emitAreaFrom_cons, ha] using hle
            · intro j hj oj hoj hej
              have := hlt (j + 1) (by omega) oj (by simpa using hoj) hej
              simpa [emitAreaFrom_cons, ha] using this
    · rw [if_neg ha, ih]
      constructor
      · rintro ⟨i, hk, hi, ho, hle, hlt⟩
        refine ⟨i + 1, by omega, by simpa using hi, ho, ?_, ?_⟩
        · simpa [emitAreaFrom_cons, ha] using hle
        · intro j hj oj hoj hej
          cases j with
          | zero =>
            simp only [List.getElem?_cons_zero, Option.some.injEq] at hoj
            subst hoj
            exact absurd hej ha
          | succ j =>
            have := hlt j (by omega) oj (by simpa using hoj) hej
            simpa [emitAreaFrom_cons, ha] using this
      · rintro ⟨i, hk, hi, ho, hle, hlt⟩
        cases i with
        | zero =>
          simp only [List.getElem?_cons_zero, Option.some.injEq] at hi
          subst hi
          exact absurd ho ha
        | succ i =>
          refine ⟨i, by omega, by simpa using hi, ho, ?_, ?_⟩
          · simpa [emitAreaFrom_cons, ha] using hle
          · intro j hj oj hoj hej
            have := hlt (j + 1) (by omega) oj (by simpa using hoj) hej
            simpa [emitAreaFrom_cons, ha] using this

/-- When the selection loop runs to the end of a list that has an emissive
object, the final running sum does not reach `p`. -/
theorem sampleLightWalk_none_not_le (p : F32) (l : List Object) (k0 : ℕ) (acc : F32)
    (hnone : sampleLightWalk p l k0 acc = none) (hem : ∃ o ∈ l, o.hasEmit = true) :
    F32.le p (emitAreaFrom acc l) = false := by
  induction l generalizing k0 acc with
  | nil => simp at hem
  | cons a rest ih =>
    unfold sampleLightWalk at hnone
    rw [emitAreaFrom_cons]
    by_cases ha : a.hasEmit = true
    · rw [if_pos ha] at hnone
      by_cases hp : F32.le p (F32.add acc a.getArea) = true
      · rw [if_pos hp] at hnone
        exact absurd hnone (by simp)
      · rw [if_neg hp] at hnone
        rw [if_pos ha]
        by_cases hrest : ∃ o ∈ rest, o.hasEmit = true
        · exact ih _ _ hnone hrest
        · rw [emitAreaFrom_of_no_emissive rest _ (fun o ho he => hrest ⟨o, ho, he⟩)]
          simpa using hp
    · rw [if_neg ha] at hnone
      rw [if_neg ha]
      obtain ⟨o, ho, he⟩ := hem
      rcases List.mem_cons.mp ho with rfl | hmem
      · exact absurd he ha
      · exact ih _ _ hnone ⟨o, hmem, he⟩

/-- The selection loop runs to the end exactly when no binary32 running sum
reaches `p`. -/
theorem walk_eq_none_iff (p : F32) (l : List Object) :
    sampleLightWalk p l 0 (F32.fin 0) = none ↔
      ∀ k o, l[k]? = some o → o.hasEmit = true → F32.le p (runningArea l k) = false := by
  classical
  constructor
  · intro hnone k o hk ho
    by_contra hlt
    have hex : ∃ n, ∃ a, l[n]? = some a ∧ a.hasEmit = true ∧ F32.le p (runningArea l n) = true :=
      ⟨k, o, hk, ho, by simpa using hlt⟩
    obtain ⟨a, ha1, ha2, ha3⟩ := Nat.find_spec hex
    have hsel : sampleLightWalk p l 0 (F32.fin 0) = some (Nat.find hex, a) := by
      rw [walk_eq_some_iff]
      refine ⟨Nat.find hex, by simp, ha1, ha2, ha3, ?_⟩
      intro j hj oj hoj hej
      have := Nat.find_min hex hj
      by_contra hcon
      exact this ⟨oj, hoj, hej, by simpa [runningArea] using hcon⟩
    rw [hnone] at hsel
    exact absurd hsel (by simp)
  · intro hall
    cases hw : sampleLightWalk p l 0 (F32.fin 0) with
    | none => rfl
    | some ko =>
      obtain ⟨k, o⟩ := ko
      rw [walk_eq_some_iff] at hw
      obtain ⟨i, hk, hi, ho, hle, -⟩ := hw
      have := hall i o hi ho
      unfold runningArea at this
      rw [this] at hle
      exact absurd hle (by simp)

/-- C5, as the code behaves: whenever `sampleLight` selects an object for the
drawn value `p`, it is the emissive object with the smallest scene-list index
`k` whose running sum, the sum of `getArea` over the emissive objects of index
`<= k` accumulated in binary32 in scene-list order, is `>= p`; a non-emissive
object adds nothing to the running sum and is never selected; and the outputs
are exactly what the selected object's own `Sample` returns, with the pdf
passed on unscaled. -/
theorem C5_sampleLight_selects_first_reaching (sc : Scene) (p : F32) (pos : Intersection)
    (pdf : F32) (rng : Rng) (k : ℕ) (o : Object)
    (hsel : sampleLightWalk p sc.objects 0 (F32.fin 0) = some (k, o)) :
    sc.objects[k]? = some o ∧ o.hasEmit = true ∧
    F32.le p (runningArea sc.objects k) = true ∧
    (∀ j < k, ∀ oj, sc.objects[j]? = some oj → oj.hasEmit = true →
      F32.le p (runningArea sc.objects j) = false) ∧
    (∀ j oj, sc.objects[j]? = some oj → oj.hasEmit = false →
      runningArea sc.objects j = emitAreaFrom (F32.fin 0) (sc.objects.take j)) ∧
    sampleLightAt sc.objects p pos pdf rng = o.Sample pos pdf rng ∧
    (p = F32.mul (get_random_float rng).1 (emitAreaSum sc.objects) →
      sampleLight sc pos pdf rng = o.Sample pos pdf (get_random_float rng).2) := by
  have hchar := (walk_eq_some_iff p sc.objects 0 (F32.fin 0) k o).mp hsel
  obtain ⟨i, hk, hi, ho, hle, hlt⟩ := hchar
  rw [zero_add] at hk
  subst hk
  refine ⟨hi, ho, hle, hlt, ?_, ?_, ?_⟩
  · intro j oj hoj hej
    unfold runningArea emitAreaFrom
    rw [List.take_succ, hoj]
    simp [hej]
  · unfold sampleLightAt
    rw [hsel]
  · intro hp
    unfold sampleLight sampleLightAt
    simp only [← hp, hsel]


/-! ## Rounding is monotone below a binary32 number -/

/-- The binade does not decrease with the magnitude. -/
theorem binade_mono (a b : ℚ) (ha : 0 < a) (hab : a ≤ b) : binade a ≤ binade b := by
  unfold binade
  exact max_le_max (Int.log_mono_right ha hab) (le_refl _)

/-- Rounding to the nearest integer does not pass an integer above. -/
theorem roundHalfEven_le (x : ℚ) (n : ℤ) (h : x ≤ n) : roundHalfEven x ≤ n := by
  have hb := roundHalfEven_bounds x
  have hfl : ⌊x⌋ ≤ n := by
    have h1 : ((⌊x⌋ : ℤ) : ℚ) ≤ (n : ℚ) := le_trans (Int.floor_le x) h
    exact_mod_cast h1
  rcases eq_or_lt_of_le hfl with heq | hlt
  · have hx : x = n := le_antisymm h (by rw [← heq]; exact Int.floor_le x)
    rw [hx, roundHalfEven_intCast]
  · omega

/-- The rounding of a magnitude does not pass a rounded magnitude above it. -/
theorem roundMag_le_of_le (a t : ℚ) (ha : 0 ≤ a) (hat : a ≤ t) (ht : roundMag t = t) :
    roundMag a ≤ t := by
  rcases eq_or_lt_of_le ha with h0 | hpos
  · rw [← h0, roundMag_zero]
    exact le_trans ha hat
  have hbin := binade_mono a t hpos hat
  have hupos : (0 : ℚ) < 2 ^ (binade a - 23) := by positivity
  obtain ⟨d, hd⟩ : ∃ d : ℕ, binade t - binade a = d :=
    ⟨(binade t - binade a).toNat, by omega⟩
  have hsplit : (2 : ℚ) ^ (binade t - 23) = ((2 ^ d : ℤ) : ℚ) * 2 ^ (binade a - 23) := by
    push_cast
    rw [← zpow_natCast, ← zpow_add₀ (two_ne_zero)]
    congr 1
    omega
  have htu : t = ((roundHalfEven (t / 2 ^ (binade t - 23)) * 2 ^ d : ℤ) : ℚ)
      * 2 ^ (binade a - 23) := by
    conv_lhs => rw [← ht]
    unfold roundMag
    rw [hsplit]
    push_cast
    ring
  have hx : a / 2 ^ (binade a - 23)
      ≤ ((roundHalfEven (t / 2 ^ (binade t - 23)) * 2 ^ d : ℤ) : ℚ) := by
    rw [div_le_iff₀ hupos, ← htu]
    exact hat
  have hr := roundHalfEven_le _ _ hx
  unfold roundMag
  calc (roundHalfEven (a / 2 ^ (binade a - 23)) : ℚ) * 2 ^ (binade a - 23)
      ≤ ((roundHalfEven (t / 2 ^ (binade t - 23)) * 2 ^ d : ℤ) : ℚ) * 2 ^ (binade a - 23) :=
        mul_le_mul_of_nonneg_right (by exact_mod_cast hr) (le_of_lt hupos)
    _ = t := htu.symm

/-- A non-negative binary32 number is its own rounded magnitude and lies below
the overflow threshold. -/
theorem roundMag_of_number (t : ℚ) (ht0 : 0 ≤ t) (ht : round32 t = F32.fin t) :
    roundMag t = t ∧ t < 2 ^ 128 := by
  unfold round32 at ht
  rw [abs_of_nonneg ht0] at ht
  by_cases hov : (2 : ℚ) ^ 128 ≤ roundMag t
  · rw [if_pos hov] at ht
    split at ht <;> exact absurd ht (by simp)
  · rw [if_neg hov, if_neg (not_lt.mpr ht0)] at ht
    have h := F32.fin.inj ht
    exact ⟨h, by rw [h] at hov; exact not_le.mp hov⟩

/-- Rounding a non-negative value that lies below a binary32 number gives a
finite non-negative value that is still below that number. -/
theorem round32_le_of_le (x t : ℚ) (hx : 0 ≤ x) (hxt : x ≤ t) (ht : round32 t = F32.fin t) :
    ∃ y, round32 x = F32.fin y ∧ 0 ≤ y ∧ y ≤ t := by
  obtain ⟨hfix, hlt⟩ := roundMag_of_number t (le_trans hx hxt) ht
  have hle := roundMag_le_of_le x t hx hxt hfix
  refine ⟨roundMag x, ?_, roundMag_nonneg x hx, hle⟩
  unfold round32
  rw [abs_of_nonneg hx, if_neg (not_le.mpr (lt_of_le_of_lt hle hlt)), if_neg (not_lt.mpr hx)]

/-- A finite sum is a binary32 number. -/
theorem add_eq_fin (a b : F32) (r : ℚ) (h : F32.add a b = F32.fin r) :
    round32 r = F32.fin r := by
  cases a <;> cases b <;> simp only [F32.add] at h
  · exact round32_idem _ _ h
  all_goals exact absurd h (by simp)

/-- A finite area sum accumulated from a binary32 number is a binary32
number. -/
theorem emitAreaFrom_eq_fin (l : List Object) (acc : F32) (t : ℚ)
    (hacc : ∀ q, acc = F32.fin q → round32 q = F32.fin q)
    (h : emitAreaFrom acc l = F32.fin t) : round32 t = F32.fin t := by
  induction l generalizing acc with
  | nil => exact hacc t h
  | cons a rest ih =>
    rw [emitAreaFrom_cons] at h
    refine ih _ ?_ h
    intro q hq
    split at hq
    · exact add_eq_fin _ _ q hq
    · exact hacc q hq

/-- A finite total emissive area is a binary32 number. -/
theorem emitAreaSum_eq_fin (l : List Object) (t : ℚ) (h : emitAreaSum l = F32.fin t) :
    round32 t = F32.fin t := by
  refine emitAreaFrom_eq_fin l (F32.fin 0) t ?_ h
  intro q hq
  rw [← F32.fin.inj hq]
  exact round32_zero

/-- The product of a draw in `[0, 1]` and a finite non-negative total does not
exceed the total. -/
theorem draw_mul_total_le (r t : ℚ) (hr0 : 0 ≤ r) (hr1 : r ≤ 1) (ht0 : 0 ≤ t)
    (ht : round32 t = F32.fin t) :
    F32.le (F32.mul (F32.fin r) (F32.fin t)) (F32.fin t) = true := by
  have hle : r * t ≤ t := by
    calc r * t ≤ 1 * t := mul_le_mul_of_nonneg_right hr1 ht0
      _ = t := one_mul t
  obtain ⟨y, hy, -, hyt⟩ := round32_le_of_le (r * t) t (mul_nonneg hr0 ht0) hle ht
  simp only [F32.mul, hy, F32.le]
  exact decide_eq_true hyt


/-! ## The light sampler on the fixture scenes -/

/-- The accumulation over the empty list. -/
theorem emitAreaFrom_nil (acc : F32) : emitAreaFrom acc [] = acc := by
  simp only [emitAreaFrom, List.foldl]

/-- A fixture light adds its area to the running sum. -/
theorem emitAreaFrom_light (acc : F32) (a : ℚ) (rest : List Object) :
    emitAreaFrom acc (lightOfArea a :: rest) = emitAreaFrom (F32.add acc (F32.fin a)) rest := by
  rw [emitAreaFrom_cons]
  simp only [lightOfArea, if_true]

/-- A fixture wall adds nothing to the running sum. -/
theorem emitAreaFrom_wall (acc : F32) (a : ℚ) (rest : List Object) :
    emitAreaFrom acc (wallOfArea a :: rest) = emitAreaFrom acc rest := by
  rw [emitAreaFrom_cons]
  simp only [wallOfArea, Bool.false_eq_true, if_false]

/-- An emissive object adds its area to the running sum. -/
theorem emitAreaFrom_cons_emissive (acc : F32) (o : Object) (rest : List Object)
    (ho : o.hasEmit = true) :
    emitAreaFrom acc (o :: rest) = emitAreaFrom (F32.add acc o.getArea) rest := by
  rw [emitAreaFrom_cons, if_pos ho]

/-- The selection loop breaks at an emissive object whose running sum reaches
`p`. -/
theorem sampleLightWalk_cons_hit (p : F32) (o : Object) (rest : List Object) (k : ℕ) (acc : F32)
    (ho : o.hasEmit = true) (h : F32.le p (F32.add acc o.getArea) = true) :
    sampleLightWalk p (o :: rest) k acc = some (k, o) := by
  simp only [sampleLightWalk, ho, if_true, h]

/-- The selection loop on the empty list selects nothing. -/
theorem sampleLightWalk_nil (p : F32) (k : ℕ) (acc : F32) : sampleLightWalk p [] k acc = none := by
  simp only [sampleLightWalk]

/-- The selection loop breaks at a fixture light whose running sum reaches
`p`. -/
theorem sampleLightWalk_light_hit (p : F32) (a : ℚ) (rest : List Object) (k : ℕ) (acc : F32)
    (h : F32.le p (F32.add acc (F32.fin a)) = true) :
    sampleLightWalk p (lightOfArea a :: rest) k acc = some (k, lightOfArea a) := by
  simp only [sampleLightWalk, lightOfArea, if_true, h]

/-- The selection loop passes a fixture light whose running sum does not reach
`p`. -/
theorem sampleLightWalk_light_pass (p : F32) (a : ℚ) (rest : List Object) (k : ℕ) (acc : F32)
    (h : F32.le p (F32.add acc (F32.fin a)) = false) :
    sampleLightWalk p (lightOfArea a :: rest) k acc
      = sampleLightWalk p rest (k + 1) (F32.add acc (F32.fin a)) := by
  simp only [sampleLightWalk, lightOfArea, if_true, h, Bool.false_eq_true, if_false]

/-- The selection loop passes a fixture wall. -/
theorem sampleLightWalk_wall (p : F32) (a : ℚ) (rest : List Object) (k : ℕ) (acc : F32) :
    sampleLightWalk p (wallOfArea a :: rest) k acc = sampleLightWalk p rest (k + 1) acc := by
  simp only [sampleLightWalk, wallOfArea, Bool.false_eq_true, if_false]

/-- The result of `sampleLight` when the selection loop breaks at `o`. -/
theorem sampleLight_of_walk (sc : Scene) (l : List Object) (pos : Intersection) (pdf : F32)
    (rng : Rng) (p : F32) (k : ℕ) (o : Object) (hsc : sc.objects = l)
    (hp : F32.mul (get_random_float rng).1 (emitAreaSum l) = p)
    (hw : sampleLightWalk p l 0 (F32.fin 0) = some (k, o)) :
    sampleLight sc pos pdf rng = o.Sample pos pdf (get_random_float rng).2 := by
  subst hsc
  unfold sampleLight sampleLightAt
  simp only [hp, hw]

/-- The result of `sampleLight` when the selection loop runs to the end. -/
theorem sampleLight_of_walk_none (sc : Scene) (l : List Object) (pos : Intersection) (pdf : F32)
    (rng : Rng) (p : F32) (hsc : sc.objects = l)
    (hp : F32.mul (get_random_float rng).1 (emitAreaSum l) = p)
    (hw : sampleLightWalk p l 0 (F32.fin 0) = none) :
    sampleLight sc pos pdf rng = (pos, pdf, (get_random_float rng).2) := by
  subst hsc
  unfold sampleLight sampleLightAt
  simp only [hp, hw]

/-- A constant random source returns its value. -/
theorem constRng_draw (r : ℚ) : (get_random_float (constRng r)).1 = F32.fin r := by
  simp only [get_random_float, constRng]


/-- In the fixture `[wall 5, light 2, light 3]` the binary32 total is 5. -/
theorem wallAndTwoLights_total : emitAreaSum wallAndTwoLights = F32.fin 5 := by
  unfold emitAreaSum wallAndTwoLights
  rw [emitAreaFrom_wall, emitAreaFrom_light, emitAreaFrom_light, emitAreaFrom_nil, add_fin,
    zero_add, round32_two, add_fin, show (2 : ℚ) + 3 = 5 by norm_num, round32_five]

/-- In the fixture `[wall 5, light 2, light 3]` the drawn value `5/2` passes
the wall and the light of area 2 and selects the light of area 3. -/
theorem wallAndTwoLights_walk :
    sampleLightWalk (F32.fin (5 / 2)) wallAndTwoLights 0 (F32.fin 0)
      = some (2, lightOfArea 3) := by
  have h1 : F32.le (F32.fin (5 / 2)) (F32.add (F32.fin 0) (F32.fin 2)) = false := by
    rw [add_fin, zero_add, round32_two, le_fin]
    exact decide_eq_false (by norm_num)
  have h2 : F32.le (F32.fin (5 / 2)) (F32.add (F32.add (F32.fin 0) (F32.fin 2)) (F32.fin 3))
      = true := by
    rw [add_fin, zero_add, round32_two, add_fin, show (2 : ℚ) + 3 = 5 by norm_num, round32_five,
      le_fin]
    exact decide_eq_true (by norm_num)
  unfold wallAndTwoLights
  rw [sampleLightWalk_wall, sampleLightWalk_light_pass _ _ _ _ _ h1,
    sampleLightWalk_light_hit _ _ _ _ _ h2]

/-- C5 evaluated on the scene `[wall 5, light 2, light 3]` with the draw
`1/2`: the total is 5, `p = 5/2` exceeds the running sum 2 through the first
light, and the second light, at index 2, is selected and sampled. -/
theorem C5_sampleLight_selects_first_reaching_witness :
    wallAndTwoLights[2]? = some (lightOfArea 3) ∧
    F32.le (F32.fin (5 / 2)) (runningArea wallAndTwoLights 2) = true ∧
    sampleLight (sceneOf wallAndTwoLights) miss (F32.fin 0) (constRng (1 / 2))
      = (lightOfArea 3).Sample miss (F32.fin 0) (get_random_float (constRng (1 / 2))).2 := by
  have h := C5_sampleLight_selects_first_reaching (sceneOf wallAndTwoLights) (F32.fin (5 / 2))
    miss (F32.fin 0) (constRng (1 / 2)) 2 (lightOfArea 3) wallAndTwoLights_walk
  refine ⟨h.1, h.2.2.1, h.2.2.2.2.2.2 ?_⟩
  have ht : emitAreaSum (sceneOf wallAndTwoLights).objects = F32.fin 5 := wallAndTwoLights_total
  rw [constRng_draw, ht, mul_fin, show (1 : ℚ) / 2 * 5 = 5 / 2 by norm_num, round32_5_2]

/-- C5 fails when the sums are read over the real numbers: with lights of
area `2^24`, 3 and 100 and the draw `1 - 100 * 2^-24`, the code computes the
total 16777320 and `p = 16777220`, and selects the light at index 1, because
its running sum `2^24 + 3` rounds to 16777220; the exact sum of the areas
through index 1 is 16777219, which is below `p`, and the first index whose
exact sum reaches `p` is 2. -/
theorem C5_rounded_running_sum_selects_earlier :
    emitAreaSum threeLights = F32.fin 16777320 ∧
    F32.mul (get_random_float (constRng (4194279 / 4194304))).1 (emitAreaSum threeLights)
      = F32.fin 16777220 ∧
    sampleLightWalk (F32.fin 16777220) threeLights 0 (F32.fin 0) = some (1, lightOfArea 3) ∧
    sampleLight (sceneOf threeLights) miss (F32.fin 0) (constRng (4194279 / 4194304))
      = (lightOfArea 3).Sample miss (F32.fin 0)
          (get_random_float (constRng (4194279 / 4194304))).2 ∧
    exactAreaThrough threeLights 1 = 16777219 ∧
    ¬ ((16777220 : ℚ) ≤ exactAreaThrough threeLights 1) ∧
    (16777220 : ℚ) ≤ exactAreaThrough threeLights 2 := by
  have htot : emitAreaSum threeLights = F32.fin 16777320 := by
    unfold emitAreaSum threeLights
    rw [emitAreaFrom_light, emitAreaFrom_light, emitAreaFrom_light, emitAreaFrom_nil, add_fin,
      zero_add, round32_2p24, add_fin, show (16777216 : ℚ) + 3 = 16777219 by norm_num,
      round32_2p24_add_3, add_fin, show (16777220 : ℚ) + 100 = 16777320 by norm_num,
      round32_16777320]
  have hp : F32.mul (get_random_float (constRng (4194279 / 4194304))).1 (emitAreaSum threeLights)
      = F32.fin 16777220 := by
    rw [htot, constRng_draw, mul_fin]
    rw [show (4194279 : ℚ) / 4194304 * 16777320 = 8796095119035 / 524288 by norm_num]
    exact round32_draw_mul_16777320
  have hwalk : sampleLightWalk (F32.fin 16777220) threeLights 0 (F32.fin 0)
      = some (1, lightOfArea 3) := by
    have h1 : F32.le (F32.fin 16777220) (F32.add (F32.fin 0) (F32.fin 16777216)) = false := by
      rw [add_fin, zero_add, round32_2p24, le_fin]
      exact decide_eq_false (by norm_num)
    have h2 : F32.le (F32.fin 16777220)
        (F32.add (F32.add (F32.fin 0) (F32.fin 16777216)) (F32.fin 3)) = true := by
      rw [add_fin, zero_add, round32_2p24, add_fin,
        show (16777216 : ℚ) + 3 = 16777219 by norm_num, round32_2p24_add_3, le_fin]
      exact decide_eq_true (by norm_num)
    unfold threeLights
    rw [sampleLightWalk_light_pass _ _ _ _ _ h1, sampleLightWalk_light_hit _ _ _ _ _ h2]
  refine ⟨htot, hp, hwalk, ?_, ?_, ?_, ?_⟩
  · exact sampleLight_of_walk (sceneOf threeLights) threeLights _ _ _ _ 1 _ rfl hp hwalk
  · norm_num [exactAreaThrough, threeLights, lightOfArea, F32.toRat]
  · norm_num [exactAreaThrough, threeLights, lightOfArea, F32.toRat]
  · norm_num [exactAreaThrough, threeLights, lightOfArea, F32.toRat]

/-- C6, as the code behaves: in a scene with an emissive object whose binary32
total emissive area `T` is finite and not negative, and for every draw `r` in
`[0, 1)`, let `p` be the binary32 product `r * T`.  `sampleLight` selects the
object at scene index `k` exactly when it is emissive, `p` is at most the
binary32 running sum through `k`, and `p` exceeds the running sum through
every earlier emissive object; exactly one object is selected, it is emissive,
and its `Sample` produces the outputs; and an emissive object whose running
sum equals that of an earlier emissive object, its area having been absorbed
by the rounding, is not selected. -/
theorem C6_sampleLight_selects_by_running_sums (sc : Scene) (pos : Intersection) (pdf : F32)
    (rng : Rng) (r t : ℚ) (hem : ∃ o ∈ sc.objects, o.hasEmit = true)
    (hdraw : (get_random_float rng).1 = F32.fin r) (hr : 0 ≤ r ∧ r < 1)
    (htot : emitAreaSum sc.objects = F32.fin t) (ht0 : 0 ≤ t) :
    (∀ (k : ℕ) (o : Object),
      sampleLightWalk (F32.mul (F32.fin r) (F32.fin t)) sc.objects 0 (F32.fin 0) = some (k, o) ↔
      sc.objects[k]? = some o ∧ o.hasEmit = true ∧
      F32.le (F32.mul (F32.fin r) (F32.fin t)) (runningArea sc.objects k) = true ∧
      ∀ j < k, ∀ oj, sc.objects[j]? = some oj → oj.hasEmit = true →
        F32.le (F32.mul (F32.fin r) (F32.fin t)) (runningArea sc.objects j) = false) ∧
    (∃! sel : ℕ × Object,
      sampleLightWalk (F32.mul (F32.fin r) (F32.fin t)) sc.objects 0 (F32.fin 0) = some sel ∧
      sc.objects[sel.1]? = some sel.2 ∧ sel.2.hasEmit = true ∧
      sampleLight sc pos pdf rng = sel.2.Sample pos pdf (get_random_float rng).2) ∧
    (∀ (j k : ℕ) (oj o : Object), j < k → sc.objects[j]? = some oj → oj.hasEmit = true →
      runningArea sc.objects j = runningArea sc.objects k →
      sampleLightWalk (F32.mul (F32.fin r) (F32.fin t)) sc.objects 0 (F32.fin 0)
        ≠ some (k, o)) := by
  have hchar : ∀ (k : ℕ) (o : Object),
      sampleLightWalk (F32.mul (F32.fin r) (F32.fin t)) sc.objects 0 (F32.fin 0) = some (k, o) ↔
      sc.objects[k]? = some o ∧ o.hasEmit = true ∧
      F32.le (F32.mul (F32.fin r) (F32.fin t)) (runningArea sc.objects k) = true ∧
      ∀ j < k, ∀ oj, sc.objects[j]? = some oj → oj.hasEmit = true →
        F32.le (F32.mul (F32.fin r) (F32.fin t)) (runningArea sc.objects j) = false := by
    intro k o
    rw [walk_eq_some_iff]
    constructor
    · rintro ⟨i, hk, hi, ho, hle, hlt⟩
      rw [zero_add] at hk
      subst hk
      exact ⟨hi, ho, hle, hlt⟩
    · rintro ⟨hi, ho, hle, hlt⟩
      exact ⟨k, by simp, hi, ho, hle, hlt⟩
  refine ⟨hchar, ?_, ?_⟩
  swap
  · intro j k oj o hjk hoj hej heq hw
    obtain ⟨-, -, hle, hlt⟩ := (hchar k o).mp hw
    have hj := hlt j hjk oj hoj hej
    rw [heq, hle] at hj
    exact absurd hj (by simp)
  have hreach : F32.le (F32.mul (F32.fin r) (F32.fin t)) (emitAreaSum sc.objects) = true := by
    rw [htot]
    exact draw_mul_total_le r t hr.1 (le_of_lt hr.2) ht0 (emitAreaSum_eq_fin sc.objects t htot)
  cases hw : sampleLightWalk (F32.mul (F32.fin r) (F32.fin t)) sc.objects 0 (F32.fin 0) with
  | none =>
    have hnot := sampleLightWalk_none_not_le _ sc.objects 0 (F32.fin 0) hw hem
    unfold emitAreaSum at hreach
    rw [hnot] at hreach
    exact absurd hreach (by simp)
  | some sel =>
    obtain ⟨k, o⟩ := sel
    obtain ⟨hi, ho, -, -⟩ := (hchar k o).mp hw
    refine ⟨(k, o), ⟨rfl, hi, ho, ?_⟩, ?_⟩
    · unfold sampleLight sampleLightAt
      simp only [hdraw, htot, hw]
    · rintro other ⟨g1, -⟩
      exact (Option.some.inj g1).symm

/-- C6 evaluated on the scene `[wall 5, light 2, light 3]` with the draw
`1/2`: `p = 5/2` exceeds the running sum 2 through the first light and is at
most the running sum 5 through the second, which is selected. -/
theorem C6_sampleLight_selects_by_running_sums_witness :
    sampleLightWalk (F32.mul (F32.fin (1 / 2)) (F32.fin 5)) wallAndTwoLights 0 (F32.fin 0)
      = some (2, lightOfArea 3) := by
  have h := C6_sampleLight_selects_by_running_sums (sceneOf wallAndTwoLights) miss (F32.fin 0)
    (constRng (1 / 2)) (1 / 2) 5 ⟨lightOfArea 2, by simp [sceneOf, wallAndTwoLights], rfl⟩
    rfl (by norm_num) wallAndTwoLights_total (by norm_num)
  refine (h.1 2 (lightOfArea 3)).mpr ⟨rfl, rfl, ?_, ?_⟩
  · have hl : (sceneOf wallAndTwoLights).objects = wallAndTwoLights := rfl
    rw [hl]
    unfold runningArea wallAndTwoLights
    simp only [List.take_succ_cons, List.take_zero]
    rw [emitAreaFrom_wall, emitAreaFrom_light, emitAreaFrom_light, emitAreaFrom_nil, add_fin,
      zero_add, round32_two, add_fin, show (2 : ℚ) + 3 = 5 by norm_num, round32_five, mul_fin,
      show (1 : ℚ) / 2 * 5 = 5 / 2 by norm_num, round32_5_2, le_fin]
    exact decide_eq_true (by norm_num)
  · intro j hj oj hoj hej
    have hj' : j = 0 ∨ j = 1 := by omega
    rcases hj' with rfl | rfl
    · simp [sceneOf, wallAndTwoLights, wallOfArea] at hoj
      subst hoj
      simp at hej
    · have hl : (sceneOf wallAndTwoLights).objects = wallAndTwoLights := rfl
      rw [hl]
      unfold runningArea wallAndTwoLights
      simp only [List.take_succ_cons, List.take_zero]
      rw [emitAreaFrom_wall, emitAreaFrom_light, emitAreaFrom_nil, add_fin, zero_add, round32_two,
        mul_fin, show (1 : ℚ) / 2 * 5 = 5 / 2 by norm_num, round32_5_2, le_fin]
      exact decide_eq_false (by norm_num)

/-- C6 fails in the code's arithmetic: with lights of area `2^24`, 1 and 1 the
running sum stays `2^24`, since `2^24 + 1` rounds to `2^24`.  For the draw
`r = 1 - 2^-24` the code selects the light at index 0, although over the real
numbers `C_1 = 2^24 < r * T <= C_2 = 2^24 + 1` with `T = 2^24 + 2`, the
condition under which the second light is to be selected; and the lights at
index 1 and 2 are selected for no drawn value at all, although their shares
`area / T` of the draws are not empty. -/
theorem C6_absorbed_lights_never_selected :
    emitAreaSum absorbedLights = F32.fin 16777216 ∧
    F32.mul (get_random_float (constRng (16777215 / 16777216))).1 (emitAreaSum absorbedLights)
      = F32.fin 16777215 ∧
    sampleLightWalk (F32.fin 16777215) absorbedLights 0 (F32.fin 0)
      = some (0, lightOfArea 16777216) ∧
    sampleLight (sceneOf absorbedLights) miss (F32.fin 0) (constRng (16777215 / 16777216))
      = (lightOfArea 16777216).Sample miss (F32.fin 0)
          (get_random_float (constRng (16777215 / 16777216))).2 ∧
    exactAreaThrough absorbedLights 0 < 16777215 / 16777216 * exactAreaThrough absorbedLights 2 ∧
    16777215 / 16777216 * exactAreaThrough absorbedLights 2 ≤ exactAreaThrough absorbedLights 1 ∧
    (∀ p k o, sampleLightWalk p absorbedLights 0 (F32.fin 0) = some (k, o) → k = 0) := by
  have htot : emitAreaSum absorbedLights = F32.fin 16777216 := by
    unfold emitAreaSum absorbedLights
    rw [emitAreaFrom_light, emitAreaFrom_light, emitAreaFrom_light, emitAreaFrom_nil, add_fin,
      zero_add, round32_2p24, add_fin, show (16777216 : ℚ) + 1 = 16777217 by norm_num,
      round32_2p24_add_1, add_fin, show (16777216 : ℚ) + 1 = 16777217 by norm_num,
      round32_2p24_add_1]
  have hp : F32.mul (get_random_float (constRng (16777215 / 16777216))).1
      (emitAreaSum absorbedLights) = F32.fin 16777215 := by
    rw [htot, constRng_draw, mul_fin]
    rw [show (16777215 : ℚ) / 16777216 * 16777216 = 16777215 by norm_num]
    exact round32_2p24_sub_1
  have hwalk : sampleLightWalk (F32.fin 16777215) absorbedLights 0 (F32.fin 0)
      = some (0, lightOfArea 16777216) := by
    have h1 : F32.le (F32.fin 16777215) (F32.add (F32.fin 0) (F32.fin 16777216)) = true := by
      rw [add_fin, zero_add, round32_2p24, le_fin]
      exact decide_eq_true (by norm_num)
    unfold absorbedLights
    rw [sampleLightWalk_light_hit _ _ _ _ _ h1]
  refine ⟨htot, hp, hwalk, ?_, ?_, ?_, ?_⟩
  · exact sampleLight_of_walk (sceneOf absorbedLights) absorbedLights _ _ _ _ 0 _ rfl hp hwalk
  · norm_num [exactAreaThrough, absorbedLights, lightOfArea, F32.toRat]
  · norm_num [exactAreaThrough, absorbedLights, lightOfArea, F32.toRat]
  · intro p k o h
    have h0 : F32.add (F32.fin 0) (F32.fin 16777216) = F32.fin 16777216 := by
      rw [add_fin, zero_add, round32_2p24]
    have h1 : F32.add (F32.fin 16777216) (F32.fin 1) = F32.fin 16777216 := by
      rw [add_fin, show (16777216 : ℚ) + 1 = 16777217 by norm_num, round32_2p24_add_1]
    unfold absorbedLights at h
    by_cases hle : F32.le p (F32.fin 16777216) = true
    · rw [sampleLightWalk_light_hit p _ _ _ _ (by rw [h0]; exact hle)] at h
      exact (Prod.mk.inj (Option.some.inj h)).1.symm
    · have hf : F32.le p (F32.fin 16777216) = false := by simpa using hle
      rw [sampleLightWalk_light_pass p _ _ _ _ (by rw [h0]; exact hf), h0,
        sampleLightWalk_light_pass p _ _ _ _ (by rw [h1]; exact hf), h1,
        sampleLightWalk_light_pass p _ _ _ _ (by rw [h1]; exact hf), sampleLightWalk_nil] at h
      exact absurd h (by simp)

/-- C7, as the code behaves: in a scene with an emissive object, every drawn
value `p` that is at most the binary32 total emissive area selects an emissive
object, whose `Sample` fills `pos` and `pdf`; this is the case for every draw
`r` in `[0, 1]` when the total is finite and not negative.  There is no
fall-back to the last emissive object: the walk completes without a selection
exactly when no binary32 running sum reaches `p`, and then `pos`, `pdf` and the
random source keep their entry values. -/
theorem C7_sampleLight_sets_outputs_when_reached (sc : Scene) (pos : Intersection) (pdf : F32)
    (rng : Rng) (hem : ∃ o ∈ sc.objects, o.hasEmit = true) :
    (∀ p, F32.le p (emitAreaSum sc.objects) = true →
      ∃ (k : ℕ) (o : Object), sampleLightWalk p sc.objects 0 (F32.fin 0) = some (k, o) ∧
        sc.objects[k]? = some o ∧ o.hasEmit = true ∧
        sampleLightAt sc.objects p pos pdf rng = o.Sample pos pdf rng) ∧
    (∀ r t : ℚ, (get_random_float rng).1 = F32.fin r → 0 ≤ r → r ≤ 1 →
      emitAreaSum sc.objects = F32.fin t → 0 ≤ t →
      ∃ (k : ℕ) (o : Object), sc.objects[k]? = some o ∧ o.hasEmit = true ∧
        sampleLight sc pos pdf rng = o.Sample pos pdf (get_random_float rng).2) ∧
    (∀ p, sampleLightWalk p sc.objects 0 (F32.fin 0) = none ↔
      ∀ (k : ℕ) (o : Object), sc.objects[k]? = some o → o.hasEmit = true →
        F32.le p (runningArea sc.objects k) = false) ∧
    (∀ p, sampleLightWalk p sc.objects 0 (F32.fin 0) = none →
      sampleLightAt sc.objects p pos pdf rng = (pos, pdf, rng)) := by
  have hsel : ∀ (p : F32) (rng1 : Rng), F32.le p (emitAreaSum sc.objects) = true →
      ∃ (k : ℕ) (o : Object), sampleLightWalk p sc.objects 0 (F32.fin 0) = some (k, o) ∧
        sc.objects[k]? = some o ∧ o.hasEmit = true ∧
        sampleLightAt sc.objects p pos pdf rng1 = o.Sample pos pdf rng1 := by
    intro p rng1 hp
    cases hw : sampleLightWalk p sc.objects 0 (F32.fin 0) with
    | none =>
      have hnot := sampleLightWalk_none_not_le p sc.objects 0 (F32.fin 0) hw hem
      unfold emitAreaSum at hp
      rw [hnot] at hp
      exact absurd hp (by simp)
    | some ko =>
      obtain ⟨k, o⟩ := ko
      obtain ⟨i, hk, hi, ho, -, -⟩ :=
        (walk_eq_some_iff p sc.objects 0 (F32.fin 0) k o).mp hw
      rw [zero_add] at hk
      subst hk
      refine ⟨k, o, rfl, hi, ho, ?_⟩
      unfold sampleLightAt
      rw [hw]
  refine ⟨fun p hp => hsel p rng hp, ?_, fun p => walk_eq_none_iff p sc.objects, ?_⟩
  · intro r t hdraw hr0 hr1 htot ht0
    have hreach : F32.le (F32.mul (F32.fin r) (F32.fin t)) (emitAreaSum sc.objects) = true := by
      rw [htot]
      exact draw_mul_total_le r t hr0 hr1 ht0 (emitAreaSum_eq_fin sc.objects t htot)
    obtain ⟨k, o, -, hi, ho, hat⟩ := hsel _ (get_random_float rng).2 hreach
    refine ⟨k, o, hi, ho, ?_⟩
    unfold sampleLight
    simp only [hdraw, htot]
    exact hat
  · intro p hw
    unfold sampleLightAt
    rw [hw]

/-- C7 evaluated on the scene `[wall 5, light 2, light 3]` with the draw
`1/2`: the total 5 is finite and not negative, so an emissive object is
selected and sampled. -/
theorem C7_sampleLight_sets_outputs_when_reached_witness :
    ∃ (k : ℕ) (o : Object), (sceneOf wallAndTwoLights).objects[k]? = some o ∧ o.hasEmit = true ∧
      sampleLight (sceneOf wallAndTwoLights) miss (F32.fin 0) (constRng (1 / 2))
        = o.Sample miss (F32.fin 0) (get_random_float (constRng (1 / 2))).2 :=
  (C7_sampleLight_sets_outputs_when_reached (sceneOf wallAndTwoLights) miss (F32.fin 0)
    (constRng (1 / 2)) ⟨lightOfArea 2, by simp [sceneOf, wallAndTwoLights], rfl⟩).2.1
    (1 / 2) 5 rfl (by norm_num) (by norm_num) wallAndTwoLights_total (by norm_num)

/-- C7 fails as stated: the code has no fall-back to the last emissive object.
In the scene whose only object is a light with `getArea() = -1`, the draw
`1/2` gives the total `-1` and `p = -1/2`, which exceeds the only running sum
`-1`: the walk selects nothing and `sampleLight` returns `pos` and `pdf` as
they were on entry, not the `Sample` of the last emissive object. -/
theorem C7_no_last_light_fallback :
    (∃ o ∈ negativeLight, o.hasEmit = true) ∧
    (lastEmissive negativeLight).map (fun o => o.getArea) = some (F32.fin (-1)) ∧
    (get_random_float (constRng (1 / 2))).1 = F32.fin (1 / 2) ∧
    emitAreaSum negativeLight = F32.fin (-1) ∧
    F32.mul (F32.fin (1 / 2)) (emitAreaSum negativeLight) = F32.fin (-1 / 2) ∧
    sampleLightWalk (F32.fin (-1 / 2)) negativeLight 0 (F32.fin 0) = none ∧
    sampleLight (sceneOf negativeLight) miss (F32.fin 0) (constRng (1 / 2))
      = (miss, F32.fin 0, (get_random_float (constRng (1 / 2))).2) ∧
    sampleLight (sceneOf negativeLight) miss (F32.fin 0) (constRng (1 / 2))
      ≠ (lightOfArea (-1)).Sample miss (F32.fin 0) (get_random_float (constRng (1 / 2))).2 := by
  have htot : emitAreaSum negativeLight = F32.fin (-1) := by
    unfold emitAreaSum negativeLight
    rw [emitAreaFrom_light, emitAreaFrom_nil, add_fin, zero_add, round32_neg_one]
  have hp : F32.mul (F32.fin (1 / 2)) (emitAreaSum negativeLight) = F32.fin (-1 / 2) := by
    rw [htot, mul_fin, show (1 : ℚ) / 2 * -1 = -1 / 2 by norm_num]
    exact round32_neg_half
  have hwalk : sampleLightWalk (F32.fin (-1 / 2)) negativeLight 0 (F32.fin 0) = none := by
    have h1 : F32.le (F32.fin (-1 / 2)) (F32.add (F32.fin 0) (F32.fin (-1))) = false := by
      rw [add_fin, zero_add, round32_neg_one, le_fin]
      exact decide_eq_false (by norm_num)
    unfold negativeLight
    rw [sampleLightWalk_light_pass _ _ _ _ _ h1, sampleLightWalk_nil]
  have hout : sampleLight (sceneOf negativeLight) miss (F32.fin 0) (constRng (1 / 2))
      = (miss, F32.fin 0, (get_random_float (constRng (1 / 2))).2) := by
    exact sampleLight_of_walk_none (sceneOf negativeLight) negativeLight _ _ _ _ rfl
      (by rw [constRng_draw]; exact hp) hwalk
  refine ⟨⟨lightOfArea (-1), by simp [negativeLight], rfl⟩, rfl, rfl, htot, hp, hwalk, hout, ?_⟩
  rw [hout]
  intro h
  have h1 := congrArg (fun x => x.1.happened) h
  simp [lightOfArea, miss] at h1


/-! ## The direct term in binary32 -/

/-- The constant `epsilon = 0.0002f` is `13743895 * 2^-36`. -/
theorem epsilon_eq : epsilon = F32.fin (13743895 / 68719476736) := by
  unfold epsilon
  rw [show (2 : ℚ) / 10000 = 1 / 5000 by norm_num]
  exact round32_1_5000

/-- The clamp `std::max(.0f, x)` is never negative and never a NaN. -/
theorem max0_nonneg (x : F32) : F32.le (F32.fin 0) (F32.max0 x) = true := by
  cases x with
  | fin q =>
    unfold F32.max0
    rw [lt_fin]
    by_cases h : (0 : ℚ) < q
    · rw [decide_eq_true h, if_pos rfl, le_fin]
      exact decide_eq_true (le_of_lt h)
    · rw [decide_eq_false h, if_neg (by simp), le_fin]
      exact decide_eq_true (le_refl _)
  | pinf => simp [F32.max0, F32.lt, F32.le]
  | ninf => simp [F32.max0, F32.lt, F32.le]
  | nan => simp [F32.max0, F32.lt, F32.le]

/-- The clamp of a value that is `<= 0` is zero. -/
theorem max0_of_le_zero (x : F32) (h : F32.le x (F32.fin 0) = true) : F32.max0 x = F32.fin 0 := by
  cases x with
  | fin q =>
    rw [le_fin] at h
    have hq : q ≤ 0 := of_decide_eq_true h
    unfold F32.max0
    rw [lt_fin, decide_eq_false (not_lt.mpr hq), if_neg (by simp)]
  | pinf => simp [F32.le] at h
  | ninf => simp [F32.max0, F32.lt]
  | nan => simp [F32.le] at h

/-- A finite product with the factor zero is zero. -/
theorem mul_zero_of_finite (c : F32) (h : (F32.mul c (F32.fin 0)).isFinite = true) :
    F32.mul c (F32.fin 0) = F32.fin 0 := by
  cases c with
  | fin q => rw [mul_fin, mul_zero, round32_zero]
  | pinf => simp [F32.mul, F32.isFinite] at h
  | ninf => simp [F32.mul, F32.isFinite] at h
  | nan => simp [F32.mul, F32.isFinite] at h

/-- Zero divided by a divisor that is neither zero nor a NaN is zero. -/
theorem zero_div_of_ne (r : F32) (h0 : r ≠ F32.fin 0) (hn : r ≠ F32.nan) :
    F32.div (F32.fin 0) r = F32.fin 0 := by
  cases r with
  | fin q =>
    have hq : q ≠ 0 := fun h => h0 (by rw [h])
    rw [div_fin 0 q hq, zero_div, round32_zero]
  | pinf => simp [F32.div]
  | ninf => simp [F32.div]
  | nan => exact absurd rfl hn

/-- The zero colour divided by a divisor that is neither zero nor a NaN is the
zero colour. -/
theorem zero_sdiv_of_ne (r : F32) (h0 : r ≠ F32.fin 0) (hn : r ≠ F32.nan) :
    Vector3f.sdiv Vector3f.zero r = Vector3f.zero := by
  simp only [Vector3f.sdiv, Vector3f.zero, zero_div_of_ne r h0 hn]

/-- A finite colour scaled by zero is the zero colour. -/
theorem scaleRight_zero_of_finite (a : Vector3f)
    (h : (Vector3f.scaleRight a (F32.fin 0)).isFinite = true) :
    Vector3f.scaleRight a (F32.fin 0) = Vector3f.zero := by
  simp only [Vector3f.isFinite, Vector3f.scaleRight, Bool.and_eq_true] at h
  obtain ⟨⟨hx, hy⟩, hz⟩ := h
  simp only [Vector3f.scaleRight, Vector3f.zero, mul_zero_of_finite _ hx, mul_zero_of_finite _ hy,
    mul_zero_of_finite _ hz]

/-- A colour with finite channels scaled by zero is the zero colour. -/
theorem scaleRight_zero_of_isFinite (a : Vector3f) (h : a.isFinite = true) :
    Vector3f.scaleRight a (F32.fin 0) = Vector3f.zero := by
  simp only [Vector3f.isFinite, Bool.and_eq_true] at h
  obtain ⟨⟨hx, hy⟩, hz⟩ := h
  simp only [Vector3f.scaleRight, Vector3f.zero, mul_zero_finite _ hx, mul_zero_finite _ hy,
    mul_zero_finite _ hz]

/-- The zero colour scaled by a finite factor is the zero colour. -/
theorem zero_scaleRight_of_finite (c : F32) (h : c.isFinite = true) :
    Vector3f.scaleRight Vector3f.zero c = Vector3f.zero := by
  simp only [Vector3f.scaleRight, Vector3f.zero, zero_mul_finite c h]

/-- C10, as the code behaves: `epsilon` is the binary32 constant `0.0002f`,
that is `13743895 * 2^-36`, which is below 0.0002, and the test is made on the
binary32 difference of the two distances.  When `-epsilon` is `<` that
difference, `shadeLoDir` returns
`emit * eval(L, wo, n) * max(0, n . L) * max(0, n_light . (-L)) / r2 / lightPdf`
evaluated in binary32 from left to right, with `L` the normalised vector from
the shading point to the light point and `r2` the dot product of that vector
with itself. -/
theorem C10_shadeLoDir_unoccluded (env : Prims) (sc : Scene) (inter : Intersection)
    (wo : Vector3f) (rng : Rng) (hitLight : Intersection) (lightPdf : F32)
    (hlight : (sampleLight sc env.defaultIntersection env.uninitFloat rng).1 = hitLight)
    (hpdf : (sampleLight sc env.defaultIntersection env.uninitFloat rng).2.1 = lightPdf)
    (hvis : F32.lt (F32.neg epsilon)
      (F32.sub
        (sc.intersect
          ⟨inter.coords, env.normalized (Vector3f.sub hitLight.coords inter.coords)⟩).distance
        (env.norm (Vector3f.sub hitLight.coords inter.coords))) = true) :
    (shadeLoDir env sc inter wo rng).1 =
      Vector3f.sdiv
        (Vector3f.sdiv
          (Vector3f.scaleRight
            (Vector3f.scaleRight
              (Vector3f.mul hitLight.emit
                (inter.m.eval (env.normalized (Vector3f.sub hitLight.coords inter.coords)) wo
                  inter.normal))
              (F32.max0 (dotProduct inter.normal
                (env.normalized (Vector3f.sub hitLight.coords inter.coords)))))
            (F32.max0 (dotProduct hitLight.normal
              (Vector3f.neg (env.normalized (Vector3f.sub hitLight.coords inter.coords))))))
          (dotProduct (Vector3f.sub hitLight.coords inter.coords)
            (Vector3f.sub hitLight.coords inter.coords)))
        lightPdf ∧
    epsilon = F32.fin (13743895 / 68719476736) ∧
    (13743895 / 68719476736 : ℚ) < 2 / 10000 := by
  refine ⟨?_, epsilon_eq, by norm_num⟩
  unfold shadeLoDir
  simp only [hlight, hpdf]
  unfold shadeLoDirFrom
  simp only
  rw [if_pos hvis]


/-! ## The direct term on the fixture scenes -/

/-- In the lamp scene the draw `1/2` selects the lamp, whose `Sample` writes
its point and its pdf. -/
theorem lampScene_sampleLight (h : ℚ) (pdf : F32) (dist : ℚ) :
    sampleLight (lampScene h pdf dist) miss (F32.fin 0) (constRng (1 / 2))
      = (lampHit h, pdf, (get_random_float (constRng (1 / 2))).2) := by
  have htot : emitAreaSum [lamp h pdf] = F32.fin 2 := by
    unfold emitAreaSum
    rw [emitAreaFrom_cons_emissive _ (lamp h pdf) _ rfl, emitAreaFrom_nil]
    show F32.add (F32.fin 0) (F32.fin 2) = F32.fin 2
    rw [add_fin, zero_add, round32_two]
  have hp : F32.mul (get_random_float (constRng (1 / 2))).1 (emitAreaSum [lamp h pdf])
      = F32.fin 1 := by
    rw [htot, constRng_draw, mul_fin, show (1 : ℚ) / 2 * 2 = 1 by norm_num, round32_one]
  have hle : F32.le (F32.fin 1) (F32.add (F32.fin 0) (lamp h pdf).getArea) = true := by
    show F32.le (F32.fin 1) (F32.add (F32.fin 0) (F32.fin 2)) = true
    rw [add_fin, zero_add, round32_two, le_fin]
    exact decide_eq_true (by norm_num)
  exact sampleLight_of_walk (lampScene h pdf dist) [lamp h pdf] miss (F32.fin 0) _ (F32.fin 1) 0
    (lamp h pdf) rfl hp (sampleLightWalk_cons_hit _ _ _ _ _ rfl hle)

/-- The vector from the floor point to the lamp at height 1. -/
theorem lamp_offset_one (n : Vector3f) :
    Vector3f.sub (lampHit 1).coords (floorHit n).coords = up := by
  simp only [Vector3f.sub, lampHit, floorHit, Vector3f.zero, up, sub_fin, sub_zero, round32_zero,
    round32_one]

/-- The dot product of `up` with itself. -/
theorem dot_up_up : dotProduct up up = F32.fin 1 := by
  simp only [dotProduct, up, mul_fin, add_fin, mul_zero, mul_one, add_zero, zero_add,
    round32_zero, round32_one]

/-- The dot product of `down` with `up`. -/
theorem dot_down_up : dotProduct down up = F32.fin (-1) := by
  simp only [dotProduct, up, down, mul_fin, add_fin, mul_zero, mul_one, add_zero, zero_add,
    round32_zero, round32_neg_one]

/-- The opposite of `up`. -/
theorem neg_up : Vector3f.neg up = down := by
  simp only [Vector3f.neg, up, down, neg_fin, neg_zero]

/-- The dot product of `down` with itself. -/
theorem dot_down_down : dotProduct down down = F32.fin 1 := by
  simp only [dotProduct, down, mul_fin, add_fin, mul_zero, mul_neg, mul_one, neg_neg, add_zero,
    zero_add, round32_zero, round32_one]

/-- The clamp of one. -/
theorem max0_one : F32.max0 (F32.fin 1) = F32.fin 1 := by
  unfold F32.max0
  rw [lt_fin, decide_eq_true (by norm_num), if_pos rfl]

/-- The clamp of minus one. -/
theorem max0_neg_one : F32.max0 (F32.fin (-1)) = F32.fin 0 :=
  max0_of_le_zero _ (by rw [le_fin]; exact decide_eq_true (by norm_num))

/-- In the lamp scene with the lamp at height 1 and the oracle distance 1 the
shadow ray passes the test of line 69. -/
theorem lampScene_one_visible (n : Vector3f) (pdf : F32) :
    F32.lt (F32.neg epsilon)
      (F32.sub
        ((lampScene 1 pdf 1).intersect
          ⟨(floorHit n).coords,
            zAxisPrims.normalized (Vector3f.sub (lampHit 1).coords (floorHit n).coords)⟩).distance
        (zAxisPrims.norm (Vector3f.sub (lampHit 1).coords (floorHit n).coords))) = true := by
  rw [lamp_offset_one, epsilon_eq]
  simp only [lampScene, zAxisPrims, up, sub_fin, sub_self, round32_zero, neg_fin, lt_fin]
  exact decide_eq_true (by norm_num)

/-- C10 evaluated in the fixture scene: the lamp of emission 8 hangs at
distance 1 straight above the floor point, the BRDF is 1 and the light pdf is
`1/2`, so each channel is `8 * 1 * 1 * 1 / 1 / (1/2) = 16`. -/
theorem C10_shadeLoDir_unoccluded_witness :
    (shadeLoDir zAxisPrims (lampScene 1 (F32.fin (1 / 2)) 1) (floorHit up) up
      (constRng (1 / 2))).1 = ⟨F32.fin 16, F32.fin 16, F32.fin 16⟩ := by
  have h := (C10_shadeLoDir_unoccluded zAxisPrims (lampScene 1 (F32.fin (1 / 2)) 1) (floorHit up)
    up (constRng (1 / 2)) (lampHit 1) (F32.fin (1 / 2))
    (by rw [show zAxisPrims.defaultIntersection = miss from rfl,
      show zAxisPrims.uninitFloat = F32.fin 0 from rfl, lampScene_sampleLight])
    (by rw [show zAxisPrims.defaultIntersection = miss from rfl,
      show zAxisPrims.uninitFloat = F32.fin 0 from rfl, lampScene_sampleLight])
    (lampScene_one_visible up (F32.fin (1 / 2)))).1
  rw [h, lamp_offset_one]
  simp only [zAxisPrims, lampHit, floorHit, diffuse, dot_up_up, neg_up, dot_down_down, max0_one,
    Vector3f.mul, Vector3f.scaleRight, Vector3f.sdiv, mul_fin, mul_one, round32_eight]
  rw [div_fin 8 1 (by norm_num), div_one, round32_eight, div_fin 8 (1 / 2) (by norm_num),
    show (8 : ℚ) / (1 / 2) = 16 by norm_num, round32_sixteen]


/-- The vector from the floor point to the lamp at height `0.0002f`. -/
theorem lamp_offset_eps (n : Vector3f) :
    Vector3f.sub (lampHit (13743895 / 68719476736)).coords (floorHit n).coords
      = ⟨F32.fin 0, F32.fin 0, F32.fin (13743895 / 68719476736)⟩ := by
  simp only [Vector3f.sub, lampHit, floorHit, Vector3f.zero, sub_fin, sub_zero, round32_zero,
    round32_eps]

/-- C10 fails with the decimal `epsilon = 0.0002`: the code's constant is
`0.0002f = 13743895 * 2^-36`, which is smaller.  With the lamp at height
`0.0002f` above the floor point and the oracle reporting a hit at distance 0,
`hitDistance - lightDistance` is `-0.0002f`, which is `> -0.0002`, yet the
test of line 69 fails and `shadeLoDir` returns the zero colour, while the
formula of the claim gives 400000032 per channel. -/
theorem C10_decimal_epsilon_does_not_decide :
    epsilon = F32.fin (13743895 / 68719476736) ∧
    (sampleLight (lampScene (13743895 / 68719476736) (F32.fin (1 / 2)) 0)
        zAxisPrims.defaultIntersection zAxisPrims.uninitFloat (constRng (1 / 2))).1
      = lampHit (13743895 / 68719476736) ∧
    (sampleLight (lampScene (13743895 / 68719476736) (F32.fin (1 / 2)) 0)
        zAxisPrims.defaultIntersection zAxisPrims.uninitFloat (constRng (1 / 2))).2.1
      = F32.fin (1 / 2) ∧
    ((lampScene (13743895 / 68719476736) (F32.fin (1 / 2)) 0).intersect
        ⟨(floorHit up).coords, zAxisPrims.normalized
          (Vector3f.sub (lampHit (13743895 / 68719476736)).coords (floorHit up).coords)⟩).distance
      = F32.fin 0 ∧
    zAxisPrims.norm (Vector3f.sub (lampHit (13743895 / 68719476736)).coords (floorHit up).coords)
      = F32.fin (13743895 / 68719476736) ∧
    (0 : ℚ) - 13743895 / 68719476736 > -(2 / 10000) ∧
    (shadeLoDir zAxisPrims (lampScene (13743895 / 68719476736) (F32.fin (1 / 2)) 0) (floorHit up)
      up (constRng (1 / 2))).1 = Vector3f.zero ∧
    Vector3f.sdiv
        (Vector3f.sdiv
          (Vector3f.scaleRight
            (Vector3f.scaleRight
              (Vector3f.mul (lampHit (13743895 / 68719476736)).emit
                ((floorHit up).m.eval up up (floorHit up).normal))
              (F32.max0 (dotProduct (floorHit up).normal up)))
            (F32.max0 (dotProduct (lampHit (13743895 / 68719476736)).normal (Vector3f.neg up))))
          (dotProduct
            (Vector3f.sub (lampHit (13743895 / 68719476736)).coords (floorHit up).coords)
            (Vector3f.sub (lampHit (13743895 / 68719476736)).coords (floorHit up).coords)))
        (F32.fin (1 / 2))
      = ⟨F32.fin 400000032, F32.fin 400000032, F32.fin 400000032⟩ := by
  have hs : sampleLight (lampScene (13743895 / 68719476736) (F32.fin (1 / 2)) 0)
      zAxisPrims.defaultIntersection zAxisPrims.uninitFloat (constRng (1 / 2))
      = (lampHit (13743895 / 68719476736), F32.fin (1 / 2),
          (get_random_float (constRng (1 / 2))).2) := by
    rw [show zAxisPrims.defaultIntersection = miss from rfl,
      show zAxisPrims.uninitFloat = F32.fin 0 from rfl, lampScene_sampleLight]
  refine ⟨epsilon_eq, by rw [hs], by rw [hs], rfl, ?_, by norm_num, ?_, ?_⟩
  · rw [lamp_offset_eps]
    rfl
  · unfold shadeLoDir
    simp only [hs]
    unfold shadeLoDirFrom
    simp only
    rw [if_neg]
    rw [lamp_offset_eps, epsilon_eq]
    simp only [lampScene, zAxisPrims, sub_fin, zero_sub, neg_fin]
    rw [show (-(13743895 / 68719476736) : ℚ) = -13743895 / 68719476736 by norm_num,
      round32_neg_eps, lt_fin]
    simp
  · rw [lamp_offset_eps]
    have hr2 : dotProduct
        (⟨F32.fin 0, F32.fin 0, F32.fin (13743895 / 68719476736)⟩ : Vector3f)
        ⟨F32.fin 0, F32.fin 0, F32.fin (13743895 / 68719476736)⟩
        = F32.fin (5629499 / 140737488355328) := by
      simp only [dotProduct, mul_fin, add_fin, mul_zero, add_zero, zero_add, round32_zero]
      rw [show (13743895 : ℚ) / 68719476736 * (13743895 / 68719476736)
        = 188894649771025 / 4722366482869645213696 by norm_num, round32_eps_sq, add_fin,
        zero_add, round32_eps_sq_idem]
    rw [hr2]
    simp only [lampHit, floorHit, diffuse, dot_up_up, neg_up, dot_down_down, max0_one,
      Vector3f.mul, Vector3f.scaleRight, Vector3f.sdiv, mul_fin, mul_one, round32_eight]
    rw [div_fin 8 _ (by norm_num),
      show (8 : ℚ) / (5629499 / 140737488355328) = 1125899906842624 / 5629499 by norm_num,
      round32_8_div_eps_sq, div_fin _ (1 / 2) (by norm_num),
      show (200000016 : ℚ) / (1 / 2) = 400000032 by norm_num, round32_8_div_eps_sq_twice]

/-- C17, as the code behaves: the two cosine factors are clamped by
`std::max(.0f, x)` and are never negative.  If `inter.normal . L <= 0` or
`hitLight.normal . (-L) <= 0`, with `L` the normalised direction from the
shading point to the light point, then `shadeLoDir` returns the zero colour,
whether or not the shadow ray is occluded, provided that the product of the
emission, the BRDF value and the first cosine is finite, that the second
cosine is finite, and that neither `r2` nor `lightPdf` is zero or a NaN. -/
theorem C17_shadeLoDir_back_facing (env : Prims) (sc : Scene) (inter : Intersection)
    (wo : Vector3f) (rng : Rng) (hitLight : Intersection) (lightPdf : F32) :
    ((F32.le (dotProduct inter.normal
          (env.normalized (Vector3f.sub hitLight.coords inter.coords))) (F32.fin 0) = true ∨
        F32.le (dotProduct hitLight.normal
          (Vector3f.neg (env.normalized (Vector3f.sub hitLight.coords inter.coords))))
          (F32.fin 0) = true) →
      (Vector3f.scaleRight
        (Vector3f.mul hitLight.emit
          (inter.m.eval (env.normalized (Vector3f.sub hitLight.coords inter.coords)) wo
            inter.normal))
        (F32.max0 (dotProduct inter.normal
          (env.normalized (Vector3f.sub hitLight.coords inter.coords))))).isFinite = true →
      (F32.max0 (dotProduct hitLight.normal
        (Vector3f.neg (env.normalized (Vector3f.sub hitLight.coords inter.coords))))).isFinite
        = true →
      dotProduct (Vector3f.sub hitLight.coords inter.coords)
        (Vector3f.sub hitLight.coords inter.coords) ≠ F32.fin 0 →
      dotProduct (Vector3f.sub hitLight.coords inter.coords)
        (Vector3f.sub hitLight.coords inter.coords) ≠ F32.nan →
      lightPdf ≠ F32.fin 0 → lightPdf ≠ F32.nan →
      shadeLoDirFrom env sc inter wo hitLight lightPdf = Vector3f.zero ∧
      ((sampleLight sc env.defaultIntersection env.uninitFloat rng).1 = hitLight →
        (sampleLight sc env.defaultIntersection env.uninitFloat rng).2.1 = lightPdf →
        (shadeLoDir env sc inter wo rng).1 = Vector3f.zero)) ∧
    (∃ cosA cosB : F32, F32.le (F32.fin 0) cosA = true ∧ F32.le (F32.fin 0) cosB = true ∧
      cosA = F32.max0 (dotProduct inter.normal
        (env.normalized (Vector3f.sub hitLight.coords inter.coords))) ∧
      cosB = F32.max0 (dotProduct hitLight.normal
        (Vector3f.neg (env.normalized (Vector3f.sub hitLight.coords inter.coords)))) ∧
      (F32.lt (F32.neg epsilon)
          (F32.sub
            (sc.intersect ⟨inter.coords,
              env.normalized (Vector3f.sub hitLight.coords inter.coords)⟩).distance
            (env.norm (Vector3f.sub hitLight.coords inter.coords))) = true →
        shadeLoDirFrom env sc inter wo hitLight lightPdf =
          Vector3f.sdiv
            (Vector3f.sdiv
              (Vector3f.scaleRight
                (Vector3f.scaleRight
                  (Vector3f.mul hitLight.emit
                    (inter.m.eval (env.normalized (Vector3f.sub hitLight.coords inter.coords))
                      wo inter.normal))
                  cosA)
                cosB)
              (dotProduct (Vector3f.sub hitLight.coords inter.coords)
                (Vector3f.sub hitLight.coords inter.coords)))
            lightPdf)) := by
  constructor
  · intro hback hfin hfinB hr0 hrn hp0 hpn
    have hz : shadeLoDirFrom env sc inter wo hitLight lightPdf = Vector3f.zero := by
      unfold shadeLoDirFrom
      simp only
      split
      · have hnum : Vector3f.scaleRight
            (Vector3f.scaleRight
              (Vector3f.mul hitLight.emit
                (inter.m.eval (env.normalized (Vector3f.sub hitLight.coords inter.coords)) wo
                  inter.normal))
              (F32.max0 (dotProduct inter.normal
                (env.normalized (Vector3f.sub hitLight.coords inter.coords)))))
            (F32.max0 (dotProduct hitLight.normal
              (Vector3f.neg (env.normalized (Vector3f.sub hitLight.coords inter.coords)))))
            = Vector3f.zero := by
          rcases hback with h | h
          · rw [max0_of_le_zero _ h] at hfin ⊢
            rw [scaleRight_zero_of_finite _ hfin]
            exact zero_scaleRight_of_finite _ hfinB
          · rw [max0_of_le_zero _ h]
            exact scaleRight_zero_of_isFinite _ hfin
        rw [hnum, zero_sdiv_of_ne _ hr0 hrn, zero_sdiv_of_ne _ hp0 hpn]
      · rfl
    refine ⟨hz, ?_⟩
    intro hl hp
    unfold shadeLoDir
    simp only [hl, hp]
    exact hz
  · refine ⟨_, _, max0_nonneg _, max0_nonneg _, rfl, rfl, ?_⟩
    intro hvis
    unfold shadeLoDirFrom
    simp only
    rw [if_pos hvis]

/-- C17 evaluated in the fixture scene on a floor point whose normal points
away from the lamp: the shadow ray is unoccluded, the first cosine is clamped
to zero, `r2 = 1` and `lightPdf = 1/2`, and the direct term is zero. -/
theorem C17_shadeLoDir_back_facing_witness :
    shadeLoDirFrom zAxisPrims (lampScene 1 (F32.fin (1 / 2)) 1) (floorHit down) up (lampHit 1)
      (F32.fin (1 / 2)) = Vector3f.zero := by
  have hoff := lamp_offset_one down
  refine ((C17_shadeLoDir_back_facing zAxisPrims (lampScene 1 (F32.fin (1 / 2)) 1)
    (floorHit down) up (constRng (1 / 2)) (lampHit 1) (F32.fin (1 / 2))).1
    (Or.inl ?_) ?_ ?_ ?_ ?_ (by simp) (by simp)).1
  · rw [hoff]
    simp only [zAxisPrims, floorHit, dot_down_up, le_fin]
    exact decide_eq_true (by norm_num)
  · rw [hoff]
    simp only [zAxisPrims, lampHit, floorHit, diffuse, dot_down_up, max0_neg_one, Vector3f.mul,
      Vector3f.scaleRight, Vector3f.isFinite, mul_fin, mul_one, mul_zero, round32_eight,
      round32_zero, F32.isFinite, Bool.and_self]
  · rw [hoff]
    simp only [zAxisPrims, lampHit, neg_up, dot_down_down, max0_one, F32.isFinite]
  · rw [hoff, dot_up_up]
    simp
  · rw [hoff, dot_up_up]
    simp

/-- C17 fails as stated: back-facing geometry does not give the zero colour
for every light sample.  On the floor point whose normal points away from the
lamp, with the shadow ray unoccluded and a light sample whose pdf is 0, the
first cosine is clamped to zero, the numerator is zero, and the division by
`lightPdf = 0` makes every channel a NaN. -/
theorem C17_back_facing_zero_pdf_gives_nan :
    F32.le (dotProduct (floorHit down).normal
      (zAxisPrims.normalized (Vector3f.sub (lampHit 1).coords (floorHit down).coords)))
      (F32.fin 0) = true ∧
    (sampleLight (lampScene 1 (F32.fin 0) 1) zAxisPrims.defaultIntersection
      zAxisPrims.uninitFloat (constRng (1 / 2))).1 = lampHit 1 ∧
    (sampleLight (lampScene 1 (F32.fin 0) 1) zAxisPrims.defaultIntersection
      zAxisPrims.uninitFloat (constRng (1 / 2))).2.1 = F32.fin 0 ∧
    (shadeLoDir zAxisPrims (lampScene 1 (F32.fin 0) 1) (floorHit down) up (constRng (1 / 2))).1
      = ⟨F32.nan, F32.nan, F32.nan⟩ ∧
    (shadeLoDir zAxisPrims (lampScene 1 (F32.fin 0) 1) (floorHit down) up (constRng (1 / 2))).1
      ≠ Vector3f.zero := by
  have hs : sampleLight (lampScene 1 (F32.fin 0) 1) zAxisPrims.defaultIntersection
      zAxisPrims.uninitFloat (constRng (1 / 2))
      = (lampHit 1, F32.fin 0, (get_random_float (constRng (1 / 2))).2) := by
    rw [show zAxisPrims.defaultIntersection = miss from rfl,
      show zAxisPrims.uninitFloat = F32.fin 0 from rfl, lampScene_sampleLight]
  have hval : (shadeLoDir zAxisPrims (lampScene 1 (F32.fin 0) 1) (floorHit down) up
      (constRng (1 / 2))).1 = ⟨F32.nan, F32.nan, F32.nan⟩ := by
    unfold shadeLoDir
    simp only [hs]
    unfold shadeLoDirFrom
    simp only
    rw [if_pos (lampScene_one_visible down (F32.fin 0)), lamp_offset_one]
    simp only [zAxisPrims, lampHit, floorHit, diffuse, dot_down_up, dot_up_up, neg_up,
      dot_down_down, max0_neg_one, max0_one, Vector3f.mul, Vector3f.scaleRight, Vector3f.sdiv,
      mul_fin, mul_one, mul_zero, zero_mul, round32_eight, round32_zero]
    rw [div_fin 0 1 (by norm_num), zero_div, round32_zero]
    simp [F32.div]
  refine ⟨?_, by rw [hs], by rw [hs], hval, ?_⟩
  · rw [lamp_offset_one]
    simp only [zAxisPrims, floorHit, dot_down_up, le_fin]
    exact decide_eq_true (by norm_num)
  · rw [hval]
    intro h
    have h1 := congrArg (fun v => v.x) h
    simp [Vector3f.zero] at h1

end Binary32

end Games101
